import Mathlib

/-!
Shallow embedding of `conspacesampler/barriers.py`: self-concordant barrier
functions over convex domains (box, ellipsoid, simplex, polytope, and
compositions).  Numeric code is embedded over an arbitrary linear ordered
field `K` (instantiated at `ℚ` for decidable claims), except where the source
uses transcendental functions (`log`, `sqrt`, `pow` with real exponents),
which are embedded over `ℝ`.  Point batches are embedded as a single point
(a `List` of coordinates); the source operations are batch-wise independent,
so nothing is lost.
-/

namespace ConSpace

/-- Numeric-safety floor `1e-08` used by the clamping policy. -/
def EPS : ℚ := 1 / 100000000

/-- Hessian ceiling `1e07` used by `BoxBarrier.hessian`. -/
def CEIL7 : ℚ := 10000000

/-- Hessian ceiling `1e08` used by `SimplexBarrier.hessian`. -/
def CEIL8 : ℚ := 100000000

/-- Absolute tolerance `1e-07` of `torch.isclose(y, 0, atol=1e-07, rtol=1e-05)`
in `BoxBarrier.inverse_gradient`; since the comparison target is `0`, the
relative part `rtol * |0|` vanishes and the test is `|y| <= 1e-07`. -/
def ATOLZ : ℚ := 1 / 10000000

section Helpers

variable {K : Type} [LinearOrderedField K]

/-- Dot product of two coordinate lists (`torch.sum(a * b, dim=-1)`). -/
def dotL (a b : List K) : K := (List.zipWith (· * ·) a b).sum

/-- Matrix–vector product, matrix given as a list of rows
(`torch.einsum("ij,...j->...i", M, v)`). -/
def matvec (M : List (List K)) (v : List K) : List K := M.map (fun row => dotL row v)

/-- Transpose of a square matrix given as a list of rows (`M.T`). -/
def transposeSq (M : List (List K)) : List (List K) :=
  (List.range M.length).map (fun i => M.map (fun row => row.getD i 0))

/-- Multiply each row of `M` elementwise by the vector `v`
(the broadcast `M * v` of a `(d, d)` tensor with a `(d,)` tensor). -/
def scaleCols (M : List (List K)) (v : List K) : List (List K) :=
  M.map (fun row => List.zipWith (· * ·) row v)

/-- Square-matrix product (`torch.einsum("...ij,jk->...ik", A, B)`). -/
def matmulSq (A B : List (List K)) : List (List K) :=
  A.map (fun ar => (List.range B.length).map (fun k => dotL ar (B.map (fun br => br.getD k 0))))

/-- Outer product `u.unsqueeze(-1) * v.unsqueeze(-2)`. -/
def outerL (u v : List K) : List (List K) := u.map (fun ui => v.map (fun vj => ui * vj))

/-- Elementwise sum of two matrices (`+` on tensors of equal shape). -/
def matAdd (A B : List (List K)) : List (List K) := List.zipWith (List.zipWith (· + ·)) A B

/-- `torch.diag_embed(v)`: square matrix with `v` on the diagonal. -/
def diagEmbed (v : List K) : List (List K) :=
  (List.range v.length).map (fun i =>
    (List.range v.length).map (fun j => if i = j then v.getD i 0 else 0))

end Helpers

/-! ### BoxBarrier: domain `|x_i| <= a_i` -/

section Box

variable {K : Type} [LinearOrderedField K]

/-- `BoxBarrier._safe_diff`: `clamp_min(bounds ** 2 - x ** 2, 1e-08)`. -/
def boxSafeDiff (eps : K) (bounds x : List K) : List K :=
  List.zipWith (fun a xi => max (a ^ 2 - xi ^ 2) eps) bounds x

/-- `BoxBarrier.feasibility`: `all(|x| <= bounds, dim=-1)`. -/
def boxFeasibility (bounds x : List K) : Bool :=
  (List.zipWith (fun a xi => decide (|xi| ≤ a)) bounds x).all id

/-- `BoxBarrier.gradient`: `2 * x / safe_diff(x)`. -/
def boxGradient (eps : K) (bounds x : List K) : List K :=
  List.zipWith (fun a xi => 2 * xi / max (a ^ 2 - xi ^ 2) eps) bounds x

/-- `BoxBarrier.hessian`: `(2 * r + 4 * (x * r) ** 2).clamp_max_(1e07)` with
`r = safe_diff(x).reciprocal_()`; diagonal, returned as a vector. -/
def boxHessian (eps ceil : K) (bounds x : List K) : List K :=
  List.zipWith (fun a xi =>
    min (2 * (max (a ^ 2 - xi ^ 2) eps)⁻¹ + 4 * (xi * (max (a ^ 2 - xi ^ 2) eps)⁻¹) ^ 2) ceil)
    bounds x

/-- The elementwise scaling `x * (bounds + 1) / bounds` used by the
feasibility test of the spec (§8). -/
def boxScaled (bounds x : List K) : List K :=
  List.zipWith (fun a xi => xi * ((a + 1) / a)) bounds x

end Box

/-! ### SimplexBarrier: domain `x >= 0`, `sum x <= 1` -/

section Simplex

variable {K : Type} [LinearOrderedField K]

/-- `SimplexBarrier._safe_interior`: `clamp_min(1 - sum(x), 1e-08)`. -/
def simplexSafeInterior (eps : K) (x : List K) : K := max (1 - x.sum) eps

/-- `SimplexBarrier.feasibility`: `sum(x) <= 1` and `all(x >= 0)`. -/
def simplexFeasibility (x : List K) : Bool :=
  decide (x.sum ≤ 1) && (x.map (fun xi => decide (0 ≤ xi))).all id

/-- The list of arguments fed to `torch.log` by `SimplexBarrier.value`:
the value is `-sum(log(x)) - log(clamp_min(1 - sum(x), 1e-08))`, so the
per-coordinate arguments are the raw `x_i` (no floor is applied to them)
and the aggregate argument is the floored interior slack. -/
def simplexValueLogArgs (eps : K) (x : List K) : List K :=
  x ++ [simplexSafeInterior eps x]

/-- Finiteness of `SimplexBarrier.value` under IEEE semantics: the sum of
logarithms is finite (neither `±Inf` nor `NaN`) exactly when every argument
passed to `log` is strictly positive (`log 0 = -Inf`, `log` of a negative
number is `NaN`). -/
def simplexValueFinite (eps : K) (x : List K) : Bool :=
  (simplexValueLogArgs eps x).all (fun a => decide (0 < a))

/-- `SimplexBarrier.gradient`: `-1 / clamp_min(x, 1e-08) + 1 / safe_interior(x)`. -/
def simplexGradient (eps : K) (x : List K) : List K :=
  x.map (fun xi => -1 / max xi eps + (simplexSafeInterior eps x)⁻¹)

/-- `SimplexBarrier.hessian`:
`diag_embed(square(x).reciprocal_().clamp_max_(1e08)) + cons` with
`cons = safe_interior(x).reciprocal_().square_().clamp_max_(1e08)` broadcast
over all entries; returned as a full matrix. -/
def simplexHessian (eps ceil : K) (x : List K) : List (List K) :=
  (diagEmbed (x.map (fun xi => min (xi ^ 2)⁻¹ ceil))).map
    (fun row => row.map (fun e => e + min ((simplexSafeInterior eps x)⁻¹ ^ 2) ceil))

end Simplex

/-! ### EllipsoidBarrier: domain `<x, Mx> <= 1`, `M = U diag(eigvals) Uᵀ` -/

section Ellipsoid

variable {K : Type} [LinearOrderedField K]

/-- `torch.einsum("ij,...j->...i", rot.T, x)` — shared first step of the
ellipsoid maps. -/
def ellipsoidUTx (rot : List (List K)) (x : List K) : List K :=
  matvec (transposeSq rot) x

/-- `EllipsoidBarrier._ellipsoid_inner_product`:
`sum(square(UTx) * eigvals, dim=-1)`. -/
def ellipsoidInnerProduct (rot : List (List K)) (eigvals x : List K) : K :=
  (List.zipWith (fun u l => u ^ 2 * l) (ellipsoidUTx rot x) eigvals).sum

/-- `EllipsoidBarrier._inverse_ellipsoid_inner_product`:
`sum(square(UTy) / eigvals, dim=-1)`. -/
def invEllipsoidInnerProduct (rot : List (List K)) (eigvals y : List K) : K :=
  (List.zipWith (fun u l => u ^ 2 / l) (ellipsoidUTx rot y) eigvals).sum

/-- `EllipsoidBarrier._ellipsoid_map`:
`einsum("ij,...j->...i", rot * eigvals, UTx)`. -/
def ellipsoidMap (rot : List (List K)) (eigvals x : List K) : List K :=
  matvec (scaleCols rot eigvals) (ellipsoidUTx rot x)

/-- `EllipsoidBarrier._inverse_ellipsoid_map`:
`einsum("ij,...j->...i", rot / eigvals, UTy)`. -/
def invEllipsoidMap (rot : List (List K)) (eigvals y : List K) : List K :=
  matvec (rot.map (fun row => List.zipWith (· / ·) row eigvals)) (ellipsoidUTx rot y)

/-- `EllipsoidBarrier.feasibility`: `inner_product(x) <= 1`. -/
def ellipsoidFeasibility (rot : List (List K)) (eigvals x : List K) : Bool :=
  decide (ellipsoidInnerProduct rot eigvals x ≤ 1)

/-- The inner product after the masked assignment
`inner_product[inner_product >= 1] = 0` in `EllipsoidBarrier.value`. -/
def ellipsoidClampedIP (rot : List (List K)) (eigvals x : List K) : K :=
  if 1 ≤ ellipsoidInnerProduct rot eigvals x then 0 else ellipsoidInnerProduct rot eigvals x

/-- `EllipsoidBarrier.gradient`:
`2 * Ax / clamp_min(1 - <x, Ax>, 1e-08)`. -/
def ellipsoidGradient (eps : K) (rot : List (List K)) (eigvals x : List K) : List K :=
  (ellipsoidMap rot eigvals x).map
    (fun v => 2 * v / max (1 - ellipsoidInnerProduct rot eigvals x) eps)

/-- `EllipsoidBarrier.hessian`:
`ULUT + scaled_Ax ⊗ scaled_Ax` with `scaled_Ax = 2 Ax / (1 - <x, Ax>)`,
`scaled_L = 2 eigvals / (1 - <x, Ax>)` (denominator clamped at `1e-08`),
`ULUT = einsum("...ij,jk->...ik", U * scaled_L, U.T)`; a full matrix. -/
def ellipsoidHessian (eps : K) (rot : List (List K)) (eigvals x : List K) : List (List K) :=
  let omx := max (1 - ellipsoidInnerProduct rot eigvals x) eps
  let scaledAx := (ellipsoidMap rot eigvals x).map (fun v => 2 * v / omx)
  let scaledL := eigvals.map (fun l => 2 * l / omx)
  matAdd (matmulSq (scaleCols rot scaledL) (transposeSq rot)) (outerL scaledAx scaledAx)

end Ellipsoid

/-! ### PolytopeBarrier: domain `Ax <= b`, optional weights, optional diagonal `A` -/

section Polytope

variable {K : Type} [LinearOrderedField K]

/-- `PolytopeBarrier._safe_slack` for the full-matrix form of `A`:
`clamp_min(b - Ax, 1e-08)`. -/
def polytopeSlackFull (eps : K) (A : List (List K)) (b x : List K) : List K :=
  List.zipWith (fun bi v => max (bi - v) eps) b (matvec A x)

/-- `PolytopeBarrier._safe_slack` for the diagonal (length-`d` vector) form
of `A`: `clamp_min(b - A * x, 1e-08)`. -/
def polytopeSlackDiag (eps : K) (A b x : List K) : List K :=
  List.zipWith (fun bi v => max (bi - v) eps) b (List.zipWith (· * ·) A x)

/-- `PolytopeBarrier.feasibility` (full form): `all(Ax <= b, dim=-1)`. -/
def polytopeFeasibilityFull (A : List (List K)) (b x : List K) : Bool :=
  (List.zipWith (fun v bi => decide (v ≤ bi)) (matvec A x) b).all id

/-- `PolytopeBarrier.feasibility` (diagonal form): `all(A * x <= b, dim=-1)`. -/
def polytopeFeasibilityDiag (A b x : List K) : Bool :=
  (List.zipWith (fun v bi => decide (v ≤ bi)) (List.zipWith (· * ·) A x) b).all id

/-- `PolytopeBarrier.hessian`, diagonal form: `square(A / slack')` where
`slack' = slack.div_(weights.sqrt())` when weights are given.  The source
divides the slack by `sqrt(w_i)` and squares afterwards; over exact
arithmetic `(a / (s / sqrt w)) ^ 2 = (a / s) ^ 2 * w`, which is the form used
here so that the embedding stays inside the field `K`. -/
def polytopeHessianDiag (eps : K) (A b : List K) (weights : Option (List K)) (x : List K) :
    List K :=
  match weights with
  | none => List.zipWith (fun ai si => (ai / si) ^ 2) A (polytopeSlackDiag eps A b x)
  | some w =>
      List.zipWith (fun (p : K × K) wi => (p.1 / p.2) ^ 2 * wi)
        (A.zip (polytopeSlackDiag eps A b x)) w

/-- Sum of a non-empty list of equally-shaped matrices
(`torch.sum(·, dim=-3)`); junk `[]` on the empty list (the source would
produce an empty-constraint zero matrix there, a degenerate case excluded by
the well-formedness hypotheses below). -/
def matListSum (l : List (List (List K))) : List (List K) :=
  match l with
  | [] => []
  | h :: t => t.foldl matAdd h

/-- `PolytopeBarrier.hessian`, full form:
`sum(component.unsqueeze(-1) * component.unsqueeze(-2), dim=-3)` with
`component = A / slack'.unsqueeze(-1)`; the weight `w_m` enters as the exact
rational coefficient `w_m / s_m ^ 2` (see `polytopeHessianDiag`). -/
def polytopeHessianFull (eps : K) (A : List (List K)) (b : List K)
    (weights : Option (List K)) (x : List K) : List (List K) :=
  let s := polytopeSlackFull eps A b x
  let coeffs : List K :=
    match weights with
    | none => s.map (fun si => (1 / si) ^ 2)
    | some w => List.zipWith (fun si wi => (1 / si) ^ 2 * wi) s w
  matListSum (List.zipWith (fun (row : List K) c => (outerL row row).map (fun r => r.map (c * ·)))
    A coeffs)

end Polytope

/-! ### The closed set of concrete barrier variants, and ComposeBarrier -/

/-- The concrete barrier variants that `ComposeBarrier` composes.  The
polytope's `A` parameter is either a full `m × d` matrix or a length-`d`
diagonal vector; the constructor records which form was supplied, exactly as
`PolytopeBarrier.__init__` records it in `diag_hess`. -/
inductive CBarrier (K : Type) where
  | box (bounds : List K)
  | ellipsoid (rot : List (List K)) (eigvals : List K)
  | simplex (dimension : ℕ)
  | polytopeFull (A : List (List K)) (b : List K) (weights : Option (List K))
  | polytopeDiag (A : List K) (b : List K) (weights : Option (List K))

/-- A Hessian as returned by `hessian()`: a length-`d` diagonal vector or a
full `d × d` matrix. -/
inductive HessResult (K : Type) where
  | diag (v : List K)
  | full (M : List (List K))

section CBarrierOps

variable {K : Type} [LinearOrderedField K]

/-- The `diag_hess` flag of each concrete barrier: `BoxBarrier.__init__`
sets it true, `EllipsoidBarrier` and `SimplexBarrier` inherit the base-class
default `False`, `PolytopeBarrier.__init__` sets it true exactly when `A` is
given in its one-dimensional (diagonal) form. -/
def CBarrier.diagHess : CBarrier K → Bool
  | .box _ => true
  | .ellipsoid _ _ => false
  | .simplex _ => false
  | .polytopeFull _ _ _ => false
  | .polytopeDiag _ _ _ => true

/-- `feasibility` dispatched over the concrete variants. -/
def CBarrier.feasibility : CBarrier K → List K → Bool
  | .box bounds, x => boxFeasibility bounds x
  | .ellipsoid rot eigvals, x => ellipsoidFeasibility rot eigvals x
  | .simplex _, x => simplexFeasibility x
  | .polytopeFull A b _, x => polytopeFeasibilityFull A b x
  | .polytopeDiag A b _, x => polytopeFeasibilityDiag A b x

/-- `hessian` dispatched over the concrete variants; the constructors with a
diagonal Hessian return the vector form, the others the full matrix form. -/
def CBarrier.hessian (eps : K) : CBarrier K → List K → HessResult K
  | .box bounds, x => .diag (boxHessian eps (10000000 : K) bounds x)
  | .ellipsoid rot eigvals, x => .full (ellipsoidHessian eps rot eigvals x)
  | .simplex _, x => .full (simplexHessian eps (100000000 : K) x)
  | .polytopeFull A b w, x => .full (polytopeHessianFull eps A b w x)
  | .polytopeDiag A b w, x => .diag (polytopeHessianDiag eps A b w x)

/-- Extract the vector of a diagonal Hessian result (junk `[]` on a full
matrix; `ComposeBarrier.hessian` only applies it to constituents whose
`diag_hess` flag is true, whose results are vectors — see the flag/shape
consistency theorem). -/
def HessResult.getDiag : HessResult K → List K
  | .diag v => v
  | .full _ => []

/-- Extract the matrix of a full Hessian result (junk `[]` on a vector). -/
def HessResult.getFull : HessResult K → List (List K)
  | .diag _ => []
  | .full M => M

/-- `ComposeBarrier.__init__` partitions the constituents by their
`diag_hess` flag into `_hess_compute_order` (index order preserved); this is
the diagonal part. -/
def composeDiagPart (bs : List (CBarrier K)) : List (CBarrier K) :=
  bs.filter (fun b => b.diagHess)

/-- The non-diagonal part of `_hess_compute_order`. -/
def composeFullPart (bs : List (CBarrier K)) : List (CBarrier K) :=
  bs.filter (fun b => !b.diagHess)

/-- `ComposeBarrier.diag_hess`: set to `True` in `__init__` iff the
non-diagonal part of the compute order is empty (otherwise the inherited
default `False` stands). -/
def composeDiagHess (bs : List (CBarrier K)) : Bool :=
  (composeFullPart bs).isEmpty

/-- `ComposeBarrier.hessian`.  The source initialises the local accumulator
`hessian = torch.zeros_like(x)` only inside `if len(order[1]) > 0`; when the
flag is false it then evaluates `torch.diag_embed(hessian)`, which raises
`UnboundLocalError` whenever no diagonal constituent exists.  The `Option` is
`none` exactly on the executions where the source crashes on the unbound
local. -/
def composeHessian (eps : K) (bs : List (CBarrier K)) (x : List K) : Option (HessResult K) :=
  let acc : Option (List K) :=
    if (composeDiagPart bs).isEmpty then none
    else some ((composeDiagPart bs).foldl
      (fun acc b => List.zipWith (· + ·) acc (b.hessian eps x).getDiag)
      (x.map (fun _ => 0)))
  if composeDiagHess bs then acc.map HessResult.diag
  else
    match acc with
    | none => none
    | some v => some (.full ((composeFullPart bs).foldl
        (fun acc b => matAdd acc (b.hessian eps x).getFull) (diagEmbed v)))

/-- `ComposeBarrier.feasibility`: conjunction over constituents
(`check.logical_and_(barrier.feasibility(x))` starting from ones). -/
def composeFeasibility (bs : List (CBarrier K)) (x : List K) : Bool :=
  bs.foldl (fun check b => check && b.feasibility x) true

end CBarrierOps

/-! ### Shape well-formedness and the `diag_hess` invariant -/

section Shapes

variable {K : Type} [LinearOrderedField K]

lemma mem_zipWith_decomp {α β γ : Type} {f : α → β → γ} {c : γ} :
    ∀ {as : List α} {bs : List β}, c ∈ List.zipWith f as bs →
      ∃ a ∈ as, ∃ b ∈ bs, c = f a b := by
  intro as
  induction as with
  | nil => intro bs h; simp at h
  | cons a as ih =>
    intro bs h
    cases bs with
    | nil => simp at h
    | cons b bs =>
      simp only [List.zipWith_cons_cons, List.mem_cons] at h
      rcases h with h | h
      · exact ⟨a, by simp, b, by simp, h⟩
      · rcases ih h with ⟨a', ha', b', hb', rfl⟩
        exact ⟨a', by simp [ha'], b', by simp [hb'], rfl⟩

/-- Well-formedness of a barrier's construction parameters relative to the
dimension of the query point: the shape constraints §3 of the spec places on
constructor inputs. -/
def CBarrier.wf : CBarrier K → List K → Prop
  | .box bounds, x => bounds.length = x.length
  | .ellipsoid rot eigvals, x =>
      rot.length = x.length ∧ (∀ row ∈ rot, row.length = x.length) ∧
        eigvals.length = x.length
  | .simplex _, x => x ≠ []
  | .polytopeFull A b w, x =>
      A ≠ [] ∧ b.length = A.length ∧ (∀ row ∈ A, row.length = x.length) ∧
        (∀ w' : List K, w = some w' → w'.length = b.length)
  | .polytopeDiag A b w, x =>
      A.length = x.length ∧ b.length = x.length ∧
        (∀ w' : List K, w = some w' → w'.length = b.length)

/-- What a Hessian result of ambient dimension `d` must look like given the
`diag_hess` flag: a length-`d` vector when the flag is true, a full `d × d`
matrix when it is false. -/
def resultMatches (d : ℕ) (flag : Bool) : HessResult K → Prop
  | .diag v => flag = true ∧ v.length = d
  | .full M => flag = false ∧ M.length = d ∧ ∀ row ∈ M, row.length = d

lemma boxHessian_length (eps ceil : K) (bounds x : List K)
    (h : bounds.length = x.length) : (boxHessian eps ceil bounds x).length = x.length := by
  simp [boxHessian, h]

lemma matmulSq_shape (A B : List (List K)) :
    (matmulSq A B).length = A.length ∧ ∀ row ∈ matmulSq A B, row.length = B.length := by
  constructor
  · simp [matmulSq]
  · intro row hrow
    simp only [matmulSq, List.mem_map] at hrow
    rcases hrow with ⟨r, _, rfl⟩
    simp

lemma matAdd_shape (A B : List (List K)) (d : ℕ)
    (hA : A.length = d) (hAr : ∀ row ∈ A, row.length = d)
    (hB : B.length = d) (hBr : ∀ row ∈ B, row.length = d) :
    (matAdd A B).length = d ∧ ∀ row ∈ matAdd A B, row.length = d := by
  constructor
  · simp [matAdd, hA, hB]
  · intro row hrow
    rcases mem_zipWith_decomp hrow with ⟨r1, h1, r2, h2, rfl⟩
    simp [hAr r1 h1, hBr r2 h2]

lemma ellipsoidHessian_shape (eps : K) (rot : List (List K)) (eigvals x : List K)
    (h : rot.length = x.length) :
    (ellipsoidHessian eps rot eigvals x).length = x.length ∧
      ∀ row ∈ ellipsoidHessian eps rot eigvals x, row.length = x.length := by
  unfold ellipsoidHessian
  apply matAdd_shape
  · simp [matmulSq, scaleCols, h]
  · intro row hrow
    simp only [matmulSq] at hrow
    rcases List.mem_map.mp hrow with ⟨r, _, rfl⟩
    simp [transposeSq, h]
  · simp [outerL, ellipsoidMap, matvec, scaleCols, h]
  · intro row hrow
    simp only [outerL] at hrow
    rcases List.mem_map.mp hrow with ⟨u, _, rfl⟩
    simp [ellipsoidMap, matvec, scaleCols, h]

lemma simplexHessian_shape (eps ceil : K) (x : List K) :
    (simplexHessian eps ceil x).length = x.length ∧
      ∀ row ∈ simplexHessian eps ceil x, row.length = x.length := by
  constructor
  · simp [simplexHessian, diagEmbed]
  · intro row hrow
    simp only [simplexHessian] at hrow
    rcases List.mem_map.mp hrow with ⟨r, hr, rfl⟩
    simp only [diagEmbed] at hr
    rcases List.mem_map.mp hr with ⟨i, _, rfl⟩
    simp

lemma polytopeHessianDiag_length (eps : K) (A b : List K) (w : Option (List K)) (x : List K)
    (hA : A.length = x.length) (hb : b.length = x.length)
    (hw : ∀ w' : List K, w = some w' → w'.length = b.length) :
    (polytopeHessianDiag eps A b w x).length = x.length := by
  cases w with
  | none => simp [polytopeHessianDiag, polytopeSlackDiag, hA, hb]
  | some w' =>
    have := hw w' rfl
    simp [polytopeHessianDiag, polytopeSlackDiag, hA, hb, this]

lemma matListSum_shape (l : List (List (List K))) (d : ℕ) (hne : l ≠ [])
    (h : ∀ M ∈ l, M.length = d ∧ ∀ row ∈ M, row.length = d) :
    (matListSum l).length = d ∧ ∀ row ∈ matListSum l, row.length = d := by
  cases l with
  | nil => exact absurd rfl hne
  | cons M t =>
    simp only [matListSum]
    have base := h M (by simp)
    have hrest : ∀ N ∈ t, N.length = d ∧ ∀ row ∈ N, row.length = d := by
      intro N hN; exact h N (by simp [hN])
    clear hne h
    induction t generalizing M with
    | nil => simpa using base
    | cons N t ih =>
      simp only [List.foldl_cons]
      have hN := hrest N (by simp)
      have hMN := matAdd_shape M N d base.1 base.2 hN.1 hN.2
      exact ih (matAdd M N) hMN (fun P hP => hrest P (by simp [hP]))

lemma polytopeHessianFull_shape (eps : K) (A : List (List K)) (b : List K)
    (w : Option (List K)) (x : List K)
    (hne : A ≠ []) (hb : b.length = A.length) (hAr : ∀ row ∈ A, row.length = x.length)
    (hw : ∀ w' : List K, w = some w' → w'.length = b.length) :
    (polytopeHessianFull eps A b w x).length = x.length ∧
      ∀ row ∈ polytopeHessianFull eps A b w x, row.length = x.length := by
  have hslen : (polytopeSlackFull eps A b x).length = A.length := by
    simp [polytopeSlackFull, matvec, hb]
  have main : ∀ coeffs : List K, coeffs.length = A.length →
      (matListSum (List.zipWith
          (fun (row : List K) c => (outerL row row).map (fun r => r.map (c * ·)))
          A coeffs)).length = x.length ∧
        ∀ row ∈ matListSum (List.zipWith
          (fun (row : List K) c => (outerL row row).map (fun r => r.map (c * ·)))
          A coeffs), row.length = x.length := by
    intro coeffs hclen
    apply matListSum_shape
    · intro hemp
      have : (List.zipWith
          (fun (row : List K) c => (outerL row row).map (fun r => r.map (c * ·)))
          A coeffs).length = A.length := by simp [hclen]
      rw [hemp] at this
      simp at this
      exact hne (List.length_eq_zero.mp this.symm)
    · intro M hM
      rcases mem_zipWith_decomp hM with ⟨row, hrow, c, _, rfl⟩
      have hrl := hAr row hrow
      constructor
      · simp [outerL, hrl]
      · intro r hr
        simp only [List.mem_map] at hr
        rcases hr with ⟨r', hr', rfl⟩
        simp only [outerL] at hr'
        rcases List.mem_map.mp hr' with ⟨u, _, rfl⟩
        simp [hrl]
  cases w with
  | none =>
    simpa [polytopeHessianFull] using main _ (by simp [hslen])
  | some w' =>
    have hwl := hw w' rfl
    have h2 := main (List.zipWith (fun si wi => (1 / si) ^ 2 * wi)
      (polytopeSlackFull eps A b x) w') (by simp [hslen, hwl, hb])
    simpa [polytopeHessianFull] using h2

/-- Per-variant flag/shape consistency: under well-formed construction
parameters, `hessian` returns a length-`d` diagonal vector iff the variant's
`diag_hess` flag is true, and a `d × d` matrix iff it is false. -/
lemma cbarrier_shape (eps : K) (b : CBarrier K) (x : List K) (hwf : b.wf x) :
    resultMatches x.length b.diagHess (b.hessian eps x) := by
  cases b with
  | box bounds =>
    exact ⟨rfl, boxHessian_length _ _ _ _ hwf⟩
  | ellipsoid rot eigvals =>
    have := ellipsoidHessian_shape eps rot eigvals x hwf.1
    exact ⟨rfl, this.1, this.2⟩
  | simplex d =>
    have := simplexHessian_shape eps (100000000 : K) x
    exact ⟨rfl, this.1, this.2⟩
  | polytopeFull A b w =>
    have := polytopeHessianFull_shape eps A b w x hwf.1 hwf.2.1 hwf.2.2.1 hwf.2.2.2
    exact ⟨rfl, this.1, this.2⟩
  | polytopeDiag A b w =>
    exact ⟨rfl, polytopeHessianDiag_length eps A b w x hwf.1 hwf.2.1 hwf.2.2⟩

lemma getDiag_length (eps : K) (b : CBarrier K) (x : List K) (hwf : b.wf x)
    (hflag : b.diagHess = true) : (b.hessian eps x).getDiag.length = x.length := by
  have := cbarrier_shape eps b x hwf
  cases hr : b.hessian eps x with
  | diag v => rw [hr] at this; exact this.2
  | full M => rw [hr] at this; rw [this.1] at hflag; cases hflag

lemma getFull_shape (eps : K) (b : CBarrier K) (x : List K) (hwf : b.wf x)
    (hflag : b.diagHess = false) :
    (b.hessian eps x).getFull.length = x.length ∧
      ∀ row ∈ (b.hessian eps x).getFull, row.length = x.length := by
  have := cbarrier_shape eps b x hwf
  cases hr : b.hessian eps x with
  | diag v => rw [hr] at this; rw [this.1] at hflag; cases hflag
  | full M => rw [hr] at this; exact ⟨this.2.1, this.2.2⟩

lemma diagEmbed_shape (v : List K) :
    (diagEmbed v).length = v.length ∧ ∀ row ∈ diagEmbed v, row.length = v.length := by
  refine ⟨by simp [diagEmbed], ?_⟩
  intro row hrow
  simp only [diagEmbed] at hrow
  rcases List.mem_map.mp hrow with ⟨i, _, rfl⟩
  simp

lemma foldl_vecAdd_length (eps : K) (x : List K) :
    ∀ (l : List (CBarrier K)) (acc : List K), acc.length = x.length →
      (∀ b ∈ l, b.wf x ∧ b.diagHess = true) →
      (l.foldl (fun acc b => List.zipWith (· + ·) acc (b.hessian eps x).getDiag) acc).length
        = x.length := by
  intro l
  induction l with
  | nil => intro acc h _; simpa using h
  | cons b t ih =>
    intro acc hacc hall
    simp only [List.foldl_cons]
    apply ih
    · have hb := hall b (by simp)
      have := getDiag_length eps b x hb.1 hb.2
      simp [hacc, this]
    · intro b' hb'; exact hall b' (by simp [hb'])

lemma foldl_matAdd_shape (eps : K) (x : List K) :
    ∀ (l : List (CBarrier K)) (acc : List (List K)),
      acc.length = x.length → (∀ row ∈ acc, row.length = x.length) →
      (∀ b ∈ l, b.wf x ∧ b.diagHess = false) →
      (l.foldl (fun acc b => matAdd acc (b.hessian eps x).getFull) acc).length = x.length ∧
        ∀ row ∈ l.foldl (fun acc b => matAdd acc (b.hessian eps x).getFull) acc,
          row.length = x.length := by
  intro l
  induction l with
  | nil => intro acc h1 h2 _; simpa using ⟨h1, h2⟩
  | cons b t ih =>
    intro acc hacc hrows hall
    simp only [List.foldl_cons]
    have hb := hall b (by simp)
    have hF := getFull_shape eps b x hb.1 hb.2
    have := matAdd_shape acc (b.hessian eps x).getFull x.length hacc hrows hF.1 hF.2
    exact ih _ this.1 this.2 (fun b' hb' => hall b' (by simp [hb']))

/-- Flag/shape consistency of `ComposeBarrier.hessian` on the executions
where it returns at all (see the `UnboundLocalError` theorem for the ones
where it does not). -/
lemma composeHessian_shape (eps : K) (bs : List (CBarrier K)) (x : List K)
    (hwf : ∀ b ∈ bs, b.wf x) (r : HessResult K)
    (h : composeHessian eps bs x = some r) :
    resultMatches x.length (composeDiagHess bs) r := by
  have hdiagmem : ∀ b ∈ composeDiagPart bs, b.wf x ∧ b.diagHess = true := by
    intro b hb
    have := List.mem_filter.mp hb
    exact ⟨hwf b this.1, this.2⟩
  have hfullmem : ∀ b ∈ composeFullPart bs, b.wf x ∧ b.diagHess = false := by
    intro b hb
    have := List.mem_filter.mp hb
    exact ⟨hwf b this.1, by simpa using this.2⟩
  by_cases hde : (composeDiagPart bs).isEmpty
  · unfold composeHessian at h
    rw [if_pos hde] at h
    by_cases hcd : composeDiagHess bs <;> simp [hcd] at h
  · unfold composeHessian at h
    rw [if_neg hde] at h
    set v0 := (composeDiagPart bs).foldl
      (fun acc b => List.zipWith (· + ·) acc (b.hessian eps x).getDiag)
      (x.map (fun _ => 0)) with hv0
    have hv0len : v0.length = x.length :=
      foldl_vecAdd_length eps x (composeDiagPart bs) _ (by simp) hdiagmem
    by_cases hcd : composeDiagHess bs
    · rw [if_pos hcd] at h
      simp only [Option.map_some'] at h
      cases h
      exact ⟨hcd, hv0len⟩
    · rw [if_neg hcd] at h
      cases h
      have hde' := diagEmbed_shape v0
      have := foldl_matAdd_shape eps x (composeFullPart bs) (diagEmbed v0)
        (hde'.1.trans hv0len) (fun row hr => (hde'.2 row hr).trans hv0len) hfullmem
      exact ⟨by simpa using hcd, this.1, this.2⟩

lemma composeDiagHess_eq_all (bs : List (CBarrier K)) :
    composeDiagHess bs = bs.all (fun b => b.diagHess) := by
  induction bs with
  | nil => rfl
  | cons b t ih =>
    cases hb : b.diagHess <;>
      simp_all [composeDiagHess, composeFullPart, List.filter_cons, hb]

end Shapes

/-! First claim-level facts (C2, C4). -/

/-- C2: the claim asserts the `1e-08` floor is applied to the per-coordinate
log arguments as well, making `value` finite at a point with a zero
coordinate.  At `x = [0, 0]` the per-coordinate argument is the raw `0`
(below the floor), and the value is non-finite. -/
theorem simplex_value_unfloored_counterexample :
    simplexValueLogArgs EPS [(0 : ℚ), 0] = [0, 0, 1] ∧
      simplexValueFinite EPS [(0 : ℚ), 0] = false := by
  constructor
  · simp [simplexValueLogArgs, simplexSafeInterior, EPS]
    norm_num
  · simp [simplexValueFinite, simplexValueLogArgs, simplexSafeInterior, EPS]

section ClaimHelpers

variable {K : Type} [LinearOrderedField K]

lemma getD_zipWith_eq {α β γ : Type} (f : α → β → γ) (a0 : α) (b0 : β) (c0 : γ) :
    ∀ (as : List α) (bs : List β) (i : ℕ), i < as.length → i < bs.length →
      (List.zipWith f as bs).getD i c0 = f (as.getD i a0) (bs.getD i b0) := by
  intro as
  induction as with
  | nil => intro bs i h _; simp at h
  | cons a as ih =>
    intro bs i h1 h2
    cases bs with
    | nil => simp at h2
    | cons b bs =>
      cases i with
      | zero => simp [List.getD]
      | succ i =>
        simp only [List.zipWith_cons_cons, List.getD_cons_succ]
        exact ih bs i (by simpa using h1) (by simpa using h2)

lemma getD_mem {α : Type} (l : List α) (i : ℕ) (d : α) (h : i < l.length) :
    l.getD i d ∈ l := by
  rw [List.getD_eq_getElem l d h]
  exact List.getElem_mem h

lemma boxFeasibility_iff (bounds x : List K) (h : bounds.length = x.length) :
    boxFeasibility bounds x = true ↔
      ∀ i < x.length, |x.getD i 0| ≤ bounds.getD i 0 := by
  induction bounds generalizing x with
  | nil =>
    cases x with
    | nil => simp [boxFeasibility]
    | cons _ _ => simp at h
  | cons a bs ih =>
    cases x with
    | nil => simp at h
    | cons xi xs =>
      have hlen : bs.length = xs.length := by simpa using h
      simp only [boxFeasibility, List.zipWith_cons_cons, List.all_cons, Bool.and_eq_true,
        id_eq, decide_eq_true_eq]
      rw [show ((List.zipWith (fun a xi => decide (|xi| ≤ a)) bs xs).all id = true) =
        (boxFeasibility bs xs = true) from rfl, ih xs hlen]
      constructor
      · rintro ⟨h0, hrest⟩ i hi
        cases i with
        | zero => simpa using h0
        | succ i => simpa using hrest i (by simpa using hi)
      · intro hall
        refine ⟨by simpa using hall 0 (by simp), fun i hi => ?_⟩
        simpa using hall (i + 1) (by simpa using hi)

end ClaimHelpers

/-- C2 (amended): `SimplexBarrier.value` floors only the aggregate term; the
per-coordinate arguments are the raw coordinates, so under IEEE log semantics
the value is finite exactly when every coordinate is strictly positive. -/
theorem simplex_value_finite_iff_pos (x : List ℚ) :
    simplexValueFinite EPS x = x.all (fun xi => decide (0 < xi)) ∧
      EPS ≤ simplexSafeInterior EPS x := by
  refine ⟨?_, le_max_right _ _⟩
  unfold simplexValueFinite simplexValueLogArgs
  rw [List.all_append]
  have hpos : (0 : ℚ) < simplexSafeInterior EPS x :=
    lt_of_lt_of_le (by norm_num [EPS]) (le_max_right _ _)
  simp [List.all_eq, hpos]

/-! ### SimplexBarrier.inverse_gradient: the 35-iteration bisection -/

section Bisection

variable {K : Type} [LinearOrderedField K]

/-- `torch.max(y, dim=-1)[0]` for a non-empty coordinate list. -/
def tmax (y : List K) : K := y.foldl max (y.headD 0)

/-- The bisection residual `f(c) = c + c * sum(1 / (1 - c * y)) - 1` of
`SimplexBarrier.inverse_gradient`. -/
def simplexF (y : List K) (c : K) : K :=
  c + c * (y.map (fun yi => 1 / (1 - c * yi))).sum - 1

/-- The initial upper bracket of the bisection:
`c_upper = reciprocal(max(y))`, then `c_upper.clamp_max_(1)`, then
`c_upper[c_upper < 0] = 1`.  When `max(y) = 0` the reciprocal is `+Inf` in
the source's arithmetic and the clamp yields `1`; that case is spelled out
here because the field `K` has no infinity. -/
def simplexCUpper (y : List K) : K :=
  if tmax y = 0 then 1
  else if min (tmax y)⁻¹ 1 < 0 then 1 else min (tmax y)⁻¹ 1

/-- One bisection iteration: evaluate `f` at the bracket midpoint; where
`f_middle > 0` the upper bound moves down, elsewhere the lower bound moves
up. -/
def simplexBisectStep (y : List K) (p : K × K) : K × K :=
  if 0 < simplexF y ((p.1 + p.2) / 2) then (p.1, (p.1 + p.2) / 2)
  else ((p.1 + p.2) / 2, p.2)

/-- The bracket after the fixed budget of 35 bisection iterations, starting
from `(c_lower, c_upper) = (0, c_upper)`. -/
def simplexBisect (y : List K) : K × K :=
  (simplexBisectStep y)^[35] (0, simplexCUpper y)

/-- `SimplexBarrier.inverse_gradient`:
`clamp_min(c_upper / (1 - c_upper * y), 1e-08)` elementwise, with `c_upper`
the upper end of the final bracket. -/
def simplexInverseGradient (eps : K) (y : List K) : List K :=
  y.map (fun yi => max ((simplexBisect y).2 / (1 - (simplexBisect y).2 * yi)) eps)

/-- Modelled from the spec (§4.5), for comparison with the source
translation above: bisection on `c ∈ [0, c_upper]` with
`c_upper = min(1, 1/max(y))` clamped to `1` whenever `max(y) ≤ 0`, seeking
the root of `f(c) = c + c·Σ 1/(1−c·yᵢ) − 1`; exactly 35 iterations, each
moving the upper bound down when `f_middle > 0` and the lower bound up
otherwise; the result is `c/(1−c·y)` elementwise, floored at `1e-08`. -/
def specSimplexInverseGradient (eps : K) (y : List K) : List K :=
  let cUp : K := if tmax y ≤ 0 then 1 else min 1 (tmax y)⁻¹
  let loop : ℕ → K × K := fun n =>
    Nat.rec (motive := fun _ => K × K) (0, cUp)
      (fun _ p =>
        let mid := (p.1 + p.2) / 2
        if 0 < mid + mid * (y.map (fun yi => (1 - mid * yi)⁻¹)).sum - 1 then (p.1, mid)
        else (mid, p.2)) n
  y.map (fun yi => max ((loop 35).2 / (1 - (loop 35).2 * yi)) eps)

end Bisection

/-! ### Real-valued operations (log / sqrt) -/

/-- `EllipsoidBarrier.value`: `-log1p(-inner_product)` after the masked
assignment zeroing the inner product at or outside the boundary; rational
construction parameters, real result. -/
noncomputable def ellipsoidValue (rot : List (List ℚ)) (eigvals x : List ℚ) : ℝ :=
  -Real.log (1 + -((ellipsoidClampedIP rot eigvals x : ℚ) : ℝ))

/-- The raw per-coordinate closed form of `BoxBarrier.inverse_gradient`:
`(-1 + sqrt(1 + (bounds * y) ** 2)) / y` (computed before the mask is
applied, with junk `x / 0 = 0` where the source arithmetic would produce
`NaN`/`Inf`; those coordinates are overwritten by the mask below). -/
noncomputable def boxInverseGradientRaw (bounds y : List ℚ) : List ℝ :=
  List.zipWith (fun (a yi : ℚ) =>
    (-1 + Real.sqrt (1 + ((a : ℝ) * (yi : ℝ)) ^ 2)) / (yi : ℝ)) bounds y

/-- `BoxBarrier.inverse_gradient`: the raw closed form with the masked
assignment `raw[torch.isclose(y, 0, atol=1e-07, rtol=1e-05)] = 0`. -/
noncomputable def boxInverseGradient (bounds y : List ℚ) : List ℝ :=
  List.zipWith (fun yi r => if |yi| ≤ ATOLZ then (0 : ℝ) else r)
    y (boxInverseGradientRaw bounds y)

/-! ### Unsupported operations (`raise NotImplementedError`) -/

/-- The unsupported-operation error of the barrier contract
(`NotImplementedError`). -/
inductive BarrierError where
  | notImplemented
deriving DecidableEq

/-- The base-class `Barrier.inverse_gradient`: `raise NotImplementedError`. -/
def baseInverseGradient (y : List ℚ) : Except BarrierError (List ℚ) :=
  .error .notImplemented

/-- The base-class `Barrier.boundary_to_interior_half`:
`raise NotImplementedError`. -/
def baseBoundaryToInteriorHalf (x : List ℚ) : Except BarrierError Bool :=
  .error .notImplemented

/-- `PolytopeBarrier.inverse_gradient`: the method body is a bare
`raise NotImplementedError`; modeled state-passing — the barrier's
parameters (`A` in either form, `b`, optional weights) are returned
untouched alongside the error. -/
def polytopeInverseGradient (A : List (List ℚ) ⊕ List ℚ) (b : List ℚ)
    (weights : Option (List ℚ)) (y : List ℚ) :
    Except BarrierError (List ℚ) × (List (List ℚ) ⊕ List ℚ) × List ℚ × Option (List ℚ) :=
  (.error .notImplemented, A, b, weights)

/-- `ComposeBarrier` does not override `inverse_gradient`; a call dispatches
to the base-class body, which raises; the constituent list is untouched. -/
def composeInverseGradient (bs : List (CBarrier ℚ)) (y : List ℚ) :
    Except BarrierError (List ℚ) × List (CBarrier ℚ) :=
  (baseInverseGradient y, bs)

/-- `ComposeBarrier` does not override `boundary_to_interior_half` either. -/
def composeBoundaryToInteriorHalf (bs : List (CBarrier ℚ)) (x : List ℚ) :
    Except BarrierError Bool × List (CBarrier ℚ) :=
  (baseBoundaryToInteriorHalf x, bs)

/-! ### The mutable-tensor heap model

The source relies on in-place tensor operations (`add_`, `clamp_min_`,
`clamp_max_`, `reciprocal_`, `logical_and_`, `mul_`, `div_`, `square_`,
masked assignment, `unsqueeze_`).  To state the purity/frame claim we model
the tensor store explicitly: a heap of tensors indexed by allocation order.
Operations returning fresh tensors append; in-place operations are
`List.set` at an explicit index.  A method receives the heap indices of the
barrier's parameter tensors and of the caller's input tensor, and the frame
theorems prove the initial heap segment — hence every parameter and the
input — is returned unchanged.  Chains of purely fresh intermediate tensors
are collapsed into a single allocation of their final value, which preserves
the mutation structure exactly (none of the collapsed steps mutates).  The
matrix parameters that some barriers read (`rot`, two-dimensional `A`) are
also heap tensors.  `unsqueeze_` changes only shape metadata; it is modeled
as an in-place write of the unchanged value. -/

section HeapModel

/-- A tensor: one-dimensional (vectors; scalars as singletons; boolean
tensors as 0/1 entries) or two-dimensional. -/
inductive TVal where
  | v (l : List ℝ)
  | m (M : List (List ℝ))

/-- The mutable tensor store. -/
abbrev Heap := List TVal

/-- Read a one-dimensional tensor (junk `[]` on a matrix or missing id). -/
def readV (h : Heap) (i : ℕ) : List ℝ :=
  match h.getD i (.v []) with
  | .v l => l
  | .m _ => []

/-- Read a two-dimensional tensor (junk `[]` otherwise). -/
def readM (h : Heap) (i : ℕ) : List (List ℝ) :=
  match h.getD i (.v []) with
  | .v _ => []
  | .m M => M

/-- Boolean tensor entries are 0/1 reals. -/
noncomputable def encB (b : Bool) : ℝ := if b then 1 else 0

/-- `logical_and_` on 0/1 tensors. -/
noncomputable def andT (a b : List ℝ) : List ℝ :=
  List.zipWith (fun u w => if u ≠ 0 ∧ w ≠ 0 then (1 : ℝ) else 0) a b

/-- Allocate one fresh tensor and return its id. -/
def alloc1 (t : TVal) (h : Heap) : ℕ × Heap := (h.length, h ++ [t])

/-- The clamping floor over `ℝ`. -/
noncomputable def EPSR : ℝ := 1 / 100000000

/-- The `1e07` Hessian ceiling over `ℝ`. -/
noncomputable def CEIL7R : ℝ := 10000000

/-- The `1e08` Hessian ceiling over `ℝ`. -/
noncomputable def CEIL8R : ℝ := 100000000

/-- The `isclose`-to-zero tolerance over `ℝ`. -/
noncomputable def ATOLR : ℝ := 1 / 10000000

lemma take_pres_append {α : Type} {A : List α} {n : ℕ} (l : List α) (hn : n ≤ A.length) :
    (A ++ l).take n = A.take n :=
  List.take_append_of_le_length hn

lemma take_pres_set {α : Type} {A : List α} {i n : ℕ} (t : α) (hn : n ≤ i) :
    (A.set i t).take n = A.take n := by
  apply List.ext_getElem
  · simp
  · intro j h1 h2
    simp only [List.length_take, List.length_set, lt_min_iff] at h1 h2
    rw [List.getElem_take, List.getElem_take, List.getElem_set_ne (by omega)]

lemma alloc1_frame (t : TVal) (h : Heap) : ((alloc1 t h).2).take h.length = h := by
  rw [alloc1, take_pres_append _ (le_refl _), List.take_length]

/-! Box barrier heap translations. -/

/-- `BoxBarrier.value` over `ℝ` (`-sum(log(safe_diff(x)))`). -/
noncomputable def boxValueR (bounds x : List ℝ) : ℝ :=
  -((boxSafeDiff EPSR bounds x).map Real.log).sum

/-- `BoxBarrier.boundary_to_interior_half` over `ℝ`:
`any(|x| > bounds * 0.5 ** (1/d))` with `d = bounds.shape[-1]`. -/
noncomputable def boxBoundaryR (bounds x : List ℝ) : Bool :=
  (List.zipWith (fun a xv =>
    decide (a * (1 / 2 : ℝ) ^ ((1 : ℝ) / (bounds.length : ℝ)) < |xv|)) bounds x).any id

/-- `BoxBarrier.feasibility` (no in-place ops: one fresh result). -/
noncomputable def boxFeasibilityH (bi xi : ℕ) (h : Heap) : ℕ × Heap :=
  alloc1 (.v [encB (boxFeasibility (readV h bi) (readV h xi))]) h

/-- `BoxBarrier.value` (no in-place ops). -/
noncomputable def boxValueH (bi xi : ℕ) (h : Heap) : ℕ × Heap :=
  alloc1 (.v [boxValueR (readV h bi) (readV h xi)]) h

/-- `BoxBarrier.gradient` (no in-place ops). -/
noncomputable def boxGradientH (bi xi : ℕ) (h : Heap) : ℕ × Heap :=
  alloc1 (.v (boxGradient EPSR (readV h bi) (readV h xi))) h

/-- `BoxBarrier.boundary_to_interior_half` (no in-place ops). -/
noncomputable def boxBoundaryH (bi xi : ℕ) (h : Heap) : ℕ × Heap :=
  alloc1 (.v [encB (boxBoundaryR (readV h bi) (readV h xi))]) h

/-- `BoxBarrier.inverse_gradient`: allocates `asqr_ysqr` and `raw`, then the
masked assignment `raw[isclose(y, 0)] = 0` mutates `raw` in place. -/
noncomputable def boxInverseGradientH (bi yi : ℕ) (h : Heap) : ℕ × Heap :=
  let h1 := h ++ [.v (List.zipWith (fun (a yv : ℝ) => (a * yv) ^ 2) (readV h bi) (readV h yi))]
  let h2 := h1 ++ [.v (List.zipWith (fun asq yv => (-1 + Real.sqrt (1 + asq)) / yv)
    (readV h1 h.length) (readV h1 yi))]
  let h3 := h2.set (h.length + 1) (.v (List.zipWith
    (fun yv r => if |yv| ≤ ATOLR then (0 : ℝ) else r) (readV h2 yi) (readV h2 (h.length + 1))))
  (h.length + 1, h3)

/-- `BoxBarrier.hessian`: `_safe_diff` allocates, `.reciprocal_()` mutates
it, the arithmetic allocates `output`, `.clamp_max_(1e07)` mutates it. -/
noncomputable def boxHessianH (bi xi : ℕ) (h : Heap) : ℕ × Heap :=
  let h1 := h ++ [.v (boxSafeDiff EPSR (readV h bi) (readV h xi))]
  let h2 := h1.set h.length (.v ((readV h1 h.length).map (·⁻¹)))
  let h3 := h2 ++ [.v (List.zipWith (fun xv rv => 2 * rv + 4 * (xv * rv) ^ 2)
    (readV h2 xi) (readV h2 h.length))]
  let h4 := h3.set (h.length + 1) (.v ((readV h3 (h.length + 1)).map (fun q => min q CEIL7R)))
  (h.length + 1, h4)

lemma boxInverseGradientH_frame (bi yi : ℕ) (h : Heap) :
    ((boxInverseGradientH bi yi h).2).take h.length = h := by
  simp only [boxInverseGradientH]
  rw [take_pres_set _ (by omega), take_pres_append _ (by simp),
    take_pres_append _ (by simp), List.take_length]

lemma boxHessianH_frame (bi xi : ℕ) (h : Heap) :
    ((boxHessianH bi xi h).2).take h.length = h := by
  simp only [boxHessianH]
  rw [take_pres_set _ (by omega), take_pres_append _ (by simp [List.length_set]),
    take_pres_set _ (le_refl _), take_pres_append _ (by simp), List.take_length]

lemma foldl_frame_n {α : Type} (n : ℕ) (step : Heap → α → Heap)
    (hstep : ∀ (hh : Heap) (a : α), n ≤ hh.length →
      (step hh a).take n = hh.take n ∧ n ≤ (step hh a).length) :
    ∀ (l : List α) (hh : Heap), n ≤ hh.length →
      (l.foldl step hh).take n = hh.take n ∧ n ≤ (l.foldl step hh).length := by
  intro l
  induction l with
  | nil => intro hh hn; exact ⟨rfl, hn⟩
  | cons a t ih =>
    intro hh hn
    simp only [List.foldl_cons]
    have h1 := hstep hh a hn
    have h2 := ih (step hh a) h1.2
    exact ⟨h2.1.trans h1.1, h2.2⟩

/-! Ellipsoid barrier heap translations (`ri` = the id of `rot`, `ei` = the
id of `eigvals`, `xi` = the id of the query point). -/

/-- `EllipsoidBarrier.inverse_gradient` over `ℝ`: `clamp_min` here is the
non-mutating variant, so the method allocates only fresh tensors. -/
noncomputable def ellipsoidInverseGradientR (rot : List (List ℝ)) (eigvals y : List ℝ) :
    List ℝ :=
  let yinvAy := max (invEllipsoidInnerProduct rot eigvals y) EPSR
  (invEllipsoidMap rot eigvals y).map (fun v => ((-1 + Real.sqrt (1 + yinvAy)) / yinvAy) * v)

/-- `EllipsoidBarrier.boundary_to_interior_half` over `ℝ`:
`inner_product(x) > 0.5 ** (2/d)`, `d = eigvals.shape[0]`. -/
noncomputable def ellipsoidBoundaryR (rot : List (List ℝ)) (eigvals x : List ℝ) : Bool :=
  decide ((1 / 2 : ℝ) ^ ((2 : ℝ) / (eigvals.length : ℝ)) <
    ellipsoidInnerProduct rot eigvals x)

/-- `EllipsoidBarrier.feasibility` (no in-place ops). -/
noncomputable def ellipsoidFeasibilityH (ri ei xi : ℕ) (h : Heap) : ℕ × Heap :=
  alloc1 (.v [encB (ellipsoidFeasibility (readM h ri) (readV h ei) (readV h xi))]) h

/-- `EllipsoidBarrier.inverse_gradient` (no in-place ops). -/
noncomputable def ellipsoidInverseGradientH (ri ei yi : ℕ) (h : Heap) : ℕ × Heap :=
  alloc1 (.v (ellipsoidInverseGradientR (readM h ri) (readV h ei) (readV h yi))) h

/-- `EllipsoidBarrier.boundary_to_interior_half` (no in-place ops). -/
noncomputable def ellipsoidBoundaryH (ri ei xi : ℕ) (h : Heap) : ℕ × Heap :=
  alloc1 (.v [encB (ellipsoidBoundaryR (readM h ri) (readV h ei) (readV h xi))]) h

/-- `EllipsoidBarrier.value`: the inner product is allocated, the masked
assignment `inner_product[inner_product >= 1] = 0` mutates it, and the
`-log1p` result is a fresh allocation. -/
noncomputable def ellipsoidValueH (ri ei xi : ℕ) (h : Heap) : ℕ × Heap :=
  let h1 := h ++ [.v [ellipsoidInnerProduct (readM h ri) (readV h ei) (readV h xi)]]
  let h2 := h1.set h.length (.v ((readV h1 h.length).map (fun q => if 1 ≤ q then 0 else q)))
  let h3 := h2 ++ [.v [-Real.log (1 + -((readV h2 h.length).headD 0))]]
  (h.length + 1, h3)

/-- `EllipsoidBarrier.gradient`: `1 - <x, Ax>` is allocated,
`clamp_min_(1e-08)` mutates it, `Ax` and the result are fresh. -/
noncomputable def ellipsoidGradientH (ri ei xi : ℕ) (h : Heap) : ℕ × Heap :=
  let h1 := h ++ [.v [1 - ellipsoidInnerProduct (readM h ri) (readV h ei) (readV h xi)]]
  let h2 := h1.set h.length (.v ((readV h1 h.length).map (fun q => max q EPSR)))
  let h3 := h2 ++ [.v (ellipsoidMap (readM h2 ri) (readV h2 ei) (readV h2 xi))]
  let h4 := h3 ++ [.v ((readV h3 (h.length + 1)).map
    (fun v => 2 * v / ((readV h3 h.length).headD 0)))]
  (h.length + 2, h4)

/-- `EllipsoidBarrier.hessian`: `1 - <x, Ax>` allocated then clamped in
place; the two `unsqueeze_` calls are in-place metadata writes on it;
`Ax`, `scaled_Ax`, `scaled_L`, `ULUT` and the returned sum are fresh. -/
noncomputable def ellipsoidHessianH (ri ei xi : ℕ) (h : Heap) : ℕ × Heap :=
  let h1 := h ++ [.v [1 - ellipsoidInnerProduct (readM h ri) (readV h ei) (readV h xi)]]
  let h2 := h1.set h.length (.v ((readV h1 h.length).map (fun q => max q EPSR)))
  let h3 := h2 ++ [.v (ellipsoidMap (readM h2 ri) (readV h2 ei) (readV h2 xi))]
  let h4 := h3.set h.length (.v (readV h3 h.length))
  let h5 := h4 ++ [.v ((readV h4 (h.length + 1)).map
    (fun v => 2 * v / ((readV h4 h.length).headD 0)))]
  let h6 := h5.set h.length (.v (readV h5 h.length))
  let h7 := h6 ++ [.v ((readV h6 ei).map (fun l => 2 * l / ((readV h6 h.length).headD 0)))]
  let h8 := h7 ++ [.m (matmulSq (scaleCols (readM h7 ri) (readV h7 (h.length + 3)))
    (transposeSq (readM h7 ri)))]
  let h9 := h8 ++ [.m (matAdd (readM h8 (h.length + 4))
    (outerL (readV h8 (h.length + 2)) (readV h8 (h.length + 2))))]
  (h.length + 5, h9)

lemma ellipsoidValueH_frame (ri ei xi : ℕ) (h : Heap) :
    ((ellipsoidValueH ri ei xi h).2).take h.length = h := by
  simp only [ellipsoidValueH]
  rw [take_pres_append _ (by simp [List.length_set]), take_pres_set _ (le_refl _),
    take_pres_append _ (by simp), List.take_length]

lemma ellipsoidGradientH_frame (ri ei xi : ℕ) (h : Heap) :
    ((ellipsoidGradientH ri ei xi h).2).take h.length = h := by
  simp only [ellipsoidGradientH]
  rw [take_pres_append _ (by simp [List.length_set]),
    take_pres_append _ (by simp [List.length_set]), take_pres_set _ (le_refl _),
    take_pres_append _ (by simp), List.take_length]

lemma ellipsoidHessianH_frame (ri ei xi : ℕ) (h : Heap) :
    ((ellipsoidHessianH ri ei xi h).2).take h.length = h := by
  simp only [ellipsoidHessianH]
  rw [take_pres_append _ (by simp [List.length_set]),
    take_pres_append _ (by simp [List.length_set]),
    take_pres_append _ (by simp [List.length_set]), take_pres_set _ (le_refl _),
    take_pres_append _ (by simp [List.length_set]), take_pres_set _ (le_refl _),
    take_pres_append _ (by simp [List.length_set]), take_pres_set _ (le_refl _),
    take_pres_append _ (by simp), List.take_length]

/-! Simplex barrier heap translations. -/

/-- `SimplexBarrier.value` over `ℝ` (per-coordinate logs unfloored). -/
noncomputable def simplexValueR (x : List ℝ) : ℝ :=
  -(x.map Real.log).sum - Real.log (simplexSafeInterior EPSR x)

/-- `SimplexBarrier.boundary_to_interior_half` over `ℝ`:
`0.5 ** (1/d) - sum(x) < 0`, `d = self.dimension`. -/
noncomputable def simplexBoundaryR (d : ℕ) (x : List ℝ) : Bool :=
  decide ((1 / 2 : ℝ) ^ ((1 : ℝ) / (d : ℝ)) - x.sum < 0)

/-- `SimplexBarrier.value` (no in-place ops). -/
noncomputable def simplexValueH (xi : ℕ) (h : Heap) : ℕ × Heap :=
  alloc1 (.v [simplexValueR (readV h xi)]) h

/-- `SimplexBarrier.gradient` (no in-place ops; both `clamp_min` are the
non-mutating variant). -/
noncomputable def simplexGradientH (xi : ℕ) (h : Heap) : ℕ × Heap :=
  alloc1 (.v (simplexGradient EPSR (readV h xi))) h

/-- `SimplexBarrier.boundary_to_interior_half` (no in-place ops). -/
noncomputable def simplexBoundaryH (d xi : ℕ) (h : Heap) : ℕ × Heap :=
  alloc1 (.v [encB (simplexBoundaryR d (readV h xi))]) h

/-- `SimplexBarrier.feasibility`: `sum_one_cons` and `pos_cons` are fresh;
`sum_one_cons.logical_and_(pos_cons)` mutates the former. -/
noncomputable def simplexFeasibilityH (xi : ℕ) (h : Heap) : ℕ × Heap :=
  let h1 := h ++ [.v [encB (decide ((readV h xi).sum ≤ 1))]]
  let h2 := h1 ++ [.v [encB ((readV h1 xi).all (fun q => decide (0 ≤ q)))]]
  let h3 := h2.set h.length (.v (andT (readV h2 h.length) (readV h2 (h.length + 1))))
  (h.length, h3)

/-- `SimplexBarrier.hessian`: `square(x)` allocated then mutated twice
(`reciprocal_`, `clamp_max_`); `_safe_interior` allocated then mutated
three times (`reciprocal_`, `square_`, `clamp_max_`) plus the `unsqueeze_`
metadata write; the assembled matrix is fresh. -/
noncomputable def simplexHessianH (xi : ℕ) (h : Heap) : ℕ × Heap :=
  let h1 := h ++ [.v ((readV h xi).map (fun q => q ^ 2))]
  let h2 := h1.set h.length (.v ((readV h1 h.length).map (·⁻¹)))
  let h3 := h2.set h.length (.v ((readV h2 h.length).map (fun q => min q CEIL8R)))
  let h4 := h3 ++ [.v [max (1 - (readV h3 xi).sum) EPSR]]
  let h5 := h4.set (h.length + 1) (.v ((readV h4 (h.length + 1)).map (·⁻¹)))
  let h6 := h5.set (h.length + 1) (.v ((readV h5 (h.length + 1)).map (fun q => q ^ 2)))
  let h7 := h6.set (h.length + 1) (.v ((readV h6 (h.length + 1)).map (fun q => min q CEIL8R)))
  let h8 := h7.set (h.length + 1) (.v (readV h7 (h.length + 1)))
  let h9 := h8 ++ [.m ((diagEmbed (readV h8 h.length)).map
    (fun row => row.map (· + (readV h8 (h.length + 1)).headD 0)))]
  (h.length + 2, h9)

/-- One iteration of the bisection loop of
`SimplexBarrier.inverse_gradient` over the heap: `c_middle`, `f_middle`
and `mask` are fresh; the masked assignments mutate `c_upper` (id `b+1`)
and `c_lower` (id `b`). -/
noncomputable def simplexBisectStepH (yi b : ℕ) (hh : Heap) : Heap :=
  let hh1 := hh ++ [.v [(1 / 2 : ℝ) * ((readV hh b).headD 0 + (readV hh (b + 1)).headD 0)]]
  let hh2 := hh1 ++ [.v [simplexF (readV hh1 yi) ((readV hh1 hh.length).headD 0)]]
  let hh3 := hh2 ++ [.v [encB (decide (0 < (readV hh2 (hh.length + 1)).headD 0))]]
  let hh4 := hh3.set (b + 1) (.v (if (readV hh3 (hh.length + 2)).headD 0 ≠ 0
    then [(readV hh3 hh.length).headD 0] else readV hh3 (b + 1)))
  hh4.set b (.v (if (readV hh4 (hh.length + 2)).headD 0 = 0
    then [(readV hh4 hh.length).headD 0] else readV hh4 b))

/-- The heap state after the pre-loop steps of
`SimplexBarrier.inverse_gradient`: `c_lower` (zeros, id `b`) and `c_upper`
(reciprocal of the max, id `b+1`) are allocated; `c_upper.clamp_max_(1)`
and the negative-value masked assignment mutate `c_upper`.  (At
`max(y) = 0` the source's reciprocal is `+Inf`, later clamped to 1; `ℝ` has
no infinity, so the allocated junk value differs there — the mutation
structure, which is what this model is for, is identical.) -/
noncomputable def simplexInvGradPre (yi : ℕ) (h : Heap) : Heap :=
  let h1 := h ++ [.v [0]]
  let h2 := h1 ++ [.v [(tmax (readV h1 yi))⁻¹]]
  let h3 := h2.set (h.length + 1) (.v ((readV h2 (h.length + 1)).map (fun q => min q 1)))
  h3.set (h.length + 1) (.v ((readV h3 (h.length + 1)).map (fun q => if q < 0 then 1 else q)))

/-- `SimplexBarrier.inverse_gradient`: the pre-loop allocations, 35
bisection iterations, the `unsqueeze_` metadata write on `c_upper`, and the
fresh final clamped quotient. -/
noncomputable def simplexInverseGradientH (yi : ℕ) (h : Heap) : ℕ × Heap :=
  let b := h.length
  let h5 := (List.range 35).foldl (fun hh _ => simplexBisectStepH yi b hh)
    (simplexInvGradPre yi h)
  let h6 := h5.set (b + 1) (.v (readV h5 (b + 1)))
  let h7 := h6 ++ [.v ((readV h6 yi).map (fun yv =>
    max (((readV h6 (b + 1)).headD 0) / (1 - ((readV h6 (b + 1)).headD 0) * yv)) EPSR))]
  (h6.length, h7)

lemma simplexFeasibilityH_frame (xi : ℕ) (h : Heap) :
    ((simplexFeasibilityH xi h).2).take h.length = h := by
  simp only [simplexFeasibilityH]
  rw [take_pres_set _ (le_refl _), take_pres_append _ (by simp),
    take_pres_append _ (by simp), List.take_length]

lemma simplexHessianH_frame (xi : ℕ) (h : Heap) :
    ((simplexHessianH xi h).2).take h.length = h := by
  simp only [simplexHessianH]
  rw [take_pres_append _ (by simp [List.length_set]), take_pres_set _ (by omega),
    take_pres_set _ (by omega), take_pres_set _ (by omega), take_pres_set _ (by omega),
    take_pres_append _ (by simp [List.length_set]), take_pres_set _ (le_refl _),
    take_pres_set _ (le_refl _), take_pres_append _ (by simp), List.take_length]

lemma take_of_take_eq {α : Type} {A B : List α} {m n : ℕ} (hnm : n ≤ m)
    (hAB : A.take m = B.take m) : A.take n = B.take n := by
  calc A.take n = (A.take m).take n := by rw [List.take_take, min_eq_left hnm]
    _ = (B.take m).take n := by rw [hAB]
    _ = B.take n := by rw [List.take_take, min_eq_left hnm]

lemma simplexBisectStepH_frame (yi b : ℕ) (hh : Heap) (hb : b ≤ hh.length) :
    (simplexBisectStepH yi b hh).take b = hh.take b ∧ b ≤ (simplexBisectStepH yi b hh).length := by
  constructor
  · simp only [simplexBisectStepH]
    rw [take_pres_set _ (le_refl _), take_pres_set _ (by omega),
      take_pres_append _ (by simp; omega), take_pres_append _ (by simp; omega),
      take_pres_append _ hb]
  · simp only [simplexBisectStepH]
    simp [List.length_set]
    omega

lemma simplexInvGradPre_take (yi : ℕ) (h : Heap) :
    (simplexInvGradPre yi h).take h.length = h ∧
      h.length ≤ (simplexInvGradPre yi h).length := by
  constructor
  · simp only [simplexInvGradPre]
    rw [take_pres_set _ (by omega), take_pres_set _ (by omega),
      take_pres_append _ (by simp), take_pres_append _ (le_refl _), List.take_length]
  · simp [simplexInvGradPre, List.length_set]

lemma simplexInverseGradientH_frame (yi : ℕ) (h : Heap) :
    ((simplexInverseGradientH yi h).2).take h.length = h := by
  simp only [simplexInverseGradientH]
  have hpre := simplexInvGradPre_take yi h
  have hloop := foldl_frame_n h.length (fun hh _ => simplexBisectStepH yi h.length hh)
    (fun hh _ hn => simplexBisectStepH_frame yi h.length hh hn)
    (List.range 35) (simplexInvGradPre yi h) hpre.2
  rw [take_pres_append _ (by simp [List.length_set]; exact hloop.2),
    take_pres_set _ (by omega), hloop.1]
  exact hpre.1

/-! Polytope barrier heap translations (`diagA` = the `diag_hess` flag
recorded by `__init__` from the form of `A`; `ai` = the id of `A` (a
two-dimensional tensor when `diagA` is false, one-dimensional otherwise),
`pbi` = the id of `b`, `wi` = the id of `weights` when given, `xi` = the id
of the query point). -/

/-- `PolytopeBarrier._safe_slack` read from the heap. -/
noncomputable def polytopeSlackH (diagA : Bool) (ai pbi xi : ℕ) (h : Heap) : List ℝ :=
  if diagA then polytopeSlackDiag EPSR (readV h ai) (readV h pbi) (readV h xi)
  else polytopeSlackFull EPSR (readM h ai) (readV h pbi) (readV h xi)

/-- `PolytopeBarrier.feasibility` (no in-place ops). -/
noncomputable def polytopeFeasibilityH (diagA : Bool) (ai pbi xi : ℕ) (h : Heap) : ℕ × Heap :=
  alloc1 (.v [encB (if diagA
    then polytopeFeasibilityDiag (readV h ai) (readV h pbi) (readV h xi)
    else polytopeFeasibilityFull (readM h ai) (readV h pbi) (readV h xi))]) h

/-- `PolytopeBarrier.value`: the slack and `value_vector = log(slack)` are
fresh; `value_vector.mul_(self.weights)` mutates the latter when weights
were given; the negated sum is fresh. -/
noncomputable def polytopeValueH (diagA : Bool) (ai pbi : ℕ) (wi : Option ℕ) (xi : ℕ)
    (h : Heap) : ℕ × Heap :=
  let h1 := h ++ [.v (polytopeSlackH diagA ai pbi xi h)]
  let h2 := h1 ++ [.v ((readV h1 h.length).map Real.log)]
  let h3 := match wi with
    | none => h2
    | some wid => h2.set (h.length + 1)
        (.v (List.zipWith (· * ·) (readV h2 (h.length + 1)) (readV h2 wid)))
  let h4 := h3 ++ [.v [-(readV h3 (h.length + 1)).sum]]
  (h.length + 2, h4)

/-- The full-matrix form of `PolytopeBarrier.gradient`:
`torch.sum(A / slack.unsqueeze(-1), dim=-2)`. -/
noncomputable def polytopeGradientFullR (A : List (List ℝ)) (s : List ℝ) : List ℝ :=
  (List.range (A.headD []).length).map
    (fun j => (List.zipWith (fun (row : List ℝ) si => row.getD j 0 / si) A s).sum)

/-- `PolytopeBarrier.gradient`: the slack is fresh;
`slack.div_(self.weights)` mutates it when weights were given; the result
is fresh. -/
noncomputable def polytopeGradientH (diagA : Bool) (ai pbi : ℕ) (wi : Option ℕ) (xi : ℕ)
    (h : Heap) : ℕ × Heap :=
  let h1 := h ++ [.v (polytopeSlackH diagA ai pbi xi h)]
  let h2 := match wi with
    | none => h1
    | some wid => h1.set h.length
        (.v (List.zipWith (· / ·) (readV h1 h.length) (readV h1 wid)))
  let h3 := h2 ++ [if diagA
    then .v (List.zipWith (· / ·) (readV h2 ai) (readV h2 h.length))
    else .v (polytopeGradientFullR (readM h2 ai) (readV h2 h.length))]
  (h.length + 1, h3)

/-- `PolytopeBarrier.hessian`: the slack is fresh;
`slack.div_(self.weights.sqrt())` mutates it when weights were given
(`weights.sqrt()` itself is fresh); then the diagonal form squares the
quotient into a fresh vector, the full form allocates the component matrix
`A / slack.unsqueeze(-1)` and the fresh summed outer product. -/
noncomputable def polytopeHessianH (diagA : Bool) (ai pbi : ℕ) (wi : Option ℕ) (xi : ℕ)
    (h : Heap) : ℕ × Heap :=
  let h1 := h ++ [.v (polytopeSlackH diagA ai pbi xi h)]
  let h2 := match wi with
    | none => h1
    | some wid => h1.set h.length
        (.v (List.zipWith (fun sv wv => sv / Real.sqrt wv) (readV h1 h.length) (readV h1 wid)))
  if diagA then
    (h.length + 1,
      h2 ++ [.v (List.zipWith (fun av sv => (av / sv) ^ 2) (readV h2 ai) (readV h2 h.length))])
  else
    let h3 := h2 ++ [.m (List.zipWith (fun (row : List ℝ) sv => row.map (· / sv))
      (readM h2 ai) (readV h2 h.length))]
    (h.length + 2,
      h3 ++ [.m (matListSum ((readM h3 (h.length + 1)).map (fun row => outerL row row)))])

/-- `PolytopeBarrier.inverse_gradient` over the heap: the body raises
before any tensor operation runs, so the heap is untouched. -/
noncomputable def polytopeInverseGradientH (diagA : Bool) (ai pbi : ℕ) (wi : Option ℕ)
    (yi : ℕ) (h : Heap) : Except BarrierError ℕ × Heap :=
  (.error .notImplemented, h)

lemma polytopeValueH_frame (diagA : Bool) (ai pbi : ℕ) (wi : Option ℕ) (xi : ℕ) (h : Heap) :
    ((polytopeValueH diagA ai pbi wi xi h).2).take h.length = h := by
  cases wi with
  | none =>
    simp only [polytopeValueH]
    rw [take_pres_append _ (by simp), take_pres_append _ (by simp),
      take_pres_append _ (le_refl _), List.take_length]
  | some wid =>
    simp only [polytopeValueH]
    rw [take_pres_append _ (by simp [List.length_set]), take_pres_set _ (by omega),
      take_pres_append _ (by simp), take_pres_append _ (le_refl _), List.take_length]

lemma polytopeGradientH_frame (diagA : Bool) (ai pbi : ℕ) (wi : Option ℕ) (xi : ℕ)
    (h : Heap) : ((polytopeGradientH diagA ai pbi wi xi h).2).take h.length = h := by
  cases wi with
  | none =>
    simp only [polytopeGradientH]
    rw [take_pres_append _ (by simp), take_pres_append _ (le_refl _), List.take_length]
  | some wid =>
    simp only [polytopeGradientH]
    rw [take_pres_append _ (by simp [List.length_set]), take_pres_set _ (le_refl _),
      take_pres_append _ (le_refl _), List.take_length]

lemma polytopeHessianH_frame (diagA : Bool) (ai pbi : ℕ) (wi : Option ℕ) (xi : ℕ)
    (h : Heap) : ((polytopeHessianH diagA ai pbi wi xi h).2).take h.length = h := by
  cases wi with
  | none =>
    simp only [polytopeHessianH]
    split
    · rw [take_pres_append _ (by simp), take_pres_append _ (le_refl _), List.take_length]
    · rw [take_pres_append _ (by simp), take_pres_append _ (by simp),
        take_pres_append _ (le_refl _), List.take_length]
  | some wid =>
    simp only [polytopeHessianH]
    split
    · rw [take_pres_append _ (by simp [List.length_set]), take_pres_set _ (le_refl _),
        take_pres_append _ (le_refl _), List.take_length]
    · rw [take_pres_append _ (by simp [List.length_set]),
        take_pres_append _ (by simp [List.length_set]), take_pres_set _ (le_refl _),
        take_pres_append _ (le_refl _), List.take_length]

/-- The one-dimensional payload of a tensor (junk `[]` on a matrix). -/
def TVal.vecOf : TVal → List ℝ
  | .v l => l
  | .m _ => []

/-- Apply optional per-constraint weights: `value_vector.mul_(weights)`. -/
noncomputable def mulWeights (l : List ℝ) (w : Option (List ℝ)) : List ℝ :=
  match w with
  | none => l
  | some ww => List.zipWith (· * ·) l ww

/-- `slack.div_(weights)` when weights are given. -/
noncomputable def divWeights (l : List ℝ) (w : Option (List ℝ)) : List ℝ :=
  match w with
  | none => l
  | some ww => List.zipWith (· / ·) l ww

/-! Compose barrier heap translations.  A constituent call (for example
`barrier.feasibility(x)`) runs that constituent's own translation, which by
its frame lemma only appends to the heap and returns a fresh tensor; it is
collapsed here into the single allocation of its result.  The constituents'
parameters are the Lean values held in the `CBarrier` list. -/

/-- `ComposeBarrier.value` of one constituent over `ℝ`. -/
noncomputable def CBarrier.valueR : CBarrier ℝ → List ℝ → ℝ
  | .box bounds, x => boxValueR bounds x
  | .ellipsoid rot eigvals, x => -Real.log (1 + -(ellipsoidClampedIP rot eigvals x))
  | .simplex _, x => simplexValueR x
  | .polytopeFull A b w, x =>
      -(mulWeights ((polytopeSlackFull EPSR A b x).map Real.log) w).sum
  | .polytopeDiag A b w, x =>
      -(mulWeights ((polytopeSlackDiag EPSR A b x).map Real.log) w).sum

/-- `gradient` of one constituent over `ℝ`. -/
noncomputable def CBarrier.gradientR : CBarrier ℝ → List ℝ → List ℝ
  | .box bounds, x => boxGradient EPSR bounds x
  | .ellipsoid rot eigvals, x => ellipsoidGradient EPSR rot eigvals x
  | .simplex _, x => simplexGradient EPSR x
  | .polytopeFull A b w, x =>
      polytopeGradientFullR A (divWeights (polytopeSlackFull EPSR A b x) w)
  | .polytopeDiag A b w, x =>
      List.zipWith (· / ·) A (divWeights (polytopeSlackDiag EPSR A b x) w)

/-- The generic loop shared by `ComposeBarrier.feasibility`, `value` and
`gradient`: allocate the accumulator, then per constituent allocate its
result and combine it into the accumulator in place (`logical_and_` /
`add_`). -/
noncomputable def composeLoopH (f : CBarrier ℝ → List ℝ → TVal) (combine : TVal → TVal → TVal)
    (init : List ℝ → TVal) (bs : List (CBarrier ℝ)) (xi : ℕ) (h : Heap) : ℕ × Heap :=
  let b := h.length
  let h1 := h ++ [init (readV h xi)]
  (b, bs.foldl (fun hh bar =>
      let hh1 := hh ++ [f bar (readV hh xi)]
      hh1.set b (combine (hh1.getD b (.v [])) (hh1.getD hh.length (.v [])))) h1)

/-- `ComposeBarrier.feasibility`. -/
noncomputable def composeFeasibilityH (bs : List (CBarrier ℝ)) (xi : ℕ) (h : Heap) :
    ℕ × Heap :=
  composeLoopH (fun bar x => .v [encB (bar.feasibility x)])
    (fun a c => .v (andT a.vecOf c.vecOf)) (fun _ => .v [1]) bs xi h

/-- `ComposeBarrier.value`. -/
noncomputable def composeValueH (bs : List (CBarrier ℝ)) (xi : ℕ) (h : Heap) : ℕ × Heap :=
  composeLoopH (fun bar x => .v [bar.valueR x])
    (fun a c => .v (List.zipWith (· + ·) a.vecOf c.vecOf)) (fun _ => .v [0]) bs xi h

/-- `ComposeBarrier.gradient`. -/
noncomputable def composeGradientH (bs : List (CBarrier ℝ)) (xi : ℕ) (h : Heap) : ℕ × Heap :=
  composeLoopH (fun bar x => .v (bar.gradientR x))
    (fun a c => .v (List.zipWith (· + ·) a.vecOf c.vecOf))
    (fun x => .v (x.map (fun _ => 0))) bs xi h

/-- `ComposeBarrier.hessian` over the heap.  On the crash executions
(`UnboundLocalError`, see the C3 theorem) nothing has been allocated or
mutated yet, so the heap is returned untouched with no result. -/
noncomputable def composeHessianH (bs : List (CBarrier ℝ)) (xi : ℕ) (h : Heap) :
    Option ℕ × Heap :=
  let b := h.length
  if (composeDiagPart bs).isEmpty then (none, h)
  else
    let h1 := h ++ [.v ((readV h xi).map (fun _ => 0))]
    let h2 := (composeDiagPart bs).foldl (fun hh bar =>
        let hh1 := hh ++ [.v ((bar.hessian EPSR (readV hh xi)).getDiag)]
        hh1.set b (.v (List.zipWith (· + ·) (readV hh1 b) (readV hh1 hh.length)))) h1
    if composeDiagHess bs then (some b, h2)
    else
      let e := h2.length
      let h3 := h2 ++ [.m (diagEmbed (readV h2 b))]
      let h4 := (composeFullPart bs).foldl (fun hh bar =>
          let hh1 := hh ++ [.m ((bar.hessian EPSR (readV hh xi)).getFull)]
          hh1.set e (.m (matAdd (readM hh1 e) (readM hh1 hh.length)))) h3
      (some e, h4)

/-- `ComposeBarrier.inverse_gradient` over the heap: inherited base body,
raises before touching any tensor. -/
noncomputable def composeInverseGradientH (bs : List (CBarrier ℝ)) (yi : ℕ) (h : Heap) :
    Except BarrierError ℕ × Heap :=
  (.error .notImplemented, h)

/-- `ComposeBarrier.boundary_to_interior_half` over the heap: inherited
base body, raises before touching any tensor. -/
noncomputable def composeBoundaryH (bs : List (CBarrier ℝ)) (xi : ℕ) (h : Heap) :
    Except BarrierError ℕ × Heap :=
  (.error .notImplemented, h)

lemma composeLoopH_frame (f : CBarrier ℝ → List ℝ → TVal) (combine : TVal → TVal → TVal)
    (init : List ℝ → TVal) (bs : List (CBarrier ℝ)) (xi : ℕ) (h : Heap) :
    ((composeLoopH f combine init bs xi h).2).take h.length = h := by
  simp only [composeLoopH]
  have hloop := foldl_frame_n h.length
    (fun hh bar =>
      (hh ++ [f bar (readV hh xi)]).set h.length
        (combine ((hh ++ [f bar (readV hh xi)]).getD h.length (.v []))
          ((hh ++ [f bar (readV hh xi)]).getD hh.length (.v []))))
    (fun hh bar hn => by
      constructor
      · rw [take_pres_set _ (le_refl _), take_pres_append _ hn]
      · simp [List.length_set]; omega)
    bs (h ++ [init (readV h xi)]) (by simp)
  rw [hloop.1, take_pres_append _ (le_refl _), List.take_length]

lemma composeHessianH_frame (bs : List (CBarrier ℝ)) (xi : ℕ) (h : Heap) :
    ((composeHessianH bs xi h).2).take h.length = h := by
  simp only [composeHessianH]
  by_cases hde : (composeDiagPart bs).isEmpty
  · rw [if_pos hde]
    exact List.take_length h
  · rw [if_neg hde]
    have hloop1 := foldl_frame_n h.length
      (fun hh bar =>
        (hh ++ [TVal.v ((bar.hessian EPSR (readV hh xi)).getDiag)]).set h.length
          (TVal.v (List.zipWith (· + ·)
            (readV (hh ++ [TVal.v ((bar.hessian EPSR (readV hh xi)).getDiag)]) h.length)
            (readV (hh ++ [TVal.v ((bar.hessian EPSR (readV hh xi)).getDiag)]) hh.length))))
      (fun hh bar hn => by
        constructor
        · rw [take_pres_set _ (le_refl _), take_pres_append _ hn]
        · simp [List.length_set]; omega)
      (composeDiagPart bs) (h ++ [TVal.v ((readV h xi).map (fun _ => 0))]) (by simp)
    by_cases hcd : composeDiagHess bs
    · rw [if_pos hcd]
      simp only
      rw [hloop1.1, take_pres_append _ (le_refl _), List.take_length]
    · rw [if_neg hcd]
      simp only
      set h2 := (composeDiagPart bs).foldl _ (h ++ [TVal.v ((readV h xi).map (fun _ => 0))])
        with hh2
      have hb2 : h.length ≤ h2.length := hloop1.2
      have hloop2 := foldl_frame_n h.length
        (fun hh bar =>
          (hh ++ [TVal.m ((bar.hessian EPSR (readV hh xi)).getFull)]).set h2.length
            (TVal.m (matAdd
              (readM (hh ++ [TVal.m ((bar.hessian EPSR (readV hh xi)).getFull)]) h2.length)
              (readM (hh ++ [TVal.m ((bar.hessian EPSR (readV hh xi)).getFull)]) hh.length))))
        (fun hh bar hn => by
          constructor
          · rw [take_pres_set _ hb2, take_pres_append _ hn]
          · simp [List.length_set]; omega)
        (composeFullPart bs) (h2 ++ [TVal.m (diagEmbed (readV h2 h.length))])
        (by simp; omega)
      rw [hloop2.1, take_pres_append _ hb2, hloop1.1,
        take_pres_append _ (le_refl _), List.take_length]

/-! Reads across frames, for the determinism statements. -/

lemma frame_length_le {α : Type} {h h' : List α} (hf : h'.take h.length = h) :
    h.length ≤ h'.length := by
  have := congrArg List.length hf
  simp [List.length_take] at this
  omega

lemma getD_append_lt {α : Type} (l l' : List α) (i : ℕ) (d : α) (hi : i < l.length) :
    (l ++ l').getD i d = l.getD i d :=
  List.getD_append l l' d i hi

lemma getD_set_ne {α : Type} (l : List α) {i j : ℕ} (t : α) (d : α) (hne : j ≠ i) :
    (l.set j t).getD i d = l.getD i d := by
  by_cases hi : i < l.length
  · rw [List.getD_eq_getElem _ _ (by simp [hi]), List.getD_eq_getElem _ _ hi,
      List.getElem_set_ne hne]
  · rw [List.getD_eq_default _ _ (by simp; omega), List.getD_eq_default _ _ (by omega)]

lemma readV_append_lt (h : Heap) (l : Heap) (i : ℕ) (hi : i < h.length) :
    readV (h ++ l) i = readV h i := by
  unfold readV
  rw [getD_append_lt _ _ _ _ hi]

lemma readV_last (h : Heap) (t : TVal) : readV (h ++ [t]) h.length = t.vecOf := by
  unfold readV TVal.vecOf
  rw [List.getD_eq_getElem _ _ (by simp), List.getElem_concat_length _ _ _ rfl]

lemma readV_set_self (h : Heap) (i : ℕ) (t : TVal) (hi : i < h.length) :
    readV (h.set i t) i = t.vecOf := by
  unfold readV TVal.vecOf
  rw [List.getD_eq_getElem _ _ (by simp [hi]), List.getElem_set_eq (by simp [hi])]

lemma readV_set_ne (h : Heap) {i j : ℕ} (t : TVal) (hne : j ≠ i) :
    readV (h.set j t) i = readV h i := by
  unfold readV
  rw [getD_set_ne _ _ _ hne]

lemma readV_last_v (h : Heap) (l : List ℝ) : readV (h ++ [TVal.v l]) h.length = l := by
  rw [readV_last]
  rfl

lemma readV_set_self_v (h : Heap) (i : ℕ) (l : List ℝ) (hi : i < h.length) :
    readV (h.set i (TVal.v l)) i = l := by
  rw [readV_set_self _ _ _ hi]
  rfl

lemma readV_append_idx (A : Heap) (l : List ℝ) {i : ℕ} (hi : i = A.length) :
    readV (A ++ [TVal.v l]) i = l := by
  subst hi
  exact readV_last_v A l

lemma getD_of_frame {α : Type} {h h' : List α} (hf : h'.take h.length = h) {i : ℕ}
    (hi : i < h.length) (d : α) : h'.getD i d = h.getD i d := by
  have hlen : i < h'.length := lt_of_lt_of_le hi (frame_length_le hf)
  calc h'.getD i d = (h'.take h.length).getD i d := by
        rw [List.getD_eq_getElem _ _ hlen,
          List.getD_eq_getElem _ _ (by simp [List.length_take]; omega)]
        rw [List.getElem_take]
    _ = h.getD i d := by rw [hf]

lemma readV_of_frame {h h' : Heap} (hf : h'.take h.length = h) {i : ℕ}
    (hi : i < h.length) : readV h' i = readV h i := by
  unfold readV
  rw [getD_of_frame hf hi]

lemma readM_of_frame {h h' : Heap} (hf : h'.take h.length = h) {i : ℕ}
    (hi : i < h.length) : readM h' i = readM h i := by
  unfold readM
  rw [getD_of_frame hf hi]

lemma readM_append_lt (h : Heap) (l : Heap) (i : ℕ) (hi : i < h.length) :
    readM (h ++ l) i = readM h i := by
  unfold readM
  rw [getD_append_lt _ _ _ _ hi]

lemma readM_set_ne (h : Heap) {i j : ℕ} (t : TVal) (hne : j ≠ i) :
    readM (h.set j t) i = readM h i := by
  unfold readM
  rw [getD_set_ne _ _ _ hne]

lemma readM_last_m (h : Heap) (M : List (List ℝ)) : readM (h ++ [TVal.m M]) h.length = M := by
  unfold readM
  rw [List.getD_eq_getElem _ _ (by simp), List.getElem_concat_length _ _ _ rfl]

lemma readM_append_idx (A : Heap) (M : List (List ℝ)) {i : ℕ} (hi : i = A.length) :
    readM (A ++ [TVal.m M]) i = M := by
  subst hi
  exact readM_last_m A M

lemma readM_set_self_m (h : Heap) (i : ℕ) (M : List (List ℝ)) (hi : i < h.length) :
    readM (h.set i (TVal.m M)) i = M := by
  unfold readM
  rw [List.getD_eq_getElem _ _ (by simp [hi]), List.getElem_set_eq (by simp [hi])]

/-! Result values of the allocation-only methods (those without in-place
ops): each leaves exactly the tensor computed from the parameter and input
reads, so a second call on the returned heap reproduces it. -/

lemma boxFeasibilityH_result (bi xi : ℕ) (h : Heap) :
    readV (boxFeasibilityH bi xi h).2 (boxFeasibilityH bi xi h).1 =
      [encB (boxFeasibility (readV h bi) (readV h xi))] := by
  simp only [boxFeasibilityH, alloc1]
  exact readV_last_v h _

lemma boxFeasibilityH_deterministic (bi xi : ℕ) (h : Heap) (hbi : bi < h.length)
    (hxi : xi < h.length) :
    readV (boxFeasibilityH bi xi (boxFeasibilityH bi xi h).2).2
        (boxFeasibilityH bi xi (boxFeasibilityH bi xi h).2).1 =
      readV (boxFeasibilityH bi xi h).2 (boxFeasibilityH bi xi h).1 := by
  have hf : ((boxFeasibilityH bi xi h).2).take h.length = h := alloc1_frame _ h
  rw [boxFeasibilityH_result bi xi ((boxFeasibilityH bi xi h).2),
    boxFeasibilityH_result bi xi h, readV_of_frame hf hbi, readV_of_frame hf hxi]

lemma boxValueH_result (bi xi : ℕ) (h : Heap) :
    readV (boxValueH bi xi h).2 (boxValueH bi xi h).1 =
      [boxValueR (readV h bi) (readV h xi)] := by
  simp only [boxValueH, alloc1]
  exact readV_last_v h _

lemma boxValueH_deterministic (bi xi : ℕ) (h : Heap) (hbi : bi < h.length)
    (hxi : xi < h.length) :
    readV (boxValueH bi xi (boxValueH bi xi h).2).2
        (boxValueH bi xi (boxValueH bi xi h).2).1 =
      readV (boxValueH bi xi h).2 (boxValueH bi xi h).1 := by
  have hf : ((boxValueH bi xi h).2).take h.length = h := alloc1_frame _ h
  rw [boxValueH_result bi xi ((boxValueH bi xi h).2), boxValueH_result bi xi h,
    readV_of_frame hf hbi, readV_of_frame hf hxi]

lemma boxGradientH_result (bi xi : ℕ) (h : Heap) :
    readV (boxGradientH bi xi h).2 (boxGradientH bi xi h).1 =
      boxGradient EPSR (readV h bi) (readV h xi) := by
  simp only [boxGradientH, alloc1]
  exact readV_last_v h _

lemma boxGradientH_deterministic (bi xi : ℕ) (h : Heap) (hbi : bi < h.length)
    (hxi : xi < h.length) :
    readV (boxGradientH bi xi (boxGradientH bi xi h).2).2
        (boxGradientH bi xi (boxGradientH bi xi h).2).1 =
      readV (boxGradientH bi xi h).2 (boxGradientH bi xi h).1 := by
  have hf : ((boxGradientH bi xi h).2).take h.length = h := alloc1_frame _ h
  rw [boxGradientH_result bi xi ((boxGradientH bi xi h).2), boxGradientH_result bi xi h,
    readV_of_frame hf hbi, readV_of_frame hf hxi]

lemma boxBoundaryH_result (bi xi : ℕ) (h : Heap) :
    readV (boxBoundaryH bi xi h).2 (boxBoundaryH bi xi h).1 =
      [encB (boxBoundaryR (readV h bi) (readV h xi))] := by
  simp only [boxBoundaryH, alloc1]
  exact readV_last_v h _

lemma boxBoundaryH_deterministic (bi xi : ℕ) (h : Heap) (hbi : bi < h.length)
    (hxi : xi < h.length) :
    readV (boxBoundaryH bi xi (boxBoundaryH bi xi h).2).2
        (boxBoundaryH bi xi (boxBoundaryH bi xi h).2).1 =
      readV (boxBoundaryH bi xi h).2 (boxBoundaryH bi xi h).1 := by
  have hf : ((boxBoundaryH bi xi h).2).take h.length = h := alloc1_frame _ h
  rw [boxBoundaryH_result bi xi ((boxBoundaryH bi xi h).2), boxBoundaryH_result bi xi h,
    readV_of_frame hf hbi, readV_of_frame hf hxi]

lemma ellipsoidFeasibilityH_result (ri ei xi : ℕ) (h : Heap) :
    readV (ellipsoidFeasibilityH ri ei xi h).2 (ellipsoidFeasibilityH ri ei xi h).1 =
      [encB (ellipsoidFeasibility (readM h ri) (readV h ei) (readV h xi))] := by
  simp only [ellipsoidFeasibilityH, alloc1]
  exact readV_last_v h _

lemma ellipsoidFeasibilityH_deterministic (ri ei xi : ℕ) (h : Heap) (hri : ri < h.length)
    (hei : ei < h.length) (hxi : xi < h.length) :
    readV (ellipsoidFeasibilityH ri ei xi (ellipsoidFeasibilityH ri ei xi h).2).2
        (ellipsoidFeasibilityH ri ei xi (ellipsoidFeasibilityH ri ei xi h).2).1 =
      readV (ellipsoidFeasibilityH ri ei xi h).2 (ellipsoidFeasibilityH ri ei xi h).1 := by
  have hf : ((ellipsoidFeasibilityH ri ei xi h).2).take h.length = h := alloc1_frame _ h
  rw [ellipsoidFeasibilityH_result ri ei xi ((ellipsoidFeasibilityH ri ei xi h).2),
    ellipsoidFeasibilityH_result ri ei xi h, readM_of_frame hf hri,
    readV_of_frame hf hei, readV_of_frame hf hxi]

lemma ellipsoidInverseGradientH_result (ri ei yi : ℕ) (h : Heap) :
    readV (ellipsoidInverseGradientH ri ei yi h).2 (ellipsoidInverseGradientH ri ei yi h).1 =
      ellipsoidInverseGradientR (readM h ri) (readV h ei) (readV h yi) := by
  simp only [ellipsoidInverseGradientH, alloc1]
  exact readV_last_v h _

lemma ellipsoidInverseGradientH_deterministic (ri ei yi : ℕ) (h : Heap) (hri : ri < h.length)
    (hei : ei < h.length) (hyi : yi < h.length) :
    readV (ellipsoidInverseGradientH ri ei yi (ellipsoidInverseGradientH ri ei yi h).2).2
        (ellipsoidInverseGradientH ri ei yi (ellipsoidInverseGradientH ri ei yi h).2).1 =
      readV (ellipsoidInverseGradientH ri ei yi h).2 (ellipsoidInverseGradientH ri ei yi h).1 := by
  have hf : ((ellipsoidInverseGradientH ri ei yi h).2).take h.length = h := alloc1_frame _ h
  rw [ellipsoidInverseGradientH_result ri ei yi ((ellipsoidInverseGradientH ri ei yi h).2),
    ellipsoidInverseGradientH_result ri ei yi h, readM_of_frame hf hri,
    readV_of_frame hf hei, readV_of_frame hf hyi]

lemma ellipsoidBoundaryH_result (ri ei xi : ℕ) (h : Heap) :
    readV (ellipsoidBoundaryH ri ei xi h).2 (ellipsoidBoundaryH ri ei xi h).1 =
      [encB (ellipsoidBoundaryR (readM h ri) (readV h ei) (readV h xi))] := by
  simp only [ellipsoidBoundaryH, alloc1]
  exact readV_last_v h _

lemma ellipsoidBoundaryH_deterministic (ri ei xi : ℕ) (h : Heap) (hri : ri < h.length)
    (hei : ei < h.length) (hxi : xi < h.length) :
    readV (ellipsoidBoundaryH ri ei xi (ellipsoidBoundaryH ri ei xi h).2).2
        (ellipsoidBoundaryH ri ei xi (ellipsoidBoundaryH ri ei xi h).2).1 =
      readV (ellipsoidBoundaryH ri ei xi h).2 (ellipsoidBoundaryH ri ei xi h).1 := by
  have hf : ((ellipsoidBoundaryH ri ei xi h).2).take h.length = h := alloc1_frame _ h
  rw [ellipsoidBoundaryH_result ri ei xi ((ellipsoidBoundaryH ri ei xi h).2),
    ellipsoidBoundaryH_result ri ei xi h, readM_of_frame hf hri,
    readV_of_frame hf hei, readV_of_frame hf hxi]

lemma simplexValueH_result (xi : ℕ) (h : Heap) :
    readV (simplexValueH xi h).2 (simplexValueH xi h).1 = [simplexValueR (readV h xi)] := by
  simp only [simplexValueH, alloc1]
  exact readV_last_v h _

lemma simplexValueH_deterministic (xi : ℕ) (h : Heap) (hxi : xi < h.length) :
    readV (simplexValueH xi (simplexValueH xi h).2).2
        (simplexValueH xi (simplexValueH xi h).2).1 =
      readV (simplexValueH xi h).2 (simplexValueH xi h).1 := by
  have hf : ((simplexValueH xi h).2).take h.length = h := alloc1_frame _ h
  rw [simplexValueH_result xi ((simplexValueH xi h).2), simplexValueH_result xi h,
    readV_of_frame hf hxi]

lemma simplexGradientH_result (xi : ℕ) (h : Heap) :
    readV (simplexGradientH xi h).2 (simplexGradientH xi h).1 =
      simplexGradient EPSR (readV h xi) := by
  simp only [simplexGradientH, alloc1]
  exact readV_last_v h _

lemma simplexGradientH_deterministic (xi : ℕ) (h : Heap) (hxi : xi < h.length) :
    readV (simplexGradientH xi (simplexGradientH xi h).2).2
        (simplexGradientH xi (simplexGradientH xi h).2).1 =
      readV (simplexGradientH xi h).2 (simplexGradientH xi h).1 := by
  have hf : ((simplexGradientH xi h).2).take h.length = h := alloc1_frame _ h
  rw [simplexGradientH_result xi ((simplexGradientH xi h).2), simplexGradientH_result xi h,
    readV_of_frame hf hxi]

lemma simplexBoundaryH_result (d xi : ℕ) (h : Heap) :
    readV (simplexBoundaryH d xi h).2 (simplexBoundaryH d xi h).1 =
      [encB (simplexBoundaryR d (readV h xi))] := by
  simp only [simplexBoundaryH, alloc1]
  exact readV_last_v h _

lemma simplexBoundaryH_deterministic (d xi : ℕ) (h : Heap) (hxi : xi < h.length) :
    readV (simplexBoundaryH d xi (simplexBoundaryH d xi h).2).2
        (simplexBoundaryH d xi (simplexBoundaryH d xi h).2).1 =
      readV (simplexBoundaryH d xi h).2 (simplexBoundaryH d xi h).1 := by
  have hf : ((simplexBoundaryH d xi h).2).take h.length = h := alloc1_frame _ h
  rw [simplexBoundaryH_result d xi ((simplexBoundaryH d xi h).2),
    simplexBoundaryH_result d xi h, readV_of_frame hf hxi]

lemma polytopeFeasibilityH_result (diagA : Bool) (ai pbi xi : ℕ) (h : Heap) :
    readV (polytopeFeasibilityH diagA ai pbi xi h).2 (polytopeFeasibilityH diagA ai pbi xi h).1 =
      [encB (if diagA
        then polytopeFeasibilityDiag (readV h ai) (readV h pbi) (readV h xi)
        else polytopeFeasibilityFull (readM h ai) (readV h pbi) (readV h xi))] := by
  simp only [polytopeFeasibilityH, alloc1]
  exact readV_last_v h _

lemma polytopeFeasibilityH_deterministic (diagA : Bool) (ai pbi xi : ℕ) (h : Heap)
    (hai : ai < h.length) (hpbi : pbi < h.length) (hxi : xi < h.length) :
    readV (polytopeFeasibilityH diagA ai pbi xi (polytopeFeasibilityH diagA ai pbi xi h).2).2
        (polytopeFeasibilityH diagA ai pbi xi (polytopeFeasibilityH diagA ai pbi xi h).2).1 =
      readV (polytopeFeasibilityH diagA ai pbi xi h).2
        (polytopeFeasibilityH diagA ai pbi xi h).1 := by
  have hf : ((polytopeFeasibilityH diagA ai pbi xi h).2).take h.length = h := alloc1_frame _ h
  rw [polytopeFeasibilityH_result diagA ai pbi xi ((polytopeFeasibilityH diagA ai pbi xi h).2),
    polytopeFeasibilityH_result diagA ai pbi xi h, readV_of_frame hf hai,
    readM_of_frame hf hai, readV_of_frame hf hpbi, readV_of_frame hf hxi]

/-- The value `BoxBarrier.hessian` leaves in its result tensor, as a
function of the values of the parameter and input tensors alone. -/
lemma boxHessianH_result (bi xi : ℕ) (h : Heap) (hbi : bi < h.length)
    (hxi : xi < h.length) :
    readV (boxHessianH bi xi h).2 (boxHessianH bi xi h).1 =
      (List.zipWith (fun xv rv => 2 * rv + 4 * (xv * rv) ^ 2) (readV h xi)
        ((boxSafeDiff EPSR (readV h bi) (readV h xi)).map (·⁻¹))).map
          (fun q => min q CEIL7R) := by
  simp only [boxHessianH]
  rw [readV_last_v h]
  rw [readV_set_ne (i := xi) (j := h.length) _ _ (by omega), readV_append_lt _ _ _ hxi]
  rw [readV_set_self_v _ h.length _ (by simp)]
  rw [readV_set_self_v _ _ _ (by simp [List.length_set])]
  rw [readV_append_idx _ _ (by simp [List.length_set])]

/-- C10's determinism instance for `BoxBarrier.hessian`: running the method
a second time, on the heap the first call returned, produces the same
result value. -/
lemma boxHessianH_deterministic (bi xi : ℕ) (h : Heap) (hbi : bi < h.length)
    (hxi : xi < h.length) :
    readV (boxHessianH bi xi (boxHessianH bi xi h).2).2
        (boxHessianH bi xi (boxHessianH bi xi h).2).1 =
      readV (boxHessianH bi xi h).2 (boxHessianH bi xi h).1 := by
  have hf := boxHessianH_frame bi xi h
  have hlen := frame_length_le hf
  rw [boxHessianH_result _ _ _ (lt_of_lt_of_le hbi hlen) (lt_of_lt_of_le hxi hlen),
    boxHessianH_result _ _ _ hbi hxi, readV_of_frame hf hbi, readV_of_frame hf hxi]

/-- `(getD i).vecOf` agrees with `readV`. -/
lemma getD_vecOf (h : Heap) (i : ℕ) : (h.getD i (TVal.v [])).vecOf = readV h i := by
  unfold readV
  cases h.getD i (TVal.v []) <;> simp [TVal.vecOf]

lemma encB_and (a c : Bool) : andT [encB a] [encB c] = [encB (a && c)] := by
  cases a <;> cases c <;> norm_num [encB, andT]

/-- The value `PolytopeBarrier.value` leaves in its result tensor, as a
function of the parameter and input tensor values alone. -/
lemma polytopeValueH_result (diagA : Bool) (ai pbi : ℕ) (wi : Option ℕ) (xi : ℕ)
    (h : Heap) (hw : ∀ w ∈ wi, w < h.length) :
    readV (polytopeValueH diagA ai pbi wi xi h).2 (polytopeValueH diagA ai pbi wi xi h).1 =
      [-(mulWeights ((polytopeSlackH diagA ai pbi xi h).map Real.log)
        (wi.map (readV h))).sum] := by
  cases wi with
  | none =>
    simp only [polytopeValueH, Option.map_none', mulWeights]
    rw [readV_last_v h]
    rw [readV_append_idx _ _ (by simp)]
    rw [readV_append_idx _ _ (by simp)]
  | some wid =>
    have hwid : wid < h.length := hw wid rfl
    simp only [polytopeValueH, Option.map_some', mulWeights]
    rw [readV_last_v h]
    rw [readV_append_idx _ _ (by simp)]
    rw [readV_append_lt _ _ _ (show wid < (h ++ [TVal.v (polytopeSlackH diagA ai pbi xi h)]).length
        by simp; omega),
      readV_append_lt _ _ _ hwid]
    rw [readV_set_self_v _ _ _ (by simp)]
    rw [readV_append_idx _ _ (by simp [List.length_set])]

/-- C10's determinism instance for `PolytopeBarrier.value`. -/
lemma polytopeValueH_deterministic (diagA : Bool) (ai pbi : ℕ) (wi : Option ℕ) (xi : ℕ)
    (h : Heap) (hai : ai < h.length) (hpbi : pbi < h.length) (hxi : xi < h.length)
    (hw : ∀ w ∈ wi, w < h.length) :
    readV (polytopeValueH diagA ai pbi wi xi (polytopeValueH diagA ai pbi wi xi h).2).2
        (polytopeValueH diagA ai pbi wi xi (polytopeValueH diagA ai pbi wi xi h).2).1 =
      readV (polytopeValueH diagA ai pbi wi xi h).2 (polytopeValueH diagA ai pbi wi xi h).1 := by
  have hf := polytopeValueH_frame diagA ai pbi wi xi h
  have hlen := frame_length_le hf
  rw [polytopeValueH_result _ _ _ _ _ _ (fun w hwm => lt_of_lt_of_le (hw w hwm) hlen),
    polytopeValueH_result _ _ _ _ _ _ hw]
  have hslack : polytopeSlackH diagA ai pbi xi (polytopeValueH diagA ai pbi wi xi h).2 =
      polytopeSlackH diagA ai pbi xi h := by
    unfold polytopeSlackH
    rw [readV_of_frame hf hai, readV_of_frame hf hpbi, readV_of_frame hf hxi,
      readM_of_frame hf hai]
  rw [hslack]
  cases wi with
  | none => simp
  | some wid =>
    simp only [Option.map_some']
    rw [readV_of_frame hf (hw wid rfl)]

/-- The value the `ComposeBarrier.feasibility` loop leaves in the `check`
accumulator tensor: the conjunction, across constituents, of their
feasibility at the (unchanged) input point. -/
lemma composeFeasLoopH_result (xi : ℕ) (h : Heap) (hx : xi < h.length) :
    ∀ (bs : List (CBarrier ℝ)) (hh : Heap) (acc : Bool),
      hh.take h.length = h → h.length < hh.length → readV hh h.length = [encB acc] →
      readV (bs.foldl (fun hh bar =>
          (hh ++ [TVal.v [encB (bar.feasibility (readV hh xi))]]).set h.length
            (TVal.v (andT
              (((hh ++ [TVal.v [encB (bar.feasibility (readV hh xi))]]).getD h.length
                (TVal.v [])).vecOf)
              (((hh ++ [TVal.v [encB (bar.feasibility (readV hh xi))]]).getD hh.length
                (TVal.v [])).vecOf)))) hh)
        h.length =
      [encB (bs.foldl (fun c bar => c && bar.feasibility (readV h xi)) acc)] := by
  intro bs
  induction bs with
  | nil =>
    intro hh acc _ _ hacc
    simpa using hacc
  | cons bar t ih =>
    intro hh acc htake hlen hacc
    simp only [List.foldl_cons]
    have hrxi : readV hh xi = readV h xi := readV_of_frame htake hx
    apply ih
    · rw [take_pres_set _ (le_refl _), take_pres_append _ (le_of_lt hlen)]
      exact htake
    · simp [List.length_set]
      omega
    · rw [readV_set_self_v _ _ _ (by simp; omega)]
      rw [getD_vecOf, getD_vecOf, readV_append_lt _ _ _ hlen, hacc, readV_last_v, hrxi,
        encB_and]

/-- The value `ComposeBarrier.feasibility` leaves in its result tensor:
the logical AND across constituents. -/
lemma composeFeasibilityH_result (bs : List (CBarrier ℝ)) (xi : ℕ) (h : Heap)
    (hx : xi < h.length) :
    readV (composeFeasibilityH bs xi h).2 (composeFeasibilityH bs xi h).1 =
      [encB (composeFeasibility bs (readV h xi))] := by
  simp only [composeFeasibilityH, composeLoopH, composeFeasibility]
  exact composeFeasLoopH_result xi h hx bs (h ++ [TVal.v [1]]) true
    (by rw [take_pres_append _ (le_refl _), List.take_length])
    (by simp)
    (by rw [readV_last]; norm_num [TVal.vecOf, encB])

/-- C10's determinism instance for `ComposeBarrier.feasibility`. -/
lemma composeFeasibilityH_deterministic (bs : List (CBarrier ℝ)) (xi : ℕ) (h : Heap)
    (hx : xi < h.length) :
    readV (composeFeasibilityH bs xi (composeFeasibilityH bs xi h).2).2
        (composeFeasibilityH bs xi (composeFeasibilityH bs xi h).2).1 =
      readV (composeFeasibilityH bs xi h).2 (composeFeasibilityH bs xi h).1 := by
  have hf : ((composeFeasibilityH bs xi h).2).take h.length = h :=
    composeLoopH_frame _ _ _ bs xi h
  rw [composeFeasibilityH_result _ _ _ (lt_of_lt_of_le hx (frame_length_le hf)),
    composeFeasibilityH_result _ _ _ hx, readV_of_frame hf hx]

/-- The value `BoxBarrier.inverse_gradient` leaves in its result tensor:
the raw closed form with the mask overwrite, as a function of the parameter
and input tensor values. -/
lemma boxInverseGradientH_result (bi yi : ℕ) (h : Heap) (hyi : yi < h.length) :
    readV (boxInverseGradientH bi yi h).2 (boxInverseGradientH bi yi h).1 =
      List.zipWith (fun yv r => if |yv| ≤ ATOLR then (0 : ℝ) else r) (readV h yi)
        (List.zipWith (fun asq yv => (-1 + Real.sqrt (1 + asq)) / yv)
          (List.zipWith (fun (a yv : ℝ) => (a * yv) ^ 2) (readV h bi) (readV h yi))
          (readV h yi)) := by
  simp only [boxInverseGradientH]
  set h1 : Heap := h ++ [TVal.v (List.zipWith (fun (a yv : ℝ) => (a * yv) ^ 2)
    (readV h bi) (readV h yi))] with hh1
  set h2 : Heap := h1 ++ [TVal.v (List.zipWith (fun asq yv => (-1 + Real.sqrt (1 + asq)) / yv)
    (readV h1 h.length) (readV h1 yi))] with hh2
  have e1 : readV h1 h.length = List.zipWith (fun (a yv : ℝ) => (a * yv) ^ 2)
      (readV h bi) (readV h yi) := by
    rw [hh1]; exact readV_last_v h _
  have e2 : readV h1 yi = readV h yi := by
    rw [hh1]; exact readV_append_lt h _ _ hyi
  have e3 : readV h2 (h.length + 1) = List.zipWith
      (fun asq yv => (-1 + Real.sqrt (1 + asq)) / yv)
      (List.zipWith (fun (a yv : ℝ) => (a * yv) ^ 2) (readV h bi) (readV h yi))
      (readV h yi) := by
    rw [hh2, readV_append_idx _ _ (by simp [hh1]), e1, e2]
  have e4 : readV h2 yi = readV h yi := by
    rw [hh2, readV_append_lt _ _ _ (by simp [hh1]; omega), e2]
  rw [readV_set_self_v _ _ _ (by simp [hh2, hh1]), e3, e4]

/-- C10 determinism for `BoxBarrier.inverse_gradient`. -/
lemma boxInverseGradientH_deterministic (bi yi : ℕ) (h : Heap) (hbi : bi < h.length)
    (hyi : yi < h.length) :
    readV (boxInverseGradientH bi yi (boxInverseGradientH bi yi h).2).2
        (boxInverseGradientH bi yi (boxInverseGradientH bi yi h).2).1 =
      readV (boxInverseGradientH bi yi h).2 (boxInverseGradientH bi yi h).1 := by
  have hf := boxInverseGradientH_frame bi yi h
  rw [boxInverseGradientH_result bi yi ((boxInverseGradientH bi yi h).2)
      (lt_of_lt_of_le hyi (frame_length_le hf)),
    boxInverseGradientH_result bi yi h hyi, readV_of_frame hf hbi, readV_of_frame hf hyi]

/-- The value `EllipsoidBarrier.value` leaves in its result tensor: the
`-log1p` of the mask-clamped inner product. -/
lemma ellipsoidValueH_result (ri ei xi : ℕ) (h : Heap) :
    readV (ellipsoidValueH ri ei xi h).2 (ellipsoidValueH ri ei xi h).1 =
      [-Real.log (1 + -(ellipsoidClampedIP (readM h ri) (readV h ei) (readV h xi)))] := by
  simp only [ellipsoidValueH]
  set h1 : Heap := h ++ [TVal.v [ellipsoidInnerProduct (readM h ri) (readV h ei)
    (readV h xi)]] with hh1
  have e1 : readV h1 h.length = [ellipsoidInnerProduct (readM h ri) (readV h ei)
      (readV h xi)] := by
    rw [hh1]; exact readV_last_v h _
  set h2 : Heap := h1.set h.length (TVal.v ((readV h1 h.length).map
    (fun q => if 1 ≤ q then 0 else q))) with hh2
  have e2 : readV h2 h.length = [ellipsoidClampedIP (readM h ri) (readV h ei)
      (readV h xi)] := by
    rw [hh2, readV_set_self_v _ _ _ (by simp [hh1]), e1]
    simp [ellipsoidClampedIP]
  rw [readV_append_idx _ _ (by simp [hh2, hh1]), e2]
  simp

/-- C10 determinism for `EllipsoidBarrier.value`. -/
lemma ellipsoidValueH_deterministic (ri ei xi : ℕ) (h : Heap) (hri : ri < h.length)
    (hei : ei < h.length) (hxi : xi < h.length) :
    readV (ellipsoidValueH ri ei xi (ellipsoidValueH ri ei xi h).2).2
        (ellipsoidValueH ri ei xi (ellipsoidValueH ri ei xi h).2).1 =
      readV (ellipsoidValueH ri ei xi h).2 (ellipsoidValueH ri ei xi h).1 := by
  have hf := ellipsoidValueH_frame ri ei xi h
  rw [ellipsoidValueH_result ri ei xi ((ellipsoidValueH ri ei xi h).2),
    ellipsoidValueH_result ri ei xi h, readM_of_frame hf hri, readV_of_frame hf hei,
    readV_of_frame hf hxi]

/-- The value `SimplexBarrier.feasibility` leaves in its `sum_one_cons`
accumulator: the conjunction of the two constraints. -/
lemma simplexFeasibilityH_result (xi : ℕ) (h : Heap) (hxi : xi < h.length) :
    readV (simplexFeasibilityH xi h).2 (simplexFeasibilityH xi h).1 =
      [encB (decide ((readV h xi).sum ≤ 1) &&
        (readV h xi).all (fun q => decide (0 ≤ q)))] := by
  simp only [simplexFeasibilityH]
  set h1 : Heap := h ++ [TVal.v [encB (decide ((readV h xi).sum ≤ 1))]] with hh1
  set h2 : Heap := h1 ++ [TVal.v [encB ((readV h1 xi).all (fun q => decide (0 ≤ q)))]]
    with hh2
  have e1 : readV h2 h.length = [encB (decide ((readV h xi).sum ≤ 1))] := by
    rw [hh2, readV_append_lt _ _ _ (by simp [hh1]), hh1, readV_last_v]
  have e2 : readV h2 (h.length + 1) = [encB ((readV h xi).all (fun q => decide (0 ≤ q)))] := by
    rw [hh2, readV_append_idx _ _ (by simp [hh1]), hh1, readV_append_lt _ _ _ hxi]
  rw [readV_set_self_v _ _ _ (by simp [hh2, hh1]), e1, e2, encB_and]

/-- C10 determinism for `SimplexBarrier.feasibility`. -/
lemma simplexFeasibilityH_deterministic (xi : ℕ) (h : Heap) (hxi : xi < h.length) :
    readV (simplexFeasibilityH xi (simplexFeasibilityH xi h).2).2
        (simplexFeasibilityH xi (simplexFeasibilityH xi h).2).1 =
      readV (simplexFeasibilityH xi h).2 (simplexFeasibilityH xi h).1 := by
  have hf := simplexFeasibilityH_frame xi h
  rw [simplexFeasibilityH_result xi ((simplexFeasibilityH xi h).2)
      (lt_of_lt_of_le hxi (frame_length_le hf)),
    simplexFeasibilityH_result xi h hxi, readV_of_frame hf hxi]

/-- The value `EllipsoidBarrier.gradient` leaves in its result tensor:
`2 Ax / clamp_min(1 - <x, Ax>, 1e-08)` of the parameter and input reads. -/
lemma ellipsoidGradientH_result (ri ei xi : ℕ) (h : Heap) (hri : ri < h.length)
    (hei : ei < h.length) (hxi : xi < h.length) :
    readV (ellipsoidGradientH ri ei xi h).2 (ellipsoidGradientH ri ei xi h).1 =
      ellipsoidGradient EPSR (readM h ri) (readV h ei) (readV h xi) := by
  simp only [ellipsoidGradientH]
  set h1 : Heap := h ++ [TVal.v [1 - ellipsoidInnerProduct (readM h ri) (readV h ei)
    (readV h xi)]] with hh1
  set h2 : Heap := h1.set h.length (TVal.v ((readV h1 h.length).map (fun q => max q EPSR)))
    with hh2
  set h3 : Heap := h2 ++ [TVal.v (ellipsoidMap (readM h2 ri) (readV h2 ei) (readV h2 xi))]
    with hh3
  have hl1 : h1.length = h.length + 1 := by simp [hh1]
  have hl2 : h2.length = h.length + 1 := by simp [hh2, hl1]
  have e0 : readV h1 h.length = [1 - ellipsoidInnerProduct (readM h ri) (readV h ei)
      (readV h xi)] := by
    rw [hh1]; exact readV_last_v h _
  have e1 : readV h2 h.length = [max (1 - ellipsoidInnerProduct (readM h ri) (readV h ei)
      (readV h xi)) EPSR] := by
    rw [hh2, readV_set_self_v _ _ _ (by omega), e0]; rfl
  have eri : readM h2 ri = readM h ri := by
    rw [hh2, readM_set_ne (i := ri) (j := h.length) _ _ (by omega), hh1,
      readM_append_lt _ _ _ hri]
  have eei : readV h2 ei = readV h ei := by
    rw [hh2, readV_set_ne (i := ei) (j := h.length) _ _ (by omega), hh1,
      readV_append_lt _ _ _ hei]
  have exi : readV h2 xi = readV h xi := by
    rw [hh2, readV_set_ne (i := xi) (j := h.length) _ _ (by omega), hh1,
      readV_append_lt _ _ _ hxi]
  have e2 : readV h3 (h.length + 1) = ellipsoidMap (readM h ri) (readV h ei)
      (readV h xi) := by
    rw [hh3, readV_append_idx _ _ (by omega), eri, eei, exi]
  have e3 : readV h3 h.length = [max (1 - ellipsoidInnerProduct (readM h ri) (readV h ei)
      (readV h xi)) EPSR] := by
    rw [hh3, readV_append_lt _ _ _ (by omega), e1]
  rw [readV_append_idx _ _ (by simp [hh3]; omega), e2, e3]
  simp [ellipsoidGradient]

/-- C10 determinism for `EllipsoidBarrier.gradient`. -/
lemma ellipsoidGradientH_deterministic (ri ei xi : ℕ) (h : Heap) (hri : ri < h.length)
    (hei : ei < h.length) (hxi : xi < h.length) :
    readV (ellipsoidGradientH ri ei xi (ellipsoidGradientH ri ei xi h).2).2
        (ellipsoidGradientH ri ei xi (ellipsoidGradientH ri ei xi h).2).1 =
      readV (ellipsoidGradientH ri ei xi h).2 (ellipsoidGradientH ri ei xi h).1 := by
  have hf := ellipsoidGradientH_frame ri ei xi h
  have hle := frame_length_le hf
  rw [ellipsoidGradientH_result ri ei xi ((ellipsoidGradientH ri ei xi h).2)
      (lt_of_lt_of_le hri hle) (lt_of_lt_of_le hei hle) (lt_of_lt_of_le hxi hle),
    ellipsoidGradientH_result ri ei xi h hri hei hxi,
    readM_of_frame hf hri, readV_of_frame hf hei, readV_of_frame hf hxi]

/-- The matrix `EllipsoidBarrier.hessian` leaves in its result tensor:
`ULUT + scaled_Ax (x) scaled_Ax` of the parameter and input reads. -/
lemma ellipsoidHessianH_result (ri ei xi : ℕ) (h : Heap) (hri : ri < h.length)
    (hei : ei < h.length) (hxi : xi < h.length) :
    readM (ellipsoidHessianH ri ei xi h).2 (ellipsoidHessianH ri ei xi h).1 =
      ellipsoidHessian EPSR (readM h ri) (readV h ei) (readV h xi) := by
  simp only [ellipsoidHessianH]
  set h1 : Heap := h ++ [TVal.v [1 - ellipsoidInnerProduct (readM h ri) (readV h ei)
    (readV h xi)]] with hh1
  set h2 : Heap := h1.set h.length (TVal.v ((readV h1 h.length).map (fun q => max q EPSR)))
    with hh2
  set h3 : Heap := h2 ++ [TVal.v (ellipsoidMap (readM h2 ri) (readV h2 ei) (readV h2 xi))]
    with hh3
  set h4 : Heap := h3.set h.length (TVal.v (readV h3 h.length)) with hh4
  set h5 : Heap := h4 ++ [TVal.v ((readV h4 (h.length + 1)).map
    (fun v => 2 * v / ((readV h4 h.length).headD 0)))] with hh5
  set h6 : Heap := h5.set h.length (TVal.v (readV h5 h.length)) with hh6
  set h7 : Heap := h6 ++ [TVal.v ((readV h6 ei).map
    (fun l => 2 * l / ((readV h6 h.length).headD 0)))] with hh7
  set h8 : Heap := h7 ++ [TVal.m (matmulSq (scaleCols (readM h7 ri)
    (readV h7 (h.length + 3))) (transposeSq (readM h7 ri)))] with hh8
  have hl1 : h1.length = h.length + 1 := by simp [hh1]
  have hl2 : h2.length = h.length + 1 := by simp [hh2, hl1]
  have hl3 : h3.length = h.length + 2 := by simp [hh3, hl2]
  have hl4 : h4.length = h.length + 2 := by simp [hh4, hl3]
  have hl5 : h5.length = h.length + 3 := by simp [hh5, hl4]
  have hl6 : h6.length = h.length + 3 := by simp [hh6, hl5]
  have hl7 : h7.length = h.length + 4 := by simp [hh7, hl6]
  have hl8 : h8.length = h.length + 5 := by simp [hh8, hl7]
  have e0 : readV h1 h.length = [1 - ellipsoidInnerProduct (readM h ri) (readV h ei)
      (readV h xi)] := by
    rw [hh1]; exact readV_last_v h _
  have e1 : readV h2 h.length = [max (1 - ellipsoidInnerProduct (readM h ri) (readV h ei)
      (readV h xi)) EPSR] := by
    rw [hh2, readV_set_self_v _ _ _ (by omega), e0]; rfl
  have eri : readM h2 ri = readM h ri := by
    rw [hh2, readM_set_ne (i := ri) (j := h.length) _ _ (by omega), hh1,
      readM_append_lt _ _ _ hri]
  have eei : readV h2 ei = readV h ei := by
    rw [hh2, readV_set_ne (i := ei) (j := h.length) _ _ (by omega), hh1,
      readV_append_lt _ _ _ hei]
  have exi : readV h2 xi = readV h xi := by
    rw [hh2, readV_set_ne (i := xi) (j := h.length) _ _ (by omega), hh1,
      readV_append_lt _ _ _ hxi]
  have e3b : readV h3 h.length = [max (1 - ellipsoidInnerProduct (readM h ri) (readV h ei)
      (readV h xi)) EPSR] := by
    rw [hh3, readV_append_lt _ _ _ (by omega), e1]
  have e4b : readV h4 h.length = [max (1 - ellipsoidInnerProduct (readM h ri) (readV h ei)
      (readV h xi)) EPSR] := by
    rw [hh4, readV_set_self_v _ _ _ (by omega), e3b]
  have e4m : readV h4 (h.length + 1) = ellipsoidMap (readM h ri) (readV h ei)
      (readV h xi) := by
    rw [hh4, readV_set_ne (i := h.length + 1) (j := h.length) _ _ (by omega), hh3,
      readV_append_idx _ _ (by omega), eri, eei, exi]
  have e5 : readV h5 (h.length + 2) = (ellipsoidMap (readM h ri) (readV h ei)
      (readV h xi)).map (fun v => 2 * v / max (1 - ellipsoidInnerProduct (readM h ri)
        (readV h ei) (readV h xi)) EPSR) := by
    rw [hh5, readV_append_idx _ _ (by omega), e4m, e4b]; rfl
  have e5b : readV h5 h.length = [max (1 - ellipsoidInnerProduct (readM h ri) (readV h ei)
      (readV h xi)) EPSR] := by
    rw [hh5, readV_append_lt _ _ _ (by omega), e4b]
  have e6b : readV h6 h.length = [max (1 - ellipsoidInnerProduct (readM h ri) (readV h ei)
      (readV h xi)) EPSR] := by
    rw [hh6, readV_set_self_v _ _ _ (by omega), e5b]
  have e6e : readV h6 ei = readV h ei := by
    rw [hh6, readV_set_ne (i := ei) (j := h.length) _ _ (by omega), hh5,
      readV_append_lt _ _ _ (by omega), hh4,
      readV_set_ne (i := ei) (j := h.length) _ _ (by omega), hh3,
      readV_append_lt _ _ _ (by omega), eei]
  have e6s : readV h6 (h.length + 2) = (ellipsoidMap (readM h ri) (readV h ei)
      (readV h xi)).map (fun v => 2 * v / max (1 - ellipsoidInnerProduct (readM h ri)
        (readV h ei) (readV h xi)) EPSR) := by
    rw [hh6, readV_set_ne (i := h.length + 2) (j := h.length) _ _ (by omega), e5]
  have e7 : readV h7 (h.length + 3) = (readV h ei).map
      (fun l => 2 * l / max (1 - ellipsoidInnerProduct (readM h ri) (readV h ei)
        (readV h xi)) EPSR) := by
    rw [hh7, readV_append_idx _ _ (by omega), e6e, e6b]; rfl
  have e7r : readM h7 ri = readM h ri := by
    rw [hh7, readM_append_lt _ _ _ (by omega), hh6,
      readM_set_ne (i := ri) (j := h.length) _ _ (by omega), hh5,
      readM_append_lt _ _ _ (by omega), hh4,
      readM_set_ne (i := ri) (j := h.length) _ _ (by omega), hh3,
      readM_append_lt _ _ _ (by omega), eri]
  have e7s : readV h7 (h.length + 2) = (ellipsoidMap (readM h ri) (readV h ei)
      (readV h xi)).map (fun v => 2 * v / max (1 - ellipsoidInnerProduct (readM h ri)
        (readV h ei) (readV h xi)) EPSR) := by
    rw [hh7, readV_append_lt _ _ _ (by omega), e6s]
  have e8 : readM h8 (h.length + 4) = matmulSq (scaleCols (readM h ri)
      ((readV h ei).map (fun l => 2 * l / max (1 - ellipsoidInnerProduct (readM h ri)
        (readV h ei) (readV h xi)) EPSR))) (transposeSq (readM h ri)) := by
    rw [hh8, readM_append_idx _ _ (by omega), e7r, e7]
  have e8s : readV h8 (h.length + 2) = (ellipsoidMap (readM h ri) (readV h ei)
      (readV h xi)).map (fun v => 2 * v / max (1 - ellipsoidInnerProduct (readM h ri)
        (readV h ei) (readV h xi)) EPSR) := by
    rw [hh8, readV_append_lt _ _ _ (by omega), e7s]
  rw [readM_append_idx _ _ (by omega), e8, e8s]
  simp [ellipsoidHessian]

/-- C10 determinism for `EllipsoidBarrier.hessian`. -/
lemma ellipsoidHessianH_deterministic (ri ei xi : ℕ) (h : Heap) (hri : ri < h.length)
    (hei : ei < h.length) (hxi : xi < h.length) :
    readM (ellipsoidHessianH ri ei xi (ellipsoidHessianH ri ei xi h).2).2
        (ellipsoidHessianH ri ei xi (ellipsoidHessianH ri ei xi h).2).1 =
      readM (ellipsoidHessianH ri ei xi h).2 (ellipsoidHessianH ri ei xi h).1 := by
  have hf := ellipsoidHessianH_frame ri ei xi h
  have hle := frame_length_le hf
  rw [ellipsoidHessianH_result ri ei xi ((ellipsoidHessianH ri ei xi h).2)
      (lt_of_lt_of_le hri hle) (lt_of_lt_of_le hei hle) (lt_of_lt_of_le hxi hle),
    ellipsoidHessianH_result ri ei xi h hri hei hxi,
    readM_of_frame hf hri, readV_of_frame hf hei, readV_of_frame hf hxi]

/-- The matrix `SimplexBarrier.hessian` leaves in its result tensor: the
clamped diagonal plus the broadcast clamped aggregate term. -/
lemma simplexHessianH_result (xi : ℕ) (h : Heap) (hxi : xi < h.length) :
    readM (simplexHessianH xi h).2 (simplexHessianH xi h).1 =
      simplexHessian EPSR CEIL8R (readV h xi) := by
  simp only [simplexHessianH]
  set h1 : Heap := h ++ [TVal.v ((readV h xi).map (fun q => q ^ 2))] with hh1
  set h2 : Heap := h1.set h.length (TVal.v ((readV h1 h.length).map (·⁻¹))) with hh2
  set h3 : Heap := h2.set h.length (TVal.v ((readV h2 h.length).map
    (fun q => min q CEIL8R))) with hh3
  set h4 : Heap := h3 ++ [TVal.v [max (1 - (readV h3 xi).sum) EPSR]] with hh4
  set h5 : Heap := h4.set (h.length + 1) (TVal.v ((readV h4 (h.length + 1)).map (·⁻¹)))
    with hh5
  set h6 : Heap := h5.set (h.length + 1) (TVal.v ((readV h5 (h.length + 1)).map
    (fun q => q ^ 2))) with hh6
  set h7 : Heap := h6.set (h.length + 1) (TVal.v ((readV h6 (h.length + 1)).map
    (fun q => min q CEIL8R))) with hh7
  set h8 : Heap := h7.set (h.length + 1) (TVal.v (readV h7 (h.length + 1))) with hh8
  have hl1 : h1.length = h.length + 1 := by simp [hh1]
  have hl2 : h2.length = h.length + 1 := by simp [hh2, hl1]
  have hl3 : h3.length = h.length + 1 := by simp [hh3, hl2]
  have hl4 : h4.length = h.length + 2 := by simp [hh4, hl3]
  have hl5 : h5.length = h.length + 2 := by simp [hh5, hl4]
  have hl6 : h6.length = h.length + 2 := by simp [hh6, hl5]
  have hl7 : h7.length = h.length + 2 := by simp [hh7, hl6]
  have hl8 : h8.length = h.length + 2 := by simp [hh8, hl7]
  have e1 : readV h1 h.length = (readV h xi).map (fun q => q ^ 2) := by
    rw [hh1]; exact readV_last_v h _
  have e2 : readV h2 h.length = ((readV h xi).map (fun q => q ^ 2)).map (·⁻¹) := by
    rw [hh2, readV_set_self_v _ _ _ (by omega), e1]
  have e3 : readV h3 h.length = (((readV h xi).map (fun q => q ^ 2)).map (·⁻¹)).map
      (fun q => min q CEIL8R) := by
    rw [hh3, readV_set_self_v _ _ _ (by omega), e2]
  have e3x : readV h3 xi = readV h xi := by
    rw [hh3, readV_set_ne (i := xi) (j := h.length) _ _ (by omega), hh2,
      readV_set_ne (i := xi) (j := h.length) _ _ (by omega), hh1,
      readV_append_lt _ _ _ hxi]
  have e4 : readV h4 (h.length + 1) = [max (1 - (readV h xi).sum) EPSR] := by
    rw [hh4, readV_append_idx _ _ (by omega), e3x]
  have e5 : readV h5 (h.length + 1) = [(max (1 - (readV h xi).sum) EPSR)⁻¹] := by
    rw [hh5, readV_set_self_v _ _ _ (by omega), e4]; rfl
  have e6 : readV h6 (h.length + 1) = [(max (1 - (readV h xi).sum) EPSR)⁻¹ ^ 2] := by
    rw [hh6, readV_set_self_v _ _ _ (by omega), e5]; rfl
  have e7 : readV h7 (h.length + 1) = [min ((max (1 - (readV h xi).sum) EPSR)⁻¹ ^ 2)
      CEIL8R] := by
    rw [hh7, readV_set_self_v _ _ _ (by omega), e6]; rfl
  have e8 : readV h8 (h.length + 1) = [min ((max (1 - (readV h xi).sum) EPSR)⁻¹ ^ 2)
      CEIL8R] := by
    rw [hh8, readV_set_self_v _ _ _ (by omega), e7]
  have e8d : readV h8 h.length = (((readV h xi).map (fun q => q ^ 2)).map (·⁻¹)).map
      (fun q => min q CEIL8R) := by
    rw [hh8, readV_set_ne (i := h.length) (j := h.length + 1) _ _ (by omega), hh7,
      readV_set_ne (i := h.length) (j := h.length + 1) _ _ (by omega), hh6,
      readV_set_ne (i := h.length) (j := h.length + 1) _ _ (by omega), hh5,
      readV_set_ne (i := h.length) (j := h.length + 1) _ _ (by omega), hh4,
      readV_append_lt _ _ _ (by omega), e3]
  rw [readM_append_idx _ _ (by omega), e8d, e8]
  simp [simplexHessian, simplexSafeInterior, List.map_map, Function.comp_def]

/-- C10 determinism for `SimplexBarrier.hessian`. -/
lemma simplexHessianH_deterministic (xi : ℕ) (h : Heap) (hxi : xi < h.length) :
    readM (simplexHessianH xi (simplexHessianH xi h).2).2
        (simplexHessianH xi (simplexHessianH xi h).2).1 =
      readM (simplexHessianH xi h).2 (simplexHessianH xi h).1 := by
  have hf := simplexHessianH_frame xi h
  rw [simplexHessianH_result xi ((simplexHessianH xi h).2)
      (lt_of_lt_of_le hxi (frame_length_le hf)),
    simplexHessianH_result xi h hxi, readV_of_frame hf hxi]

/-- `slack.div_(self.weights.sqrt())` when weights are given. -/
noncomputable def divSqrtWeights (l : List ℝ) (w : Option (List ℝ)) : List ℝ :=
  match w with
  | none => l
  | some ww => List.zipWith (fun sv wv => sv / Real.sqrt wv) l ww

/-- The slack only reads the parameter and input ids, so it is unchanged
across any frame-preserving heap extension. -/
lemma polytopeSlackH_of_frame {h h' : Heap} (hf : h'.take h.length = h) (diagA : Bool)
    (ai pbi xi : ℕ) (hai : ai < h.length) (hpbi : pbi < h.length) (hxi : xi < h.length) :
    polytopeSlackH diagA ai pbi xi h' = polytopeSlackH diagA ai pbi xi h := by
  unfold polytopeSlackH
  rw [readV_of_frame hf hai, readM_of_frame hf hai, readV_of_frame hf hpbi,
    readV_of_frame hf hxi]

/-- The value `PolytopeBarrier.gradient` leaves in its result tensor, as a
function of the parameter and input tensor values alone. -/
lemma polytopeGradientH_result (diagA : Bool) (ai pbi : ℕ) (wi : Option ℕ) (xi : ℕ)
    (h : Heap) (hai : ai < h.length) (hw : ∀ w ∈ wi, w < h.length) :
    readV (polytopeGradientH diagA ai pbi wi xi h).2
        (polytopeGradientH diagA ai pbi wi xi h).1 =
      (if diagA then List.zipWith (· / ·) (readV h ai)
          (divWeights (polytopeSlackH diagA ai pbi xi h) (wi.map (readV h)))
        else polytopeGradientFullR (readM h ai)
          (divWeights (polytopeSlackH diagA ai pbi xi h) (wi.map (readV h)))) := by
  cases wi with
  | none =>
    simp only [polytopeGradientH, Option.map_none', divWeights]
    set h1 : Heap := h ++ [TVal.v (polytopeSlackH diagA ai pbi xi h)] with hh1
    have e1 : readV h1 h.length = polytopeSlackH diagA ai pbi xi h := by
      rw [hh1]; exact readV_last_v h _
    have e2 : readV h1 ai = readV h ai := by
      rw [hh1]; exact readV_append_lt _ _ _ hai
    have e3 : readM h1 ai = readM h ai := by
      rw [hh1]; exact readM_append_lt _ _ _ hai
    rw [← apply_ite TVal.v, readV_append_idx _ _ (by simp [hh1]), e1, e2, e3]
  | some wid =>
    have hwid : wid < h.length := hw wid rfl
    simp only [polytopeGradientH, Option.map_some', divWeights]
    set h1 : Heap := h ++ [TVal.v (polytopeSlackH diagA ai pbi xi h)] with hh1
    set h2 : Heap := h1.set h.length (TVal.v (List.zipWith (· / ·) (readV h1 h.length)
      (readV h1 wid))) with hh2
    have hl1 : h1.length = h.length + 1 := by simp [hh1]
    have e1 : readV h1 h.length = polytopeSlackH diagA ai pbi xi h := by
      rw [hh1]; exact readV_last_v h _
    have ew : readV h1 wid = readV h wid := by
      rw [hh1]; exact readV_append_lt _ _ _ hwid
    have e2 : readV h2 h.length = List.zipWith (· / ·)
        (polytopeSlackH diagA ai pbi xi h) (readV h wid) := by
      rw [hh2, readV_set_self_v _ _ _ (by omega), e1, ew]
    have e2a : readV h2 ai = readV h ai := by
      rw [hh2, readV_set_ne (i := ai) (j := h.length) _ _ (by omega), hh1,
        readV_append_lt _ _ _ hai]
    have e2m : readM h2 ai = readM h ai := by
      rw [hh2, readM_set_ne (i := ai) (j := h.length) _ _ (by omega), hh1,
        readM_append_lt _ _ _ hai]
    rw [← apply_ite TVal.v, readV_append_idx _ _ (by simp [hh2, hl1]), e2, e2a, e2m]

/-- C10 determinism for `PolytopeBarrier.gradient`. -/
lemma polytopeGradientH_deterministic (diagA : Bool) (ai pbi : ℕ) (wi : Option ℕ)
    (xi : ℕ) (h : Heap) (hai : ai < h.length) (hpbi : pbi < h.length)
    (hxi : xi < h.length) (hw : ∀ w ∈ wi, w < h.length) :
    readV (polytopeGradientH diagA ai pbi wi xi
          (polytopeGradientH diagA ai pbi wi xi h).2).2
        (polytopeGradientH diagA ai pbi wi xi
          (polytopeGradientH diagA ai pbi wi xi h).2).1 =
      readV (polytopeGradientH diagA ai pbi wi xi h).2
        (polytopeGradientH diagA ai pbi wi xi h).1 := by
  have hf := polytopeGradientH_frame diagA ai pbi wi xi h
  have hlen := frame_length_le hf
  rw [polytopeGradientH_result _ _ _ _ _ _ (lt_of_lt_of_le hai hlen)
      (fun w hwm => lt_of_lt_of_le (hw w hwm) hlen),
    polytopeGradientH_result _ _ _ _ _ _ hai hw,
    polytopeSlackH_of_frame hf diagA ai pbi xi hai hpbi hxi,
    readV_of_frame hf hai, readM_of_frame hf hai]
  cases wi with
  | none => rfl
  | some wid =>
    simp only [Option.map_some']
    rw [readV_of_frame hf (hw wid rfl)]

/-- The vector the diagonal form of `PolytopeBarrier.hessian` leaves in its
result tensor. -/
lemma polytopeHessianH_result_diag (ai pbi : ℕ) (wi : Option ℕ) (xi : ℕ) (h : Heap)
    (hai : ai < h.length) (hw : ∀ w ∈ wi, w < h.length) :
    readV (polytopeHessianH true ai pbi wi xi h).2
        (polytopeHessianH true ai pbi wi xi h).1 =
      List.zipWith (fun av sv => (av / sv) ^ 2) (readV h ai)
        (divSqrtWeights (polytopeSlackH true ai pbi xi h) (wi.map (readV h))) := by
  cases wi with
  | none =>
    simp only [polytopeHessianH, Option.map_none', divSqrtWeights, reduceIte]
    set h1 : Heap := h ++ [TVal.v (polytopeSlackH true ai pbi xi h)] with hh1
    have e1 : readV h1 h.length = polytopeSlackH true ai pbi xi h := by
      rw [hh1]; exact readV_last_v h _
    have e2 : readV h1 ai = readV h ai := by
      rw [hh1]; exact readV_append_lt _ _ _ hai
    rw [readV_append_idx _ _ (by simp [hh1]), e1, e2]
  | some wid =>
    have hwid : wid < h.length := hw wid rfl
    simp only [polytopeHessianH, Option.map_some', divSqrtWeights, reduceIte]
    set h1 : Heap := h ++ [TVal.v (polytopeSlackH true ai pbi xi h)] with hh1
    set h2 : Heap := h1.set h.length (TVal.v (List.zipWith (fun sv wv => sv / Real.sqrt wv)
      (readV h1 h.length) (readV h1 wid))) with hh2
    have hl1 : h1.length = h.length + 1 := by simp [hh1]
    have e1 : readV h1 h.length = polytopeSlackH true ai pbi xi h := by
      rw [hh1]; exact readV_last_v h _
    have ew : readV h1 wid = readV h wid := by
      rw [hh1]; exact readV_append_lt _ _ _ hwid
    have e2 : readV h2 h.length = List.zipWith (fun sv wv => sv / Real.sqrt wv)
        (polytopeSlackH true ai pbi xi h) (readV h wid) := by
      rw [hh2, readV_set_self_v _ _ _ (by omega), e1, ew]
    have e2a : readV h2 ai = readV h ai := by
      rw [hh2, readV_set_ne (i := ai) (j := h.length) _ _ (by omega), hh1,
        readV_append_lt _ _ _ hai]
    rw [readV_append_idx _ _ (by simp [hh2, hl1]), e2, e2a]

/-- C10 determinism for the diagonal form of `PolytopeBarrier.hessian`. -/
lemma polytopeHessianH_diag_deterministic (ai pbi : ℕ) (wi : Option ℕ) (xi : ℕ)
    (h : Heap) (hai : ai < h.length) (hpbi : pbi < h.length) (hxi : xi < h.length)
    (hw : ∀ w ∈ wi, w < h.length) :
    readV (polytopeHessianH true ai pbi wi xi
          (polytopeHessianH true ai pbi wi xi h).2).2
        (polytopeHessianH true ai pbi wi xi
          (polytopeHessianH true ai pbi wi xi h).2).1 =
      readV (polytopeHessianH true ai pbi wi xi h).2
        (polytopeHessianH true ai pbi wi xi h).1 := by
  have hf := polytopeHessianH_frame true ai pbi wi xi h
  have hlen := frame_length_le hf
  rw [polytopeHessianH_result_diag _ _ _ _ _ (lt_of_lt_of_le hai hlen)
      (fun w hwm => lt_of_lt_of_le (hw w hwm) hlen),
    polytopeHessianH_result_diag _ _ _ _ _ hai hw,
    polytopeSlackH_of_frame hf true ai pbi xi hai hpbi hxi, readV_of_frame hf hai]
  cases wi with
  | none => rfl
  | some wid =>
    simp only [Option.map_some']
    rw [readV_of_frame hf (hw wid rfl)]

/-- The matrix the full form of `PolytopeBarrier.hessian` leaves in its
result tensor. -/
lemma polytopeHessianH_result_full (ai pbi : ℕ) (wi : Option ℕ) (xi : ℕ) (h : Heap)
    (hai : ai < h.length) (hw : ∀ w ∈ wi, w < h.length) :
    readM (polytopeHessianH false ai pbi wi xi h).2
        (polytopeHessianH false ai pbi wi xi h).1 =
      matListSum ((List.zipWith (fun (row : List ℝ) sv => row.map (· / sv)) (readM h ai)
        (divSqrtWeights (polytopeSlackH false ai pbi xi h) (wi.map (readV h)))).map
        (fun row => outerL row row)) := by
  cases wi with
  | none =>
    simp only [polytopeHessianH, Option.map_none', divSqrtWeights, Bool.false_eq_true,
      reduceIte]
    set h1 : Heap := h ++ [TVal.v (polytopeSlackH false ai pbi xi h)] with hh1
    have hl1 : h1.length = h.length + 1 := by simp [hh1]
    have e1 : readV h1 h.length = polytopeSlackH false ai pbi xi h := by
      rw [hh1]; exact readV_last_v h _
    have e2 : readM h1 ai = readM h ai := by
      rw [hh1]; exact readM_append_lt _ _ _ hai
    rw [readM_append_idx _ _ (by simp [hh1]), readM_append_idx _ _ (by simp [hh1]),
      e1, e2]
  | some wid =>
    have hwid : wid < h.length := hw wid rfl
    simp only [polytopeHessianH, Option.map_some', divSqrtWeights, Bool.false_eq_true,
      reduceIte]
    set h1 : Heap := h ++ [TVal.v (polytopeSlackH false ai pbi xi h)] with hh1
    set h2 : Heap := h1.set h.length (TVal.v (List.zipWith (fun sv wv => sv / Real.sqrt wv)
      (readV h1 h.length) (readV h1 wid))) with hh2
    have hl1 : h1.length = h.length + 1 := by simp [hh1]
    have hl2 : h2.length = h.length + 1 := by simp [hh2, hl1]
    have e1 : readV h1 h.length = polytopeSlackH false ai pbi xi h := by
      rw [hh1]; exact readV_last_v h _
    have ew : readV h1 wid = readV h wid := by
      rw [hh1]; exact readV_append_lt _ _ _ hwid
    have e2 : readV h2 h.length = List.zipWith (fun sv wv => sv / Real.sqrt wv)
        (polytopeSlackH false ai pbi xi h) (readV h wid) := by
      rw [hh2, readV_set_self_v _ _ _ (by omega), e1, ew]
    have e2m : readM h2 ai = readM h ai := by
      rw [hh2, readM_set_ne (i := ai) (j := h.length) _ _ (by omega), hh1,
        readM_append_lt _ _ _ hai]
    rw [readM_append_idx _ _ (by simp [hh2, hh1]), readM_append_idx _ _ (by omega),
      e2, e2m]

/-- C10 determinism for the full form of `PolytopeBarrier.hessian`. -/
lemma polytopeHessianH_full_deterministic (ai pbi : ℕ) (wi : Option ℕ) (xi : ℕ)
    (h : Heap) (hai : ai < h.length) (hpbi : pbi < h.length) (hxi : xi < h.length)
    (hw : ∀ w ∈ wi, w < h.length) :
    readM (polytopeHessianH false ai pbi wi xi
          (polytopeHessianH false ai pbi wi xi h).2).2
        (polytopeHessianH false ai pbi wi xi
          (polytopeHessianH false ai pbi wi xi h).2).1 =
      readM (polytopeHessianH false ai pbi wi xi h).2
        (polytopeHessianH false ai pbi wi xi h).1 := by
  have hf := polytopeHessianH_frame false ai pbi wi xi h
  have hlen := frame_length_le hf
  rw [polytopeHessianH_result_full _ _ _ _ _ (lt_of_lt_of_le hai hlen)
      (fun w hwm => lt_of_lt_of_le (hw w hwm) hlen),
    polytopeHessianH_result_full _ _ _ _ _ hai hw,
    polytopeSlackH_of_frame hf false ai pbi xi hai hpbi hxi, readM_of_frame hf hai]
  cases wi with
  | none => rfl
  | some wid =>
    simp only [Option.map_some']
    rw [readV_of_frame hf (hw wid rfl)]

/-- The value the additive accumulator loop shared by `ComposeBarrier.value`
and `ComposeBarrier.gradient` leaves in the accumulator tensor: the fold of
elementwise addition of the per-constituent results at the (unchanged)
input point. -/
lemma composeAddLoopH_result (g : CBarrier ℝ → List ℝ → List ℝ) (xi : ℕ) (h : Heap)
    (hx : xi < h.length) :
    ∀ (bs : List (CBarrier ℝ)) (hh : Heap) (acc : List ℝ),
      hh.take h.length = h → h.length < hh.length → readV hh h.length = acc →
      readV (bs.foldl (fun hh bar =>
          (hh ++ [TVal.v (g bar (readV hh xi))]).set h.length
            (TVal.v (List.zipWith (· + ·)
              (((hh ++ [TVal.v (g bar (readV hh xi))]).getD h.length
                (TVal.v [])).vecOf)
              (((hh ++ [TVal.v (g bar (readV hh xi))]).getD hh.length
                (TVal.v [])).vecOf)))) hh)
        h.length =
      bs.foldl (fun c bar => List.zipWith (· + ·) c (g bar (readV h xi))) acc := by
  intro bs
  induction bs with
  | nil =>
    intro hh acc _ _ hacc
    simpa using hacc
  | cons bar t ih =>
    intro hh acc htake hlen hacc
    simp only [List.foldl_cons]
    have hrxi : readV hh xi = readV h xi := readV_of_frame htake hx
    apply ih
    · rw [take_pres_set _ (le_refl _), take_pres_append _ (le_of_lt hlen)]
      exact htake
    · simp [List.length_set]
      omega
    · rw [readV_set_self_v _ _ _ (by simp; omega)]
      rw [getD_vecOf, getD_vecOf, readV_append_lt _ _ _ hlen, hacc, readV_last_v, hrxi]

/-- The value `ComposeBarrier.value` leaves in its accumulator tensor: the
fold of the constituents' values at the unchanged input. -/
lemma composeValueH_result (bs : List (CBarrier ℝ)) (xi : ℕ) (h : Heap)
    (hx : xi < h.length) :
    readV (composeValueH bs xi h).2 (composeValueH bs xi h).1 =
      bs.foldl (fun c bar => List.zipWith (· + ·) c [bar.valueR (readV h xi)]) [(0 : ℝ)] := by
  simp only [composeValueH, composeLoopH]
  exact composeAddLoopH_result (fun bar x => [bar.valueR x]) xi h hx bs
    (h ++ [TVal.v [0]]) [(0 : ℝ)]
    (by rw [take_pres_append _ (le_refl _), List.take_length])
    (by simp)
    (readV_last_v h _)

/-- C10 determinism for `ComposeBarrier.value`. -/
lemma composeValueH_deterministic (bs : List (CBarrier ℝ)) (xi : ℕ) (h : Heap)
    (hx : xi < h.length) :
    readV (composeValueH bs xi (composeValueH bs xi h).2).2
        (composeValueH bs xi (composeValueH bs xi h).2).1 =
      readV (composeValueH bs xi h).2 (composeValueH bs xi h).1 := by
  have hf : ((composeValueH bs xi h).2).take h.length = h :=
    composeLoopH_frame _ _ _ bs xi h
  rw [composeValueH_result _ _ _ (lt_of_lt_of_le hx (frame_length_le hf)),
    composeValueH_result _ _ _ hx, readV_of_frame hf hx]

/-- The value `ComposeBarrier.gradient` leaves in its accumulator tensor:
the fold of the constituents' gradients at the unchanged input. -/
lemma composeGradientH_result (bs : List (CBarrier ℝ)) (xi : ℕ) (h : Heap)
    (hx : xi < h.length) :
    readV (composeGradientH bs xi h).2 (composeGradientH bs xi h).1 =
      bs.foldl (fun c bar => List.zipWith (· + ·) c (bar.gradientR (readV h xi)))
        ((readV h xi).map (fun _ => 0)) := by
  simp only [composeGradientH, composeLoopH]
  exact composeAddLoopH_result CBarrier.gradientR xi h hx bs
    (h ++ [TVal.v ((readV h xi).map (fun _ => 0))]) ((readV h xi).map (fun _ => 0))
    (by rw [take_pres_append _ (le_refl _), List.take_length])
    (by simp)
    (readV_last_v h _)

/-- C10 determinism for `ComposeBarrier.gradient`. -/
lemma composeGradientH_deterministic (bs : List (CBarrier ℝ)) (xi : ℕ) (h : Heap)
    (hx : xi < h.length) :
    readV (composeGradientH bs xi (composeGradientH bs xi h).2).2
        (composeGradientH bs xi (composeGradientH bs xi h).2).1 =
      readV (composeGradientH bs xi h).2 (composeGradientH bs xi h).1 := by
  have hf : ((composeGradientH bs xi h).2).take h.length = h :=
    composeLoopH_frame _ _ _ bs xi h
  rw [composeGradientH_result _ _ _ (lt_of_lt_of_le hx (frame_length_le hf)),
    composeGradientH_result _ _ _ hx, readV_of_frame hf hx]

/-- On the crash executions of `ComposeBarrier.hessian` (no diagonal-Hessian
constituent, see C3) the heap is returned untouched with no result, so a
second call does exactly the same. -/
lemma composeHessianH_crash (bs : List (CBarrier ℝ)) (xi : ℕ) (h : Heap)
    (hde : (composeDiagPart bs).isEmpty = true) :
    composeHessianH bs xi h = (none, h) := by
  simp only [composeHessianH, hde, reduceIte]

/-- The value the diagonal accumulator loop of `ComposeBarrier.hessian`
leaves in the accumulator tensor. -/
lemma composeHessDiagLoopH_result (xi : ℕ) (h : Heap) (hx : xi < h.length) :
    ∀ (ds : List (CBarrier ℝ)) (hh : Heap) (acc : List ℝ),
      hh.take h.length = h → h.length < hh.length → readV hh h.length = acc →
      readV (ds.foldl (fun hh bar =>
          (hh ++ [TVal.v ((bar.hessian EPSR (readV hh xi)).getDiag)]).set h.length
            (TVal.v (List.zipWith (· + ·)
              (readV (hh ++ [TVal.v ((bar.hessian EPSR (readV hh xi)).getDiag)]) h.length)
              (readV (hh ++ [TVal.v ((bar.hessian EPSR (readV hh xi)).getDiag)])
                hh.length)))) hh)
        h.length =
      ds.foldl (fun c bar => List.zipWith (· + ·) c
        ((bar.hessian EPSR (readV h xi)).getDiag)) acc := by
  intro ds
  induction ds with
  | nil =>
    intro hh acc _ _ hacc
    simpa using hacc
  | cons bar t ih =>
    intro hh acc htake hlen hacc
    simp only [List.foldl_cons]
    have hrxi : readV hh xi = readV h xi := readV_of_frame htake hx
    apply ih
    · rw [take_pres_set _ (le_refl _), take_pres_append _ (le_of_lt hlen)]
      exact htake
    · simp [List.length_set]
      omega
    · rw [readV_set_self_v _ _ _ (by simp; omega), readV_append_lt _ _ _ hlen, hacc,
        readV_last_v, hrxi]

/-- On the all-diagonal executions, `ComposeBarrier.hessian` returns the
diagonal accumulator: its id and its value as a function of the input
read. -/
lemma composeHessianH_diag_result (bs : List (CBarrier ℝ)) (xi : ℕ) (h : Heap)
    (hx : xi < h.length) (hde : (composeDiagPart bs).isEmpty = false)
    (hcd : composeDiagHess bs = true) :
    (composeHessianH bs xi h).1 = some h.length ∧
      readV (composeHessianH bs xi h).2 h.length =
        (composeDiagPart bs).foldl (fun c bar => List.zipWith (· + ·) c
          ((bar.hessian EPSR (readV h xi)).getDiag)) ((readV h xi).map (fun _ => 0)) := by
  simp only [composeHessianH, hde, Bool.false_eq_true, hcd, reduceIte]
  refine ⟨trivial, ?_⟩
  exact composeHessDiagLoopH_result xi h hx (composeDiagPart bs)
    (h ++ [TVal.v ((readV h xi).map (fun _ => 0))]) ((readV h xi).map (fun _ => 0))
    (by rw [take_pres_append _ (le_refl _), List.take_length])
    (by simp)
    (readV_last_v h _)

/-- C10 determinism for `ComposeBarrier.hessian` on the all-diagonal
executions. -/
lemma composeHessianH_diag_deterministic (bs : List (CBarrier ℝ)) (xi : ℕ) (h : Heap)
    (hx : xi < h.length) (hde : (composeDiagPart bs).isEmpty = false)
    (hcd : composeDiagHess bs = true) :
    readV (composeHessianH bs xi (composeHessianH bs xi h).2).2
        ((composeHessianH bs xi (composeHessianH bs xi h).2).1.getD 0) =
      readV (composeHessianH bs xi h).2 ((composeHessianH bs xi h).1.getD 0) := by
  have hf := composeHessianH_frame bs xi h
  obtain ⟨r1, v1⟩ := composeHessianH_diag_result bs xi h hx hde hcd
  obtain ⟨r2, v2⟩ := composeHessianH_diag_result bs xi ((composeHessianH bs xi h).2)
    (lt_of_lt_of_le hx (frame_length_le hf)) hde hcd
  rw [r1, r2]
  simp only [Option.getD_some]
  rw [v1, v2, readV_of_frame hf hx]

/-- The value the full accumulator loop of `ComposeBarrier.hessian` leaves
in its accumulator tensor (at the fixed id `e`, which every ordinary read
and write of the loop leaves alone). -/
lemma composeHessFullLoopH_result (xi e : ℕ) (h : Heap) (hx : xi < h.length)
    (he : h.length ≤ e) :
    ∀ (fs : List (CBarrier ℝ)) (hh : Heap) (acc : List (List ℝ)),
      hh.take h.length = h → e < hh.length → readM hh e = acc →
      readM (fs.foldl (fun hh bar =>
          (hh ++ [TVal.m ((bar.hessian EPSR (readV hh xi)).getFull)]).set e
            (TVal.m (matAdd
              (readM (hh ++ [TVal.m ((bar.hessian EPSR (readV hh xi)).getFull)]) e)
              (readM (hh ++ [TVal.m ((bar.hessian EPSR (readV hh xi)).getFull)])
                hh.length)))) hh)
        e =
      fs.foldl (fun M bar => matAdd M ((bar.hessian EPSR (readV h xi)).getFull)) acc := by
  intro fs
  induction fs with
  | nil =>
    intro hh acc _ _ hacc
    simpa using hacc
  | cons bar t ih =>
    intro hh acc htake helt hacc
    simp only [List.foldl_cons]
    have hrxi : readV hh xi = readV h xi := readV_of_frame htake hx
    apply ih
    · rw [take_pres_set _ he, take_pres_append _ (frame_length_le htake)]
      exact htake
    · simp [List.length_set]
      omega
    · rw [readM_set_self_m _ _ _ (by simp; omega), readM_append_lt _ _ _ helt, hacc,
        readM_last_m, hrxi]

/-- On the mixed executions (some diagonal and some full constituents),
`ComposeBarrier.hessian` returns the full accumulator: its value as a
function of the input read. -/
lemma composeHessianH_full_result (bs : List (CBarrier ℝ)) (xi : ℕ) (h : Heap)
    (hx : xi < h.length) (hde : (composeDiagPart bs).isEmpty = false)
    (hcd : composeDiagHess bs = false) :
    readM (composeHessianH bs xi h).2 ((composeHessianH bs xi h).1.getD 0) =
      (composeFullPart bs).foldl (fun M bar => matAdd M
          ((bar.hessian EPSR (readV h xi)).getFull))
        (diagEmbed ((composeDiagPart bs).foldl (fun c bar => List.zipWith (· + ·) c
          ((bar.hessian EPSR (readV h xi)).getDiag)) ((readV h xi).map (fun _ => 0)))) := by
  simp only [composeHessianH, hde, hcd, Bool.false_eq_true, reduceIte]
  set h2 : Heap := (composeDiagPart bs).foldl (fun hh bar =>
      (hh ++ [TVal.v ((bar.hessian EPSR (readV hh xi)).getDiag)]).set h.length
        (TVal.v (List.zipWith (· + ·)
          (readV (hh ++ [TVal.v ((bar.hessian EPSR (readV hh xi)).getDiag)]) h.length)
          (readV (hh ++ [TVal.v ((bar.hessian EPSR (readV hh xi)).getDiag)])
            hh.length)))) (h ++ [TVal.v ((readV h xi).map (fun _ => 0))]) with hh2
  have hloop1 := foldl_frame_n h.length
    (fun hh bar =>
      (hh ++ [TVal.v ((bar.hessian EPSR (readV hh xi)).getDiag)]).set h.length
        (TVal.v (List.zipWith (· + ·)
          (readV (hh ++ [TVal.v ((bar.hessian EPSR (readV hh xi)).getDiag)]) h.length)
          (readV (hh ++ [TVal.v ((bar.hessian EPSR (readV hh xi)).getDiag)]) hh.length))))
    (fun hh bar hn => by
      constructor
      · rw [take_pres_set _ (le_refl _), take_pres_append _ hn]
      · simp [List.length_set]; omega)
    (composeDiagPart bs) (h ++ [TVal.v ((readV h xi).map (fun _ => 0))]) (by simp)
  have h2take : h2.take h.length = h := by
    rw [hh2, hloop1.1, take_pres_append _ (le_refl _), List.take_length]
  have h2len : h.length ≤ h2.length := by rw [hh2]; exact hloop1.2
  have hdiag : readV h2 h.length = (composeDiagPart bs).foldl
      (fun c bar => List.zipWith (· + ·) c ((bar.hessian EPSR (readV h xi)).getDiag))
      ((readV h xi).map (fun _ => 0)) := by
    rw [hh2]
    exact composeHessDiagLoopH_result xi h hx (composeDiagPart bs)
      (h ++ [TVal.v ((readV h xi).map (fun _ => 0))]) ((readV h xi).map (fun _ => 0))
      (by rw [take_pres_append _ (le_refl _), List.take_length])
      (by simp)
      (readV_last_v h _)
  rw [Option.getD_some]
  refine (composeHessFullLoopH_result xi h2.length h hx h2len (composeFullPart bs)
    (h2 ++ [TVal.m (diagEmbed (readV h2 h.length))]) (diagEmbed (readV h2 h.length))
    ?_ (by simp) (readM_last_m h2 _)).trans ?_
  · rw [take_pres_append _ h2len]
    exact h2take
  · rw [hdiag]

/-- C10 determinism for `ComposeBarrier.hessian` on the mixed executions. -/
lemma composeHessianH_full_deterministic (bs : List (CBarrier ℝ)) (xi : ℕ) (h : Heap)
    (hx : xi < h.length) (hde : (composeDiagPart bs).isEmpty = false)
    (hcd : composeDiagHess bs = false) :
    readM (composeHessianH bs xi (composeHessianH bs xi h).2).2
        ((composeHessianH bs xi (composeHessianH bs xi h).2).1.getD 0) =
      readM (composeHessianH bs xi h).2 ((composeHessianH bs xi h).1.getD 0) := by
  have hf := composeHessianH_frame bs xi h
  rw [composeHessianH_full_result bs xi ((composeHessianH bs xi h).2)
      (lt_of_lt_of_le hx (frame_length_le hf)) hde hcd,
    composeHessianH_full_result bs xi h hx hde hcd, readV_of_frame hf hx]

/-- The initial `c_upper` value of the heap bisection (see
`simplexInvGradPre`: the reciprocal of the max, `clamp_max_(1)`, negative
values overwritten with 1). -/
noncomputable def simplexCUpperR (y : List ℝ) : ℝ :=
  if min (tmax y)⁻¹ 1 < 0 then 1 else min (tmax y)⁻¹ 1

lemma ite_encB_ne (c : Prop) [Decidable c] (A B : List ℝ) :
    (if encB (decide c) ≠ 0 then A else B) = if c then A else B := by
  by_cases hc : c <;> simp [encB, hc]

lemma ite_encB_eq (c : Prop) [Decidable c] (A B : List ℝ) :
    (if encB (decide c) = 0 then A else B) = if c then B else A := by
  by_cases hc : c <;> simp [encB, hc]

/-- One heap bisection iteration refines one pure bisection step: the
caller frame is kept, and the bracket tensors `c_lower` (id `b`) and
`c_upper` (id `b+1`) hold exactly the stepped pure bracket. -/
lemma simplexBisectStepH_result (yi : ℕ) (h : Heap) (hyi : yi < h.length)
    (hh : Heap) (lo hi : ℝ) (htake : hh.take h.length = h)
    (hlen : h.length + 2 ≤ hh.length) (hlo : readV hh h.length = [lo])
    (hhi : readV hh (h.length + 1) = [hi]) :
    (simplexBisectStepH yi h.length hh).take h.length = h ∧
      h.length + 2 ≤ (simplexBisectStepH yi h.length hh).length ∧
      readV (simplexBisectStepH yi h.length hh) h.length =
        [(simplexBisectStep (readV h yi) (lo, hi)).1] ∧
      readV (simplexBisectStepH yi h.length hh) (h.length + 1) =
        [(simplexBisectStep (readV h yi) (lo, hi)).2] := by
  have hstep := simplexBisectStepH_frame yi h.length hh (by omega)
  set hh1 : Heap := hh ++ [TVal.v [(1 / 2 : ℝ) * ((readV hh h.length).headD 0 +
    (readV hh (h.length + 1)).headD 0)]] with e1
  set hh2 : Heap := hh1 ++ [TVal.v [simplexF (readV hh1 yi)
    ((readV hh1 hh.length).headD 0)]] with e2
  set hh3 : Heap := hh2 ++ [TVal.v [encB (decide
    (0 < (readV hh2 (hh.length + 1)).headD 0))]] with e3
  set hh4 : Heap := hh3.set (h.length + 1) (TVal.v
    (if (readV hh3 (hh.length + 2)).headD 0 ≠ 0 then [(readV hh3 hh.length).headD 0]
      else readV hh3 (h.length + 1))) with e4
  have hstepeq : simplexBisectStepH yi h.length hh = hh4.set h.length (TVal.v
      (if (readV hh4 (hh.length + 2)).headD 0 = 0 then [(readV hh4 hh.length).headD 0]
        else readV hh4 h.length)) := rfl
  have ll1 : hh1.length = hh.length + 1 := by simp [e1]
  have ll2 : hh2.length = hh.length + 2 := by simp [e2, ll1]
  have ll3 : hh3.length = hh.length + 3 := by simp [e3, ll2]
  have ll4 : hh4.length = hh.length + 3 := by simp [e4, ll3]
  have hmid : (1 / 2 : ℝ) * ((readV hh h.length).headD 0 +
      (readV hh (h.length + 1)).headD 0) = (lo + hi) / 2 := by
    rw [hlo, hhi]
    simp only [List.headD_cons]
    ring
  have r1m : readV hh1 hh.length = [(lo + hi) / 2] := by
    rw [e1, hmid]
    exact readV_last_v hh _
  have r1y : readV hh1 yi = readV h yi := by
    rw [e1, readV_append_lt _ _ _ (by omega)]
    exact readV_of_frame htake hyi
  have r2f : readV hh2 (hh.length + 1) = [simplexF (readV h yi) ((lo + hi) / 2)] := by
    rw [e2, readV_append_idx _ _ (by omega), r1y, r1m]
    rfl
  have r2m : readV hh2 hh.length = [(lo + hi) / 2] := by
    rw [e2, readV_append_lt _ _ _ (by omega), r1m]
  have r3mask : readV hh3 (hh.length + 2) =
      [encB (decide (0 < simplexF (readV h yi) ((lo + hi) / 2)))] := by
    rw [e3, readV_append_idx _ _ (by omega), r2f]
    rfl
  have r3m : readV hh3 hh.length = [(lo + hi) / 2] := by
    rw [e3, readV_append_lt _ _ _ (by omega), r2m]
  have r3hi : readV hh3 (h.length + 1) = [hi] := by
    rw [e3, readV_append_lt _ _ _ (by omega), e2, readV_append_lt _ _ _ (by omega),
      e1, readV_append_lt _ _ _ (by omega), hhi]
  have r3lo : readV hh3 h.length = [lo] := by
    rw [e3, readV_append_lt _ _ _ (by omega), e2, readV_append_lt _ _ _ (by omega),
      e1, readV_append_lt _ _ _ (by omega), hlo]
  have r4mask : readV hh4 (hh.length + 2) =
      [encB (decide (0 < simplexF (readV h yi) ((lo + hi) / 2)))] := by
    rw [e4, readV_set_ne (i := hh.length + 2) (j := h.length + 1) _ _ (by omega), r3mask]
  have r4m : readV hh4 hh.length = [(lo + hi) / 2] := by
    rw [e4, readV_set_ne (i := hh.length) (j := h.length + 1) _ _ (by omega), r3m]
  have r4lo : readV hh4 h.length = [lo] := by
    rw [e4, readV_set_ne (i := h.length) (j := h.length + 1) _ _ (by omega), r3lo]
  have r4hi : readV hh4 (h.length + 1) =
      if 0 < simplexF (readV h yi) ((lo + hi) / 2) then [(lo + hi) / 2] else [hi] := by
    rw [e4, readV_set_self_v _ _ _ (by omega), r3mask, r3m, r3hi]
    simp only [List.headD_cons]
    exact ite_encB_ne _ _ _
  have llstep : (simplexBisectStepH yi h.length hh).length = hh.length + 3 := by
    rw [hstepeq]
    simp [List.length_set, ll4]
  refine ⟨hstep.1.trans htake, by omega, ?_, ?_⟩
  · rw [hstepeq, readV_set_self_v _ _ _ (by omega), r4mask, r4m, r4lo]
    simp only [List.headD_cons]
    rw [ite_encB_eq]
    by_cases hc : 0 < simplexF (readV h yi) ((lo + hi) / 2) <;>
      simp [simplexBisectStep, hc]
  · rw [hstepeq, readV_set_ne (i := h.length + 1) (j := h.length) _ _ (by omega), r4hi]
    by_cases hc : 0 < simplexF (readV h yi) ((lo + hi) / 2) <;>
      simp [simplexBisectStep, hc]

/-- `k` heap bisection iterations refine `k` pure bisection steps. -/
lemma simplexBisectLoopH_result (yi : ℕ) (h : Heap) (hyi : yi < h.length)
    (hh : Heap) (lo hi : ℝ) (htake : hh.take h.length = h)
    (hlen : h.length + 2 ≤ hh.length) (hlo : readV hh h.length = [lo])
    (hhi : readV hh (h.length + 1) = [hi]) :
    ∀ k : ℕ,
      ((List.range k).foldl (fun hh2 _ => simplexBisectStepH yi h.length hh2) hh).take
          h.length = h ∧
        h.length + 2 ≤ ((List.range k).foldl
          (fun hh2 _ => simplexBisectStepH yi h.length hh2) hh).length ∧
        readV ((List.range k).foldl (fun hh2 _ => simplexBisectStepH yi h.length hh2) hh)
            h.length = [((simplexBisectStep (readV h yi))^[k] (lo, hi)).1] ∧
        readV ((List.range k).foldl (fun hh2 _ => simplexBisectStepH yi h.length hh2) hh)
            (h.length + 1) = [((simplexBisectStep (readV h yi))^[k] (lo, hi)).2] := by
  intro k
  induction k with
  | zero => simpa using ⟨htake, hlen, hlo, hhi⟩
  | succ k ih =>
    obtain ⟨ih1, ih2, ih3, ih4⟩ := ih
    rw [List.range_succ, List.foldl_append, List.foldl_cons, List.foldl_nil]
    have hres := simplexBisectStepH_result yi h hyi _ _ _ ih1 ih2 ih3 ih4
    refine ⟨hres.1, hres.2.1, ?_, ?_⟩
    · rw [Function.iterate_succ_apply']
      exact hres.2.2.1
    · rw [Function.iterate_succ_apply']
      exact hres.2.2.2

/-- The pre-loop heap of `SimplexBarrier.inverse_gradient` holds
`c_lower = 0` and `c_upper = simplexCUpperR` over the kept frame. -/
lemma simplexInvGradPre_result (yi : ℕ) (h : Heap) (hyi : yi < h.length) :
    (simplexInvGradPre yi h).take h.length = h ∧
      h.length + 2 ≤ (simplexInvGradPre yi h).length ∧
      readV (simplexInvGradPre yi h) h.length = [0] ∧
      readV (simplexInvGradPre yi h) (h.length + 1) = [simplexCUpperR (readV h yi)] := by
  refine ⟨(simplexInvGradPre_take yi h).1, ?_, ?_, ?_⟩
  · have : (simplexInvGradPre yi h).length = h.length + 2 := by
      simp [simplexInvGradPre, List.length_set]
    omega
  · simp only [simplexInvGradPre]
    rw [readV_set_ne (i := h.length) (j := h.length + 1) _ _ (by omega),
      readV_set_ne (i := h.length) (j := h.length + 1) _ _ (by omega),
      readV_append_lt _ _ _ (by simp), readV_last_v]
  · simp only [simplexInvGradPre]
    set h1 : Heap := h ++ [TVal.v [(0 : ℝ)]] with eh1
    set h2 : Heap := h1 ++ [TVal.v [(tmax (readV h1 yi))⁻¹]] with eh2
    have ll1 : h1.length = h.length + 1 := by simp [eh1]
    have ll2 : h2.length = h.length + 2 := by simp [eh2, ll1]
    have r1y : readV h1 yi = readV h yi := by
      rw [eh1]; exact readV_append_lt _ _ _ hyi
    have r2 : readV h2 (h.length + 1) = [(tmax (readV h yi))⁻¹] := by
      rw [eh2, readV_append_idx _ _ (by omega), r1y]
    have r3 : readV (h2.set (h.length + 1) (TVal.v ((readV h2 (h.length + 1)).map
        (fun q => min q 1)))) (h.length + 1) = [min (tmax (readV h yi))⁻¹ 1] := by
      rw [readV_set_self_v _ _ _ (by omega), r2]
      rfl
    rw [readV_set_self_v _ _ _ (by simp [List.length_set]; omega), r3]
    simp only [List.map_cons, List.map_nil, List.headD_cons, simplexCUpperR]

/-- The value `SimplexBarrier.inverse_gradient` leaves in its result
tensor: the clamped quotient at the 35-times-bisected upper bracket, a
function of the input read alone. -/
lemma simplexInverseGradientH_result (yi : ℕ) (h : Heap) (hyi : yi < h.length) :
    readV (simplexInverseGradientH yi h).2 (simplexInverseGradientH yi h).1 =
      (readV h yi).map (fun yv =>
        max ((((simplexBisectStep (readV h yi))^[35]
              (0, simplexCUpperR (readV h yi))).2) /
            (1 - (((simplexBisectStep (readV h yi))^[35]
              (0, simplexCUpperR (readV h yi))).2) * yv))
          EPSR) := by
  simp only [simplexInverseGradientH]
  obtain ⟨p1, p2, p3, p4⟩ := simplexInvGradPre_result yi h hyi
  obtain ⟨l1, l2, l3, l4⟩ := simplexBisectLoopH_result yi h hyi (simplexInvGradPre yi h)
    0 (simplexCUpperR (readV h yi)) p1 p2 p3 p4 35
  set h5 : Heap := (List.range 35).foldl (fun hh2 _ => simplexBisectStepH yi h.length hh2)
    (simplexInvGradPre yi h) with e5
  set h6 : Heap := h5.set (h.length + 1) (TVal.v (readV h5 (h.length + 1))) with e6
  have r6y : readV h6 yi = readV h yi := by
    rw [e6, readV_set_ne (i := yi) (j := h.length + 1) _ _ (by omega)]
    exact readV_of_frame l1 hyi
  have r6cu : readV h6 (h.length + 1) =
      [((simplexBisectStep (readV h yi))^[35] (0, simplexCUpperR (readV h yi))).2] := by
    rw [e6, readV_set_self_v _ _ _ (by omega)]
    exact l4
  rw [readV_last_v, r6y, r6cu]
  simp only [List.headD_cons]

/-- C10 determinism for `SimplexBarrier.inverse_gradient`. -/
lemma simplexInverseGradientH_deterministic (yi : ℕ) (h : Heap) (hyi : yi < h.length) :
    readV (simplexInverseGradientH yi (simplexInverseGradientH yi h).2).2
        (simplexInverseGradientH yi (simplexInverseGradientH yi h).2).1 =
      readV (simplexInverseGradientH yi h).2 (simplexInverseGradientH yi h).1 := by
  have hf := simplexInverseGradientH_frame yi h
  rw [simplexInverseGradientH_result yi _ (lt_of_lt_of_le hyi (frame_length_le hf)),
    simplexInverseGradientH_result yi h hyi, readV_of_frame hf hyi]

end HeapModel

/-- C3: `ComposeBarrier.hessian` over a single non-diagonal constituent (an
ellipsoid; zero diagonal-Hessian constituents) hits the unassigned local
accumulator — the source raises `UnboundLocalError` instead of returning the
sum — while a diagonal/non-diagonal mix returns the embedded-diagonal-plus-
full sum as intended (here `box + ellipsoid` in dimension 1 at `x = [0]`:
`diag_embed([2]) + [[2]] = [[4]]`). -/
theorem compose_hessian_crash_on_all_full :
    composeHessian EPS [CBarrier.ellipsoid [[1]] [1]] [(0 : ℚ)] = none ∧
      composeHessian EPS [CBarrier.box [1], CBarrier.ellipsoid [[1]] [1]] [(0 : ℚ)] =
        some (.full [[4]]) := by
  constructor
  · simp [composeHessian, composeDiagPart, composeFullPart, composeDiagHess, CBarrier.diagHess]
  · norm_num [composeHessian, composeDiagPart, composeFullPart, composeDiagHess,
      CBarrier.diagHess, CBarrier.hessian, boxHessian, ellipsoidHessian, ellipsoidInnerProduct,
      ellipsoidMap, ellipsoidUTx, matvec, transposeSq, scaleCols, matmulSq, outerL, matAdd,
      diagEmbed, dotL, EPS, HessResult.getDiag, HessResult.getFull, List.range_succ,
      List.range_zero, Function.comp, List.getD]

/-- C4: the claim "scaling any feasible point by `(bounds+1)/bounds` makes
it infeasible" fails at the origin: for `BoxBarrier(bounds=[1])`, `x = [0]`
lies in the closed box, its scaled image is again `[0]`, and feasibility of
the scaled point is still `true`. -/
theorem box_scaled_feasible_counterexample :
    boxFeasibility [(1 : ℚ)] [(0 : ℚ)] = true ∧
      boxScaled [(1 : ℚ)] [(0 : ℚ)] = [0] ∧
      boxFeasibility [(1 : ℚ)] (boxScaled [(1 : ℚ)] [(0 : ℚ)]) = true := by
  refine ⟨by norm_num [boxFeasibility], by norm_num [boxScaled], by norm_num [boxFeasibility, boxScaled]⟩

/-- C4 (amended): every point of the closed box `[-a, a]^d` is feasible, and
the point scaled elementwise by `(bounds+1)/bounds` is infeasible exactly
when some coordinate satisfies `|x_i| * (a_i + 1) > a_i ^ 2` — in particular
boundary points such as `±bounds` scale to infeasible points, but interior
points near the origin stay feasible. -/
theorem box_feasibility_scaling (bounds x : List ℚ)
    (hlen : bounds.length = x.length) (hpos : ∀ a ∈ bounds, 0 < a) :
    ((∀ i < x.length, |x.getD i 0| ≤ bounds.getD i 0) → boxFeasibility bounds x = true) ∧
      (boxFeasibility bounds (boxScaled bounds x) = false ↔
        ∃ i < x.length, (bounds.getD i 0) ^ 2 < |x.getD i 0| * (bounds.getD i 0 + 1)) := by
  have hslen : (boxScaled bounds x).length = x.length := by
    simp [boxScaled, hlen]
  constructor
  · intro hall
    exact (boxFeasibility_iff bounds x hlen).mpr hall
  · rw [show (boxFeasibility bounds (boxScaled bounds x) = false) =
      ¬ (boxFeasibility bounds (boxScaled bounds x) = true) by simp]
    rw [boxFeasibility_iff bounds (boxScaled bounds x) (hlen.trans hslen.symm)]
    rw [hslen]
    push_neg
    have key : ∀ a xi : ℚ, 0 < a → (a < |xi * ((a + 1) / a)| ↔ a ^ 2 < |xi| * (a + 1)) := by
      intro a xi ha
      rw [abs_mul, abs_of_pos (div_pos (by linarith) ha), mul_div_assoc', lt_div_iff ha]
      constructor <;> intro h <;> nlinarith
    constructor
    · rintro ⟨i, hi, hgt⟩
      refine ⟨i, hi, ?_⟩
      have hb : (0 : ℚ) < bounds.getD i 0 := hpos _ (getD_mem _ _ _ (hlen ▸ hi))
      simp only [boxScaled] at hgt
      rw [getD_zipWith_eq _ 0 0 0 bounds x i (hlen ▸ hi) hi] at hgt
      exact (key _ _ hb).mp hgt
    · rintro ⟨i, hi, hgt⟩
      refine ⟨i, hi, ?_⟩
      have hb : (0 : ℚ) < bounds.getD i 0 := hpos _ (getD_mem _ _ _ (hlen ▸ hi))
      simp only [boxScaled]
      rw [getD_zipWith_eq _ 0 0 0 bounds x i (hlen ▸ hi) hi]
      exact (key _ _ hb).mpr hgt

/-- Witness for the amended C4 at `bounds = [2]`, `x = [2]` (a boundary
point): the hypotheses hold, the point is feasible, and its scaled image is
infeasible (`2 * (2+1) = 6 > 4 = 2^2`). -/
theorem box_feasibility_scaling_witness :
    ([(2 : ℚ)].length = [(2 : ℚ)].length ∧ ∀ a ∈ [(2 : ℚ)], 0 < a) ∧
      boxFeasibility [(2 : ℚ)] (boxScaled [(2 : ℚ)] [(2 : ℚ)]) = false := by
  refine ⟨⟨rfl, by norm_num⟩, ?_⟩
  exact (box_feasibility_scaling [(2 : ℚ)] [(2 : ℚ)] rfl (by norm_num)).2.mpr
    ⟨0, by norm_num⟩

/-- C9: the `diag_hess` flag of every variant matches its constructor
(`Box` true; `Ellipsoid`, `Simplex` false; `Polytope` true exactly for the
diagonal-vector form of `A`), `ComposeBarrier` derives its flag as the
conjunction of its constituents' flags, and under well-formed construction
parameters every `hessian()` result has the shape the flag declares:
a length-`d` vector when true, a `d × d` matrix when false (for the
composition, on every execution that returns at all). -/
theorem diag_hess_flag_consistent :
    ((∀ bounds : List ℚ, (CBarrier.box bounds).diagHess = true) ∧
      (∀ (rot : List (List ℚ)) (eigvals : List ℚ),
        (CBarrier.ellipsoid rot eigvals).diagHess = false) ∧
      (∀ d : ℕ, (CBarrier.simplex (K := ℚ) d).diagHess = false) ∧
      (∀ (A : List (List ℚ)) (b : List ℚ) (w : Option (List ℚ)),
        (CBarrier.polytopeFull A b w).diagHess = false) ∧
      (∀ (A b : List ℚ) (w : Option (List ℚ)), (CBarrier.polytopeDiag A b w).diagHess = true) ∧
      (∀ bs : List (CBarrier ℚ), composeDiagHess bs = bs.all (fun b => b.diagHess))) ∧
      (∀ (eps : ℚ) (b : CBarrier ℚ) (x : List ℚ), b.wf x →
        resultMatches x.length b.diagHess (b.hessian eps x)) ∧
      (∀ (eps : ℚ) (bs : List (CBarrier ℚ)) (x : List ℚ), (∀ b ∈ bs, b.wf x) →
        ∀ r : HessResult ℚ, composeHessian eps bs x = some r →
          resultMatches x.length (composeDiagHess bs) r) :=
  ⟨⟨fun _ => rfl, fun _ _ => rfl, fun _ => rfl, fun _ _ _ => rfl, fun _ _ _ => rfl,
    composeDiagHess_eq_all⟩,
    cbarrier_shape, composeHessian_shape⟩

/-- Witness for C9's shape clause at the concrete barrier
`BoxBarrier(bounds=[1])` and `x = [0]`. -/
theorem diag_hess_flag_consistent_witness :
    (CBarrier.box [(1 : ℚ)]).wf [(0 : ℚ)] ∧
      resultMatches ([(0 : ℚ)].length) (CBarrier.box [(1 : ℚ)]).diagHess
        ((CBarrier.box [(1 : ℚ)]).hessian EPS [(0 : ℚ)]) :=
  ⟨rfl, diag_hess_flag_consistent.2.1 EPS (CBarrier.box [1]) [0] rfl⟩

/-- C5: for every ellipsoid and every point with `<x, Mx> >= 1` (on or
outside the boundary), `value` returns exactly `0`: the masked assignment
zeroes the inner product before `-log1p`, silently zeroing the contribution
of infeasible points instead of signaling infeasibility. -/
theorem ellipsoid_value_zero_outside (rot : List (List ℚ)) (eigvals x : List ℚ)
    (h : 1 ≤ ellipsoidInnerProduct rot eigvals x) :
    ellipsoidValue rot eigvals x = 0 := by
  unfold ellipsoidValue ellipsoidClampedIP
  rw [if_pos h]
  norm_num

/-- Witness for C5 with the unit ball in dimension 1 and the exterior point
`x = [2]` (`<x, Mx> = 4 ≥ 1`). -/
theorem ellipsoid_value_zero_outside_witness :
    1 ≤ ellipsoidInnerProduct [[(1 : ℚ)]] [1] [2] ∧ ellipsoidValue [[(1 : ℚ)]] [1] [2] = 0 := by
  have h : 1 ≤ ellipsoidInnerProduct [[(1 : ℚ)]] [1] [2] := by
    norm_num [ellipsoidInnerProduct, ellipsoidUTx, matvec, transposeSq, dotL,
      List.range_succ, List.range_zero, List.getD]
  exact ⟨h, ellipsoid_value_zero_outside _ _ _ h⟩

/-- C6: the source translation of `SimplexBarrier.inverse_gradient` (35
bisection iterations of `f(c) = c + c·Σ 1/(1−c·yᵢ) − 1` on the bracket
`[0, c_upper]` with the reciprocal/clamp/negative-mask initialisation of
`c_upper` and the `1e-08` floor on `c/(1−c·y)`) coincides with the
bisection exactly as the spec words it. -/
theorem simplex_inverse_gradient_matches_spec (eps : ℚ) (y : List ℚ) :
    simplexInverseGradient eps y = specSimplexInverseGradient eps y := by
  have hcu : (if tmax y ≤ 0 then (1 : ℚ) else min 1 (tmax y)⁻¹) = simplexCUpper y := by
    rcases lt_trichotomy (tmax y) 0 with h | h | h
    · rw [if_pos (le_of_lt h), simplexCUpper, if_neg (ne_of_lt h), if_pos]
      exact lt_of_le_of_lt (min_le_left _ _) (inv_lt_zero.mpr h)
    · rw [if_pos (le_of_eq h), simplexCUpper, if_pos h]
    · rw [if_neg (not_le.mpr h), simplexCUpper, if_neg (ne_of_gt h), if_neg, min_comm]
      push_neg
      exact le_min (inv_nonneg.mpr (le_of_lt h)) zero_le_one
  have hstep : (fun p : ℚ × ℚ =>
      if 0 < (p.1 + p.2) / 2 +
          (p.1 + p.2) / 2 * (y.map (fun yi => (1 - (p.1 + p.2) / 2 * yi)⁻¹)).sum - 1
        then (p.1, (p.1 + p.2) / 2) else ((p.1 + p.2) / 2, p.2)) = simplexBisectStep y := by
    funext p
    simp only [simplexBisectStep, simplexF, one_div]
  have hrec : ∀ (g : ℚ × ℚ → ℚ × ℚ) (a : ℚ × ℚ) (n : ℕ),
      Nat.rec (motive := fun _ => ℚ × ℚ) a (fun _ p => g p) n = g^[n] a := by
    intro g a n
    induction n with
    | zero => simp
    | succ n ih =>
      show g (Nat.rec (motive := fun _ => ℚ × ℚ) a (fun _ p => g p) n) = g^[n + 1] a
      rw [ih, Function.iterate_succ_apply']
  simp only [simplexInverseGradient, specSimplexInverseGradient, simplexBisect, hcu, hstep, hrec]

/-- C7: per coordinate, `BoxBarrier.inverse_gradient` returns the closed
form `(-1 + sqrt(1 + a_i^2 y_i^2)) / y_i`, except that coordinates where
`y_i` is within the `isclose(y, 0, atol=1e-07, rtol=1e-05)` tolerance of
zero (i.e. `|y_i| <= 1e-07`) return exactly `0`. -/
theorem box_inverse_gradient_formula (bounds y : List ℚ)
    (hlen : bounds.length = y.length) (i : ℕ) (hi : i < y.length) :
    (|y.getD i 0| ≤ ATOLZ → (boxInverseGradient bounds y).getD i 0 = 0) ∧
      (ATOLZ < |y.getD i 0| →
        (boxInverseGradient bounds y).getD i 0 =
          (-1 + Real.sqrt (1 + ((bounds.getD i 0 : ℝ) * (y.getD i 0 : ℝ)) ^ 2)) /
            (y.getD i 0 : ℝ)) := by
  have hraw : (boxInverseGradientRaw bounds y).length = y.length := by
    rw [boxInverseGradientRaw, List.length_zipWith, hlen, min_self]
  have hout : (boxInverseGradient bounds y).getD i 0 =
      (if |y.getD i 0| ≤ ATOLZ then (0 : ℝ) else (boxInverseGradientRaw bounds y).getD i 0) := by
    exact getD_zipWith_eq _ 0 0 0 y (boxInverseGradientRaw bounds y) i hi (hraw ▸ hi)
  constructor
  · intro hsmall
    rw [hout, if_pos hsmall]
  · intro hbig
    rw [hout, if_neg (not_le.mpr hbig), boxInverseGradientRaw]
    exact getD_zipWith_eq _ 0 0 0 bounds y i (hlen ▸ hi) hi

/-- Witness for C7 at `bounds = [1]`, `y = [1]` (a coordinate outside the
zero tolerance, hitting the closed-form branch). -/
theorem box_inverse_gradient_formula_witness :
    (([(1 : ℚ)] : List ℚ).length = ([(1 : ℚ)] : List ℚ).length ∧
        0 < ([(1 : ℚ)] : List ℚ).length ∧ ATOLZ < |([(1 : ℚ)] : List ℚ).getD 0 0|) ∧
      (boxInverseGradient [(1 : ℚ)] [(1 : ℚ)]).getD 0 0 =
        (-1 + Real.sqrt (1 + ((([(1 : ℚ)] : List ℚ).getD 0 0 : ℝ) *
          (([(1 : ℚ)] : List ℚ).getD 0 0 : ℝ)) ^ 2)) / (([(1 : ℚ)] : List ℚ).getD 0 0 : ℝ) := by
  have hb : ATOLZ < |([(1 : ℚ)] : List ℚ).getD 0 0| := by norm_num [ATOLZ]
  exact ⟨⟨rfl, by norm_num, hb⟩,
    (box_inverse_gradient_formula [1] [1] rfl 0 (by norm_num)).2 hb⟩

/-- C8: `PolytopeBarrier.inverse_gradient` fails with the
unsupported-operation error for every input (either form of `A`, any
weights), returning the construction parameters untouched; `ComposeBarrier`
does not override `inverse_gradient` or `boundary_to_interior_half`, so both
inherit the base contract's `NotImplementedError` for every input, with the
constituent list untouched. -/
theorem unsupported_operations_error :
    (∀ (A : List (List ℚ) ⊕ List ℚ) (b : List ℚ) (w : Option (List ℚ)) (y : List ℚ),
        polytopeInverseGradient A b w y = (.error .notImplemented, A, b, w)) ∧
      (∀ (bs : List (CBarrier ℚ)) (y : List ℚ),
        composeInverseGradient bs y = (.error .notImplemented, bs)) ∧
      (∀ (bs : List (CBarrier ℚ)) (x : List ℚ),
        composeBoundaryToInteriorHalf bs x = (.error .notImplemented, bs)) :=
  ⟨fun _ _ _ _ => rfl, fun _ _ => rfl, fun _ _ => rfl⟩

/-- C10: every barrier operation, run over the explicit tensor heap, leaves
every pre-existing tensor — the barrier's construction parameters and the
caller's input batch — unchanged (`take h.length = h`: the initial heap
segment survives intact), despite the in-place tensor idioms the bodies
use; and every operation is deterministic: a second call on the heap
returned by a first call produces the same result value (for the
error-raising operations, the identical error with the heap untouched; for
`ComposeBarrier.hessian`, on each of its three execution shapes — crash,
all-diagonal, mixed), so calls are pure functions of the barrier
parameters and the input. -/
theorem barrier_operations_pure :
    ((∀ (bi xi : ℕ) (h : Heap), ((boxFeasibilityH bi xi h).2).take h.length = h) ∧
      (∀ (bi xi : ℕ) (h : Heap), ((boxValueH bi xi h).2).take h.length = h) ∧
      (∀ (bi xi : ℕ) (h : Heap), ((boxGradientH bi xi h).2).take h.length = h) ∧
      (∀ (bi yi : ℕ) (h : Heap), ((boxInverseGradientH bi yi h).2).take h.length = h) ∧
      (∀ (bi xi : ℕ) (h : Heap), ((boxHessianH bi xi h).2).take h.length = h) ∧
      (∀ (bi xi : ℕ) (h : Heap), ((boxBoundaryH bi xi h).2).take h.length = h)) ∧
    ((∀ (ri ei xi : ℕ) (h : Heap), ((ellipsoidFeasibilityH ri ei xi h).2).take h.length = h) ∧
      (∀ (ri ei xi : ℕ) (h : Heap), ((ellipsoidValueH ri ei xi h).2).take h.length = h) ∧
      (∀ (ri ei xi : ℕ) (h : Heap), ((ellipsoidGradientH ri ei xi h).2).take h.length = h) ∧
      (∀ (ri ei yi : ℕ) (h : Heap),
        ((ellipsoidInverseGradientH ri ei yi h).2).take h.length = h) ∧
      (∀ (ri ei xi : ℕ) (h : Heap), ((ellipsoidHessianH ri ei xi h).2).take h.length = h) ∧
      (∀ (ri ei xi : ℕ) (h : Heap), ((ellipsoidBoundaryH ri ei xi h).2).take h.length = h)) ∧
    ((∀ (xi : ℕ) (h : Heap), ((simplexFeasibilityH xi h).2).take h.length = h) ∧
      (∀ (xi : ℕ) (h : Heap), ((simplexValueH xi h).2).take h.length = h) ∧
      (∀ (xi : ℕ) (h : Heap), ((simplexGradientH xi h).2).take h.length = h) ∧
      (∀ (yi : ℕ) (h : Heap), ((simplexInverseGradientH yi h).2).take h.length = h) ∧
      (∀ (xi : ℕ) (h : Heap), ((simplexHessianH xi h).2).take h.length = h) ∧
      (∀ (d xi : ℕ) (h : Heap), ((simplexBoundaryH d xi h).2).take h.length = h)) ∧
    ((∀ (diagA : Bool) (ai pbi xi : ℕ) (h : Heap),
        ((polytopeFeasibilityH diagA ai pbi xi h).2).take h.length = h) ∧
      (∀ (diagA : Bool) (ai pbi : ℕ) (wi : Option ℕ) (xi : ℕ) (h : Heap),
        ((polytopeValueH diagA ai pbi wi xi h).2).take h.length = h) ∧
      (∀ (diagA : Bool) (ai pbi : ℕ) (wi : Option ℕ) (xi : ℕ) (h : Heap),
        ((polytopeGradientH diagA ai pbi wi xi h).2).take h.length = h) ∧
      (∀ (diagA : Bool) (ai pbi : ℕ) (wi : Option ℕ) (xi : ℕ) (h : Heap),
        ((polytopeHessianH diagA ai pbi wi xi h).2).take h.length = h) ∧
      (∀ (diagA : Bool) (ai pbi : ℕ) (wi : Option ℕ) (yi : ℕ) (h : Heap),
        ((polytopeInverseGradientH diagA ai pbi wi yi h).2).take h.length = h)) ∧
    ((∀ (bs : List (CBarrier ℝ)) (xi : ℕ) (h : Heap),
        ((composeFeasibilityH bs xi h).2).take h.length = h) ∧
      (∀ (bs : List (CBarrier ℝ)) (xi : ℕ) (h : Heap),
        ((composeValueH bs xi h).2).take h.length = h) ∧
      (∀ (bs : List (CBarrier ℝ)) (xi : ℕ) (h : Heap),
        ((composeGradientH bs xi h).2).take h.length = h) ∧
      (∀ (bs : List (CBarrier ℝ)) (xi : ℕ) (h : Heap),
        ((composeHessianH bs xi h).2).take h.length = h) ∧
      (∀ (bs : List (CBarrier ℝ)) (yi : ℕ) (h : Heap),
        ((composeInverseGradientH bs yi h).2).take h.length = h) ∧
      (∀ (bs : List (CBarrier ℝ)) (xi : ℕ) (h : Heap),
        ((composeBoundaryH bs xi h).2).take h.length = h)) ∧
    ((∀ (bi xi : ℕ) (h : Heap), bi < h.length → xi < h.length →
        readV (boxFeasibilityH bi xi (boxFeasibilityH bi xi h).2).2
            (boxFeasibilityH bi xi (boxFeasibilityH bi xi h).2).1 =
          readV (boxFeasibilityH bi xi h).2 (boxFeasibilityH bi xi h).1) ∧
      (∀ (bi xi : ℕ) (h : Heap), bi < h.length → xi < h.length →
        readV (boxValueH bi xi (boxValueH bi xi h).2).2
            (boxValueH bi xi (boxValueH bi xi h).2).1 =
          readV (boxValueH bi xi h).2 (boxValueH bi xi h).1) ∧
      (∀ (bi xi : ℕ) (h : Heap), bi < h.length → xi < h.length →
        readV (boxGradientH bi xi (boxGradientH bi xi h).2).2
            (boxGradientH bi xi (boxGradientH bi xi h).2).1 =
          readV (boxGradientH bi xi h).2 (boxGradientH bi xi h).1) ∧
      (∀ (bi yi : ℕ) (h : Heap), bi < h.length → yi < h.length →
        readV (boxInverseGradientH bi yi (boxInverseGradientH bi yi h).2).2
            (boxInverseGradientH bi yi (boxInverseGradientH bi yi h).2).1 =
          readV (boxInverseGradientH bi yi h).2 (boxInverseGradientH bi yi h).1) ∧
      (∀ (bi xi : ℕ) (h : Heap), bi < h.length → xi < h.length →
        readV (boxHessianH bi xi (boxHessianH bi xi h).2).2
            (boxHessianH bi xi (boxHessianH bi xi h).2).1 =
          readV (boxHessianH bi xi h).2 (boxHessianH bi xi h).1) ∧
      (∀ (bi xi : ℕ) (h : Heap), bi < h.length → xi < h.length →
        readV (boxBoundaryH bi xi (boxBoundaryH bi xi h).2).2
            (boxBoundaryH bi xi (boxBoundaryH bi xi h).2).1 =
          readV (boxBoundaryH bi xi h).2 (boxBoundaryH bi xi h).1)) ∧
    ((∀ (ri ei xi : ℕ) (h : Heap), ri < h.length → ei < h.length → xi < h.length →
        readV (ellipsoidFeasibilityH ri ei xi (ellipsoidFeasibilityH ri ei xi h).2).2
            (ellipsoidFeasibilityH ri ei xi (ellipsoidFeasibilityH ri ei xi h).2).1 =
          readV (ellipsoidFeasibilityH ri ei xi h).2 (ellipsoidFeasibilityH ri ei xi h).1) ∧
      (∀ (ri ei xi : ℕ) (h : Heap), ri < h.length → ei < h.length → xi < h.length →
        readV (ellipsoidValueH ri ei xi (ellipsoidValueH ri ei xi h).2).2
            (ellipsoidValueH ri ei xi (ellipsoidValueH ri ei xi h).2).1 =
          readV (ellipsoidValueH ri ei xi h).2 (ellipsoidValueH ri ei xi h).1) ∧
      (∀ (ri ei xi : ℕ) (h : Heap), ri < h.length → ei < h.length → xi < h.length →
        readV (ellipsoidGradientH ri ei xi (ellipsoidGradientH ri ei xi h).2).2
            (ellipsoidGradientH ri ei xi (ellipsoidGradientH ri ei xi h).2).1 =
          readV (ellipsoidGradientH ri ei xi h).2 (ellipsoidGradientH ri ei xi h).1) ∧
      (∀ (ri ei yi : ℕ) (h : Heap), ri < h.length → ei < h.length → yi < h.length →
        readV (ellipsoidInverseGradientH ri ei yi (ellipsoidInverseGradientH ri ei yi h).2).2
            (ellipsoidInverseGradientH ri ei yi (ellipsoidInverseGradientH ri ei yi h).2).1 =
          readV (ellipsoidInverseGradientH ri ei yi h).2
            (ellipsoidInverseGradientH ri ei yi h).1) ∧
      (∀ (ri ei xi : ℕ) (h : Heap), ri < h.length → ei < h.length → xi < h.length →
        readM (ellipsoidHessianH ri ei xi (ellipsoidHessianH ri ei xi h).2).2
            (ellipsoidHessianH ri ei xi (ellipsoidHessianH ri ei xi h).2).1 =
          readM (ellipsoidHessianH ri ei xi h).2 (ellipsoidHessianH ri ei xi h).1) ∧
      (∀ (ri ei xi : ℕ) (h : Heap), ri < h.length → ei < h.length → xi < h.length →
        readV (ellipsoidBoundaryH ri ei xi (ellipsoidBoundaryH ri ei xi h).2).2
            (ellipsoidBoundaryH ri ei xi (ellipsoidBoundaryH ri ei xi h).2).1 =
          readV (ellipsoidBoundaryH ri ei xi h).2 (ellipsoidBoundaryH ri ei xi h).1)) ∧
    ((∀ (xi : ℕ) (h : Heap), xi < h.length →
        readV (simplexFeasibilityH xi (simplexFeasibilityH xi h).2).2
            (simplexFeasibilityH xi (simplexFeasibilityH xi h).2).1 =
          readV (simplexFeasibilityH xi h).2 (simplexFeasibilityH xi h).1) ∧
      (∀ (xi : ℕ) (h : Heap), xi < h.length →
        readV (simplexValueH xi (simplexValueH xi h).2).2
            (simplexValueH xi (simplexValueH xi h).2).1 =
          readV (simplexValueH xi h).2 (simplexValueH xi h).1) ∧
      (∀ (xi : ℕ) (h : Heap), xi < h.length →
        readV (simplexGradientH xi (simplexGradientH xi h).2).2
            (simplexGradientH xi (simplexGradientH xi h).2).1 =
          readV (simplexGradientH xi h).2 (simplexGradientH xi h).1) ∧
      (∀ (yi : ℕ) (h : Heap), yi < h.length →
        readV (simplexInverseGradientH yi (simplexInverseGradientH yi h).2).2
            (simplexInverseGradientH yi (simplexInverseGradientH yi h).2).1 =
          readV (simplexInverseGradientH yi h).2 (simplexInverseGradientH yi h).1) ∧
      (∀ (xi : ℕ) (h : Heap), xi < h.length →
        readM (simplexHessianH xi (simplexHessianH xi h).2).2
            (simplexHessianH xi (simplexHessianH xi h).2).1 =
          readM (simplexHessianH xi h).2 (simplexHessianH xi h).1) ∧
      (∀ (d xi : ℕ) (h : Heap), xi < h.length →
        readV (simplexBoundaryH d xi (simplexBoundaryH d xi h).2).2
            (simplexBoundaryH d xi (simplexBoundaryH d xi h).2).1 =
          readV (simplexBoundaryH d xi h).2 (simplexBoundaryH d xi h).1)) ∧
    ((∀ (diagA : Bool) (ai pbi xi : ℕ) (h : Heap),
        ai < h.length → pbi < h.length → xi < h.length →
        readV (polytopeFeasibilityH diagA ai pbi xi
              (polytopeFeasibilityH diagA ai pbi xi h).2).2
            (polytopeFeasibilityH diagA ai pbi xi
              (polytopeFeasibilityH diagA ai pbi xi h).2).1 =
          readV (polytopeFeasibilityH diagA ai pbi xi h).2
            (polytopeFeasibilityH diagA ai pbi xi h).1) ∧
      (∀ (diagA : Bool) (ai pbi : ℕ) (wi : Option ℕ) (xi : ℕ) (h : Heap),
        ai < h.length → pbi < h.length → xi < h.length → (∀ w ∈ wi, w < h.length) →
        readV (polytopeValueH diagA ai pbi wi xi (polytopeValueH diagA ai pbi wi xi h).2).2
            (polytopeValueH diagA ai pbi wi xi (polytopeValueH diagA ai pbi wi xi h).2).1 =
          readV (polytopeValueH diagA ai pbi wi xi h).2
            (polytopeValueH diagA ai pbi wi xi h).1) ∧
      (∀ (diagA : Bool) (ai pbi : ℕ) (wi : Option ℕ) (xi : ℕ) (h : Heap),
        ai < h.length → pbi < h.length → xi < h.length → (∀ w ∈ wi, w < h.length) →
        readV (polytopeGradientH diagA ai pbi wi xi
              (polytopeGradientH diagA ai pbi wi xi h).2).2
            (polytopeGradientH diagA ai pbi wi xi
              (polytopeGradientH diagA ai pbi wi xi h).2).1 =
          readV (polytopeGradientH diagA ai pbi wi xi h).2
            (polytopeGradientH diagA ai pbi wi xi h).1) ∧
      (∀ (ai pbi : ℕ) (wi : Option ℕ) (xi : ℕ) (h : Heap),
        ai < h.length → pbi < h.length → xi < h.length → (∀ w ∈ wi, w < h.length) →
        readV (polytopeHessianH true ai pbi wi xi
              (polytopeHessianH true ai pbi wi xi h).2).2
            (polytopeHessianH true ai pbi wi xi
              (polytopeHessianH true ai pbi wi xi h).2).1 =
          readV (polytopeHessianH true ai pbi wi xi h).2
            (polytopeHessianH true ai pbi wi xi h).1) ∧
      (∀ (ai pbi : ℕ) (wi : Option ℕ) (xi : ℕ) (h : Heap),
        ai < h.length → pbi < h.length → xi < h.length → (∀ w ∈ wi, w < h.length) →
        readM (polytopeHessianH false ai pbi wi xi
              (polytopeHessianH false ai pbi wi xi h).2).2
            (polytopeHessianH false ai pbi wi xi
              (polytopeHessianH false ai pbi wi xi h).2).1 =
          readM (polytopeHessianH false ai pbi wi xi h).2
            (polytopeHessianH false ai pbi wi xi h).1) ∧
      (∀ (diagA : Bool) (ai pbi : ℕ) (wi : Option ℕ) (yi : ℕ) (h : Heap),
        polytopeInverseGradientH diagA ai pbi wi yi
            (polytopeInverseGradientH diagA ai pbi wi yi h).2 =
          polytopeInverseGradientH diagA ai pbi wi yi h)) ∧
    ((∀ (bs : List (CBarrier ℝ)) (xi : ℕ) (h : Heap), xi < h.length →
        readV (composeFeasibilityH bs xi (composeFeasibilityH bs xi h).2).2
            (composeFeasibilityH bs xi (composeFeasibilityH bs xi h).2).1 =
          readV (composeFeasibilityH bs xi h).2 (composeFeasibilityH bs xi h).1) ∧
      (∀ (bs : List (CBarrier ℝ)) (xi : ℕ) (h : Heap), xi < h.length →
        readV (composeValueH bs xi (composeValueH bs xi h).2).2
            (composeValueH bs xi (composeValueH bs xi h).2).1 =
          readV (composeValueH bs xi h).2 (composeValueH bs xi h).1) ∧
      (∀ (bs : List (CBarrier ℝ)) (xi : ℕ) (h : Heap), xi < h.length →
        readV (composeGradientH bs xi (composeGradientH bs xi h).2).2
            (composeGradientH bs xi (composeGradientH bs xi h).2).1 =
          readV (composeGradientH bs xi h).2 (composeGradientH bs xi h).1) ∧
      (∀ (bs : List (CBarrier ℝ)) (xi : ℕ) (h : Heap),
        (composeDiagPart bs).isEmpty = true →
        composeHessianH bs xi (composeHessianH bs xi h).2 = composeHessianH bs xi h) ∧
      (∀ (bs : List (CBarrier ℝ)) (xi : ℕ) (h : Heap), xi < h.length →
        (composeDiagPart bs).isEmpty = false → composeDiagHess bs = true →
        readV (composeHessianH bs xi (composeHessianH bs xi h).2).2
            ((composeHessianH bs xi (composeHessianH bs xi h).2).1.getD 0) =
          readV (composeHessianH bs xi h).2 ((composeHessianH bs xi h).1.getD 0)) ∧
      (∀ (bs : List (CBarrier ℝ)) (xi : ℕ) (h : Heap), xi < h.length →
        (composeDiagPart bs).isEmpty = false → composeDiagHess bs = false →
        readM (composeHessianH bs xi (composeHessianH bs xi h).2).2
            ((composeHessianH bs xi (composeHessianH bs xi h).2).1.getD 0) =
          readM (composeHessianH bs xi h).2 ((composeHessianH bs xi h).1.getD 0)) ∧
      (∀ (bs : List (CBarrier ℝ)) (yi : ℕ) (h : Heap),
        composeInverseGradientH bs yi (composeInverseGradientH bs yi h).2 =
          composeInverseGradientH bs yi h) ∧
      (∀ (bs : List (CBarrier ℝ)) (xi : ℕ) (h : Heap),
        composeBoundaryH bs xi (composeBoundaryH bs xi h).2 = composeBoundaryH bs xi h)) :=
  ⟨⟨fun _ _ h => alloc1_frame _ h, fun _ _ h => alloc1_frame _ h,
    fun _ _ h => alloc1_frame _ h, boxInverseGradientH_frame, boxHessianH_frame,
    fun _ _ h => alloc1_frame _ h⟩,
   ⟨fun _ _ _ h => alloc1_frame _ h, ellipsoidValueH_frame, ellipsoidGradientH_frame,
    fun _ _ _ h => alloc1_frame _ h, ellipsoidHessianH_frame,
    fun _ _ _ h => alloc1_frame _ h⟩,
   ⟨simplexFeasibilityH_frame, fun _ h => alloc1_frame _ h, fun _ h => alloc1_frame _ h,
    simplexInverseGradientH_frame, simplexHessianH_frame, fun _ _ h => alloc1_frame _ h⟩,
   ⟨fun _ _ _ _ h => alloc1_frame _ h, polytopeValueH_frame, polytopeGradientH_frame,
    polytopeHessianH_frame, fun _ _ _ _ _ h => List.take_length h⟩,
   ⟨fun bs xi h => composeLoopH_frame _ _ _ bs xi h,
    fun bs xi h => composeLoopH_frame _ _ _ bs xi h,
    fun bs xi h => composeLoopH_frame _ _ _ bs xi h,
    composeHessianH_frame, fun _ _ h => List.take_length h, fun _ _ h => List.take_length h⟩,
   ⟨boxFeasibilityH_deterministic, boxValueH_deterministic, boxGradientH_deterministic,
    boxInverseGradientH_deterministic, boxHessianH_deterministic,
    boxBoundaryH_deterministic⟩,
   ⟨ellipsoidFeasibilityH_deterministic, ellipsoidValueH_deterministic,
    ellipsoidGradientH_deterministic, ellipsoidInverseGradientH_deterministic,
    ellipsoidHessianH_deterministic, ellipsoidBoundaryH_deterministic⟩,
   ⟨simplexFeasibilityH_deterministic, simplexValueH_deterministic,
    simplexGradientH_deterministic, simplexInverseGradientH_deterministic,
    simplexHessianH_deterministic, simplexBoundaryH_deterministic⟩,
   ⟨polytopeFeasibilityH_deterministic, polytopeValueH_deterministic,
    polytopeGradientH_deterministic, polytopeHessianH_diag_deterministic,
    polytopeHessianH_full_deterministic, fun _ _ _ _ _ _ => rfl⟩,
   ⟨composeFeasibilityH_deterministic, composeValueH_deterministic,
    composeGradientH_deterministic,
    fun bs xi h hde => by
      rw [composeHessianH_crash bs xi h hde]
      exact composeHessianH_crash bs xi h hde,
    fun bs xi h hx hde hcd => composeHessianH_diag_deterministic bs xi h hx hde hcd,
    fun bs xi h hx hde hcd => composeHessianH_full_deterministic bs xi h hx hde hcd,
    fun _ _ _ => rfl, fun _ _ _ => rfl⟩⟩

/-- Witness for C10's determinism clauses at the concrete two-tensor heap
`[bounds = [1], x = [0]]` (ids 0 and 1), instancing the `BoxBarrier.hessian`
clause. -/
theorem barrier_operations_pure_witness :
    ((0 : ℕ) < ([TVal.v [(1 : ℝ)], TVal.v [(0 : ℝ)]] : Heap).length ∧
        (1 : ℕ) < ([TVal.v [(1 : ℝ)], TVal.v [(0 : ℝ)]] : Heap).length) ∧
      readV (boxHessianH 0 1 (boxHessianH 0 1 [TVal.v [(1 : ℝ)], TVal.v [(0 : ℝ)]]).2).2
          (boxHessianH 0 1 (boxHessianH 0 1 [TVal.v [(1 : ℝ)], TVal.v [(0 : ℝ)]]).2).1 =
        readV (boxHessianH 0 1 [TVal.v [(1 : ℝ)], TVal.v [(0 : ℝ)]]).2
          (boxHessianH 0 1 [TVal.v [(1 : ℝ)], TVal.v [(0 : ℝ)]]).1 :=
  ⟨⟨by decide, by decide⟩,
    barrier_operations_pure.2.2.2.2.2.1.2.2.2.2.1 0 1
      [TVal.v [(1 : ℝ)], TVal.v [(0 : ℝ)]] (by decide) (by decide)⟩

end ConSpace
